import Mathlib

/-!
VST wrapper of lsp-plugins: state codec and port factory.

A shallow embedding of `include/container/vst/wrapper.h`.

Conventions of the embedding.

* A byte is a natural number below 256; a buffer is a `List Nat`.
* A C pointer into the bank is modelled by the bytes it points to (the suffix
  of the buffer that starts at the pointer); `p + k` is `List.drop k`.  A read
  past the end of the modelled buffer yields 0.
* A pointer difference (`ptrdiff_t`) is an `Int`; `size_t` and `ptrdiff_t` are
  64 bits wide, `uint32_t` arithmetic is reduced modulo `2^32`.
* A C string (a port id, a KVT name) is the list of its characters without the
  terminating NUL.
* A `float`/`double` KVT value is represented by its IEEE bit pattern: the codec
  only moves the bits.
-/

namespace LSP

/-! ## Machine integers and memory -/

/-- Conversion of a `ptrdiff_t` to `size_t` (64 bit, two's complement). -/
def to_size_t (x : Int) : Nat := (x % 2 ^ 64).toNat

/-- Reinterpretation of a 64-bit pattern as `ptrdiff_t`. -/
def to_ptrdiff (x : Int) : Int := (x + 2 ^ 63) % 2 ^ 64 - 2 ^ 63

/-- Reinterpretation of a 32-bit pattern as `int32_t` / `VstInt32`. -/
def to_int32 (x : Nat) : Int := ((x : Int) + 2 ^ 31) % 2 ^ 32 - 2 ^ 31

/-- Reinterpretation of a 64-bit pattern as `int64_t`. -/
def to_int64 (x : Nat) : Int := ((x : Int) + 2 ^ 63) % 2 ^ 64 - 2 ^ 63

/-- The 32-bit pattern of an integer (`uint32_t(x)`). -/
def to_uint32 (x : Int) : Nat := (x % 2 ^ 32).toNat

/-- The 64-bit pattern of an integer (`uint64_t(x)`). -/
def to_uint64 (x : Int) : Nat := (x % 2 ^ 64).toNat

/-- Read of the byte `p[i]`. -/
def rd (p : List Nat) (i : Nat) : Nat := p.getD i 0

/-- Big-endian 32-bit word at `p`: `BE_TO_CPU(*(const uint32_t *)p)`. -/
def be32 (p : List Nat) : Nat :=
  ((rd p 0 * 256 + rd p 1) * 256 + rd p 2) * 256 + rd p 3

/-- Big-endian 64-bit word at `p`: `BE_TO_CPU(*(const uint64_t *)p)`. -/
def be64 (p : List Nat) : Nat := be32 p * 2 ^ 32 + be32 (p.drop 4)

/-- The four bytes of a 32-bit word, most significant first (`CPU_TO_BE`). -/
def put32 (x : Nat) : List Nat :=
  [x / 2 ^ 24 % 256, x / 2 ^ 16 % 256, x / 2 ^ 8 % 256, x % 256]

/-- The eight bytes of a 64-bit word, most significant first. -/
def put64 (x : Nat) : List Nat := put32 (x / 2 ^ 32 % 2 ^ 32) ++ put32 (x % 2 ^ 32)

/-- The libc `strnlen(p, maxlen)`: number of bytes before the first NUL, at most `maxlen`. -/
def strnlen (p : List Nat) (maxlen : Nat) : Nat :=
  min maxlen (p.takeWhile (fun b => b != 0)).length

/-! ## Constants of `container/vst/defs.h` (not part of the sources at hand) -/

/-- Modelled from the spec: the constants, sizes and the string helper that `wrapper.h`
takes from `container/vst/defs.h` and the VST SDK headers, which are absent; they are
parameters of the embedding.  `vst_deserialize_string maxlen data length` gives the
number of bytes consumed (not positive on failure) and the string read. -/
structure VSTConsts where
  cMagic : Nat
  chunkBankMagic : Nat
  sizeof_fxBank : Nat
  VST_BANK_HDR_SIZE : Nat
  VST_STATE_BUFFER_SIZE : Nat
  sizeof_vst_state : Nat
  VST_FX_VERSION_KVT_SUPPORT : Int
  LSP_MAX_PARAM_ID_BYTES : Nat
  vst_deserialize_string : Nat → List Nat → Nat → Int × List Nat
  LSP_VST_INT32 : Nat
  LSP_VST_UINT32 : Nat
  LSP_VST_INT64 : Nat
  LSP_VST_UINT64 : Nat
  LSP_VST_FLOAT32 : Nat
  LSP_VST_FLOAT64 : Nat
  LSP_VST_STRING : Nat
  LSP_VST_BLOB : Nat

/-- The case labels of the KVT type switch; a C `switch` compiles only when they are
pairwise distinct. -/
def VSTConsts.tags (c : VSTConsts) : List Nat :=
  [c.LSP_VST_INT32, c.LSP_VST_UINT32, c.LSP_VST_INT64, c.LSP_VST_UINT64,
   c.LSP_VST_FLOAT32, c.LSP_VST_FLOAT64, c.LSP_VST_STRING, c.LSP_VST_BLOB]

/-! ## Ports -/

/-- Modelled from the spec: the port classes of `container/vst/ports.h` are absent.
A port is what the codec uses of it: the id of its metadata (`none` for a NULL id),
its direction, `serializable()`, its value and its three codec routines.
`serialize` gives the bytes the port writes to the chunk; `deserialize_v1` is handed
the bytes at `ptr` and the size `tail - ptr` and gives the number of bytes consumed
and the new value; `deserialize_v2` is handed the payload bytes and gives its
boolean result and the new value. -/
structure VSTPort (V : Type) where
  id : Option (List Nat)
  out : Bool
  serializable : Bool
  value : V
  serialize : V → List Nat
  deserialize_v1 : V → List Nat → Nat → Int × V
  deserialize_v2 : V → List Nat → Bool × V

/-- Index of the port returned by `VSTWrapper::find_by_id`: the first port of the flat
list whose id is not NULL and equals `id`. -/
def find_by_id {V : Type} : List (VSTPort V) → List Nat → Option Nat
  | [], _ => none
  | sp :: rest, id =>
    if sp.id = some id then some 0
    else (find_by_id rest id).map (· + 1)

/-- The port list after port number `i` has run `deserialize_v1` on the bytes at `ptr`
with the size `size`. -/
def port_deserialize_v1 {V : Type} (ports : List (VSTPort V)) (i : Nat) (ptr : List Nat)
    (size : Nat) : List (VSTPort V) :=
  ports.modify (fun p => { p with value := (p.deserialize_v1 p.value ptr size).2 }) i

/-- The port list after port number `i` has run `deserialize_v2` on `payload`. -/
def port_deserialize_v2 {V : Type} (ports : List (VSTPort V)) (i : Nat) (payload : List Nat) :
    List (VSTPort V) :=
  ports.modify (fun p => { p with value := (p.deserialize_v2 p.value payload).2 }) i

/-! ## KVT storage -/

inductive status_t where
  | STATUS_OK
  | STATUS_NOT_FOUND
  | STATUS_INVALID_VALUE
  | STATUS_BAD_TYPE
  | STATUS_UNKNOWN_ERR
  deriving DecidableEq, Repr

/-- A KVT parameter `kvt_param_t`: the type tag together with the member of the union
that the tag selects.  `any` stands for `KVT_ANY` and every tag the codec does not
handle.  A NULL string pointer is `none`. -/
inductive kvt_param_t where
  | any
  | int32 (v : Int)
  | uint32 (v : Nat)
  | int64 (v : Int)
  | uint64 (v : Nat)
  | float32 (bits : Nat)
  | float64 (bits : Nat)
  | str (s : Option (List Nat))
  | blob (ctype : Option (List Nat)) (data : Option (List Nat)) (size : Nat)
  deriving DecidableEq, Repr

/-- Modelled from the spec: `KVTStorage` and its iterator (`core/KVTStorage.h`) are
absent.  A node of the enumeration carries what the iterator reports for it: the
name (`none` when `name()` returns NULL), the status of `get` and the parameter it
yields, and the two pending flags. -/
structure KVTNode where
  name : Option (List Nat)
  res : status_t
  param : kvt_param_t
  tx_pending : Bool
  rx_pending : Bool
  deriving DecidableEq, Repr

/-- Modelled from the spec: the store is the list of its nodes in enumeration order. -/
abbrev KVTStorage := List KVTNode

/-- Modelled from the spec: `KVTStorage::put(name, p, KVT_TX)` stores the parameter
under its name, replacing an entry of that name, and marks it pending. -/
def KVTStorage.put : KVTStorage → List Nat → kvt_param_t → KVTStorage
  | [], name, p => [⟨some name, .STATUS_OK, p, true, false⟩]
  | n :: rest, name, p =>
    if n.name = some name then ⟨some name, .STATUS_OK, p, true, n.rx_pending⟩ :: rest
    else n :: KVTStorage.put rest name p

/-- Modelled from the spec: `KVTStorage::clear` removes every entry. -/
def KVTStorage.clear (_ : KVTStorage) : KVTStorage := []

/-- Modelled from the spec: `KVTStorage::gc` reclaims entries that are no longer live and
leaves the live entries as they are. -/
def KVTStorage.gc (s : KVTStorage) : KVTStorage := s

/-! ## The bank -/

/-- The `fxBank` the host hands to `deserialize_state`, or that `serialize_state` returns.
Every header field is given by the value of its four bytes read big-endian (the code
compares the raw field with a byte-swapped constant, or byte-swaps the field, which is
the same test on every host); `body` holds the bytes that follow `sizeof(fxBank)`. -/
structure fxBank where
  chunkMagic : Nat
  byteSize : Nat
  fxMagic : Nat
  version : Nat
  fxID : Nat
  fxVersion : Nat
  numPrograms : Nat
  currentProgram : Nat
  content_data_size : Nat
  body : List Nat
  deriving DecidableEq, Repr

/-- The part of the wrapper that the state codec reads and writes: the flat port list
`vPorts`, the store `sKVT`, and `uniqueID` and `version` of `pEffect`. -/
structure VSTWrapper (V : Type) where
  vPorts : List (VSTPort V)
  sKVT : KVTStorage
  uniqueID : Nat
  version : Int

/-! ## deserialize_v2 -/

/-- How the port-record loop of `deserialize_v2` is left: by a `return` inside the loop,
or by the loop ending (condition false, or `break` on a name that starts with `/`) with
the pointer `head` and the difference `tail - head`. -/
inductive V2Exit where
  | returned
  | left (head : List Nat) (rem : Int)
  deriving DecidableEq, Repr

/-- The port-record loop of `deserialize_v2` (lines 1181-1225).  `head` is the pointer,
`rem` is `tail - head`.  One unit of fuel is spent per iteration; an iteration that goes
on to the next one moves `head` forward by at least five bytes of the buffer. -/
def v2_port_loop {V : Type} : Nat → List Nat → Int → List (VSTPort V) → List (VSTPort V) × V2Exit
  | 0, _, _, ports => (ports, .returned)
  | fuel + 1, head, rem, ports =>
    if 4 ≤ to_size_t rem then
      -- uint32_t len = BE_TO_CPU(*head) + sizeof(uint32_t)
      let len : Nat := (be32 head + 4) % 2 ^ 32
      if (len : Int) > rem then (ports, .returned)
      else
        -- next = &head[len]; head += sizeof(uint32_t)
        let next := head.drop len
        let head1 := head.drop 4
        let nh : Int := (len : Int) - 4
        -- len = strnlen(name, next - head) + 1
        let len2 : Nat := (strnlen head1 (to_size_t nh) + 1) % 2 ^ 32
        if (len2 : Int) > nh then (ports, .returned)
        else if rd head1 0 = 47 then (ports, .left head1 (rem - 4))
        else
          let name := head1.take (len2 - 1)
          let head2 := head1.drop len2
          match find_by_id ports name with
          | none => v2_port_loop fuel next (rem - len) ports
          | some i =>
            let payload := head2.take (nh - len2).toNat
            v2_port_loop fuel next (rem - len) (port_deserialize_v2 ports i payload)
    else (ports, .left head rem)

/-- The local `p` of the KVT loop after the type switch (lines 1261-1334): `any` when
`p.type` is still `KVT_ANY`.  `head` points behind the type byte, `d` is `next - head`.
In the `LSP_VST_BLOB` case the content type, the size and the data are assigned but
`p.type` is not, so that the result is `any`. -/
def v2_kvt_switch (c : VSTConsts) (type : Nat) (head : List Nat) (d : Int) : kvt_param_t :=
  if type = c.LSP_VST_INT32 then
    if to_size_t d ≠ 4 then .any else .int32 (to_int32 (be32 head))
  else if type = c.LSP_VST_UINT32 then
    if to_size_t d ≠ 4 then .any else .uint32 (be32 head)
  else if type = c.LSP_VST_INT64 then
    if to_size_t d ≠ 8 then .any else .int64 (to_int64 (be64 head))
  else if type = c.LSP_VST_UINT64 then
    if to_size_t d ≠ 8 then .any else .uint64 (be64 head)
  else if type = c.LSP_VST_FLOAT32 then
    if to_size_t d ≠ 4 then .any else .float32 (be32 head)
  else if type = c.LSP_VST_FLOAT64 then
    if to_size_t d ≠ 8 then .any else .float64 (be64 head)
  else if type = c.LSP_VST_STRING then
    if strnlen head (to_size_t d) < to_size_t d then
      .str (some (head.takeWhile (fun b => b != 0)))
    else .any
  else if type = c.LSP_VST_BLOB then
    let len : Nat := (strnlen head (to_size_t d) + 1) % 2 ^ 32
    if len > to_size_t d then .any
    else .any
  else .any

/-- The KVT-record loop of `deserialize_v2` (lines 1237-1344), with the same conventions
as `v2_port_loop`; the result is the store when the loop is left. -/
def v2_kvt_loop (c : VSTConsts) : Nat → List Nat → Int → KVTStorage → KVTStorage
  | 0, _, _, kvt => kvt
  | fuel + 1, head, rem, kvt =>
    if 4 ≤ to_size_t rem then
      let len : Nat := (be32 head + 4) % 2 ^ 32
      if (len : Int) > rem then kvt
      else
        let next := head.drop len
        let head1 := head.drop 4
        let nh : Int := (len : Int) - 4
        let len2 : Nat := (strnlen head1 (to_size_t nh) + 1) % 2 ^ 32
        if (len2 : Int) > nh then kvt
        else
          let name := head1.take (len2 - 1)
          let head2 := head1.drop len2
          -- uint8_t type = *(head++)
          let type := rd head2 0
          let head3 := head2.drop 1
          let p := v2_kvt_switch c type head3 (nh - len2 - 1)
          let kvt1 := if p ≠ .any then kvt.put name p else kvt
          v2_kvt_loop c fuel next (rem - len) kvt1
    else kvt

/-- The function `VSTWrapper::deserialize_v2(bank, bytes)` (lines 1172-1351).  The
difference `tail - head` at the start is `bytes - VST_BANK_HDR_SIZE`, since
`tail = &bank[bytes + sizeof(fxBank) - VST_BANK_HDR_SIZE]` and `head = bank + sizeof(fxBank)`.
After the port loop the function returns when `tail >= head`; the blocking lock of the
KVT mutex is taken to succeed. -/
def deserialize_v2 {V : Type} (c : VSTConsts) (w : VSTWrapper V) (bank : fxBank) (bytes : Nat) :
    VSTWrapper V :=
  let rem0 : Int := to_ptrdiff ((bytes : Int) - c.VST_BANK_HDR_SIZE)
  match v2_port_loop (bank.body.length + 1) bank.body rem0 w.vPorts with
  | (ports, .returned) => { w with vPorts := ports }
  | (ports, .left head rem) =>
    if rem ≥ 0 then { w with vPorts := ports }
    else
      let kvt := v2_kvt_loop c (head.length + 1) head rem w.sKVT.clear
      { w with vPorts := ports, sKVT := kvt.gc }

/-! ## deserialize_v1 -/

/-- The outcome of one iteration of the loop of `deserialize_v1`: the iteration returns
from the function (`stop`), or it reaches the end of the loop body (`next`), having read
the record of the port `id`, with the new pointer, the new difference `tail - ptr` and
the port list. -/
inductive V1Step (V : Type) where
  | stop (ports : List (VSTPort V))
  | next (id : List Nat) (ptr : List Nat) (rem : Int) (ports : List (VSTPort V))

/-- The body of the loop of `deserialize_v1` (lines 1143-1168): `ptr` is the pointer and
`rem` the difference `tail - ptr`. -/
def v1_step {V : Type} (c : VSTConsts) (ptr : List Nat) (rem : Int) (ports : List (VSTPort V)) :
    V1Step V :=
  let r := c.vst_deserialize_string c.LSP_MAX_PARAM_ID_BYTES ptr (to_size_t rem)
  if r.1 ≤ 0 then .stop ports
  else
    let ptr1 := ptr.drop r.1.toNat
    let rem1 := rem - r.1
    match find_by_id ports r.2 with
    | none => .stop ports
    | some i =>
      let delta := (ports[i]?.map
        (fun vp => (vp.deserialize_v1 vp.value ptr1 (to_size_t rem1)).1)).getD 0
      let ports1 := port_deserialize_v1 ports i ptr1 (to_size_t rem1)
      if delta ≤ 0 then .stop ports1
      else .next r.2 (ptr1.drop delta.toNat) (rem1 - delta) ports1

/-- The loop `while ((params--) > 0)` of `deserialize_v1` (lines 1141-1169). -/
def v1_loop {V : Type} (c : VSTConsts) : Nat → List Nat → Int → List (VSTPort V) → List (VSTPort V)
  | 0, _, _, ports => ports
  | params + 1, ptr, rem, ports =>
    match v1_step c ptr rem ports with
    | .stop ports1 => ports1
    | .next _ ptr1 rem1 ports1 => v1_loop c params ptr1 rem1 ports1

/-- The function `VSTWrapper::deserialize_v1(bank, bytes)` (lines 1130-1170).  The state
starts behind the bank, its record count `nItems` is a 32-bit big-endian word and the
data `vData` follow at `sizeof(vst_state)`. -/
def deserialize_v1 {V : Type} (c : VSTConsts) (w : VSTWrapper V) (bank : fxBank) (bytes : Nat) :
    VSTWrapper V :=
  let params := be32 bank.body
  let ptr := bank.body.drop c.sizeof_vst_state
  let rem0 : Int := to_ptrdiff ((bytes : Int) - c.sizeof_vst_state - c.sizeof_vst_state)
  { w with vPorts := v1_loop c params ptr rem0 w.vPorts }

/-! ## deserialize_state -/

/-- What `deserialize_state` does with a bank: it returns after a failed header check, or
it calls one of the two decoders with the byte size it has read. -/
inductive Decoder where
  | rejected
  | v1 (bytes : Nat)
  | v2 (bytes : Nat)
  deriving DecidableEq, Repr

/-- The header checks and the version dispatch of `deserialize_state` (lines 1056-1105). -/
def select_decoder {V : Type} (c : VSTConsts) (w : VSTWrapper V) (bank : fxBank) : Decoder :=
  if bank.chunkMagic ≠ c.cMagic then .rejected
  else
    -- size_t byte_size = BE_TO_CPU(VstInt32(bank->byteSize))
    let byte_size := to_size_t (to_int32 bank.byteSize)
    if byte_size < c.VST_STATE_BUFFER_SIZE then .rejected
    else if bank.fxMagic ≠ c.chunkBankMagic then .rejected
    else if bank.fxID ≠ w.uniqueID then .rejected
    else if to_int32 bank.version > w.version then .rejected
    else if bank.numPrograms ≠ 0 then .rejected
    else if to_int32 bank.fxVersion < c.VST_FX_VERSION_KVT_SUPPORT then .v1 byte_size
    else .v2 byte_size

/-- The function `VSTWrapper::deserialize_state(data)` (lines 1051-1106). -/
def deserialize_state {V : Type} (c : VSTConsts) (w : VSTWrapper V) (bank : fxBank) :
    VSTWrapper V :=
  match select_decoder c w bank with
  | .rejected => w
  | .v1 bytes => deserialize_v1 c w bank bytes
  | .v2 bytes => deserialize_v2 c w bank bytes

/-! ## serialize_state -/

/-- Modelled from the spec: `vst_chunk_t` (`container/vst/chunk.h`) is absent.  A record
of the chunk: the four bytes reserved by `write(uint32_t(0))`, overwritten by `write_at`
with `uint32_t(offset - param_off - sizeof(uint32_t))`, followed by what was written in
between.  Writes to the chunk are taken to succeed. -/
def chunk_record (content : List Nat) : List Nat :=
  put32 (content.length % 2 ^ 32) ++ content

/-- The port loop of `serialize_state` (lines 894-921): the bytes written to the chunk. -/
def serialize_ports {V : Type} : List (VSTPort V) → List Nat
  | [] => []
  | vp :: rest =>
    match vp.id with
    | none => serialize_ports rest
    | some id =>
      if vp.out ∨ ¬ vp.serializable then serialize_ports rest
      else chunk_record (id ++ [0] ++ vp.serialize vp.value) ++ serialize_ports rest

/-- The type switch of `serialize_state` (lines 955-1016): the status `res` after the
switch and the bytes written by it. -/
def serialize_kvt_param (c : VSTConsts) : kvt_param_t → status_t × List Nat
  | .int32 v => (.STATUS_OK, c.LSP_VST_INT32 :: put32 (to_uint32 v))
  | .uint32 v => (.STATUS_OK, c.LSP_VST_UINT32 :: put32 (v % 2 ^ 32))
  | .int64 v => (.STATUS_OK, c.LSP_VST_INT64 :: put64 (to_uint64 v))
  | .uint64 v => (.STATUS_OK, c.LSP_VST_UINT64 :: put64 (v % 2 ^ 64))
  | .float32 v => (.STATUS_OK, c.LSP_VST_FLOAT32 :: put32 (v % 2 ^ 32))
  | .float64 v => (.STATUS_OK, c.LSP_VST_FLOAT64 :: put64 (v % 2 ^ 64))
  | .str s => (.STATUS_OK, c.LSP_VST_STRING :: (s.getD [] ++ [0]))
  | .blob ctype data size =>
    if size > 0 ∧ data = none then (.STATUS_INVALID_VALUE, [])
    else (.STATUS_OK, c.LSP_VST_BLOB :: (ctype.getD [] ++ [0] ++ (data.getD []).take size))
  | .any => (.STATUS_BAD_TYPE, [])

/-- The enumeration loop of the KVT section of `serialize_state` (lines 932-1027) over the
nodes that `enum_all` yields: the value of `res` when the loop is left and the bytes of the
completed records. -/
def serialize_kvt (c : VSTConsts) : List KVTNode → status_t → status_t × List Nat
  | [], res => (res, [])
  | n :: rest, _ =>
    if n.res = .STATUS_NOT_FOUND then serialize_kvt c rest n.res
    else if n.res ≠ .STATUS_OK then (n.res, [])
    else
      match n.name with
      | none => (n.res, [])
      | some name =>
        let r := serialize_kvt_param c n.param
        if r.1 ≠ .STATUS_OK then (r.1, [])
        else
          let t := serialize_kvt c rest r.1
          (t.1, chunk_record (name ++ [0] ++ r.2) ++ t.2)

/-- The function `VSTWrapper::serialize_state(dst)` (lines 871-1049): `none` when it
returns 0 and sets `*dst` to NULL, else the returned size and the bank `*dst`.  The blocking
lock of the KVT mutex is taken to succeed. -/
def serialize_state {V : Type} (c : VSTConsts) (w : VSTWrapper V) : Option (Nat × fxBank) :=
  let ports := serialize_ports w.vPorts
  let k := serialize_kvt c w.sKVT .STATUS_OK
  if k.1 ≠ .STATUS_OK then none
  else
    let body := ports ++ k.2
    let offset := c.sizeof_fxBank + body.length
    some (offset,
      { chunkMagic := c.cMagic
        byteSize := to_uint32 ((offset : Int) - c.VST_BANK_HDR_SIZE)
        fxMagic := c.chunkBankMagic
        version := 1
        fxID := w.uniqueID
        fxVersion := 2000
        numPrograms := 0
        currentProgram := 0
        content_data_size := to_uint32 (body.length : Int)
        body := body })

/-! ## The port factory -/

/-- The roles `create_port` switches on; `R_AUDIO_` is the role of audio ports, `R_OTHER` is
any role without a case. -/
inductive role_t where
  | R_MESH
  | R_FBUFFER
  | R_MIDI
  | R_PATH
  | R_AUDIO_
  | R_CONTROL
  | R_METER
  | R_PORT_SET
  | R_OTHER
  deriving DecidableEq, Repr

/-- Modelled from the spec: the declaration `port_t` (`metadata/metadata.h`) is absent.  A
declaration is what the factory reads of it: id, role, the direction `IS_OUT_PORT`, the
results of `IS_GROWING_PORT` and `IS_LOWERING_PORT`, the range and the start value (floats,
taken as rationals: rounding is not modelled), the number of rows a `VSTPortGroup` built on
it reports, and the member table (`none` for NULL), given by its entries before the
terminating entry.  `IS_IN_PORT` is the negation of `IS_OUT_PORT`. -/
inductive port_t where
  | mk (id : List Nat) (role : role_t) (out growing lowering : Bool) (min max start : ℚ)
      (rows : Nat) (members : Option (List port_t))

def port_t.id : port_t → List Nat
  | .mk id _ _ _ _ _ _ _ _ _ => id

def port_t.role : port_t → role_t
  | .mk _ role _ _ _ _ _ _ _ _ => role

def port_t.out : port_t → Bool
  | .mk _ _ out _ _ _ _ _ _ _ => out

def port_t.growing : port_t → Bool
  | .mk _ _ _ growing _ _ _ _ _ _ => growing

def port_t.lowering : port_t → Bool
  | .mk _ _ _ _ lowering _ _ _ _ _ => lowering

def port_t.min : port_t → ℚ
  | .mk _ _ _ _ _ min _ _ _ _ => min

def port_t.max : port_t → ℚ
  | .mk _ _ _ _ _ _ max _ _ _ => max

def port_t.start : port_t → ℚ
  | .mk _ _ _ _ _ _ _ start _ _ => start

def port_t.rows : port_t → Nat
  | .mk _ _ _ _ _ _ _ _ rows _ => rows

def port_t.members : port_t → Option (List port_t)
  | .mk _ _ _ _ _ _ _ _ _ members => members

/-- The declaration with another id. -/
def port_t.set_id : port_t → List Nat → port_t
  | .mk _ role out growing lowering min max start rows members, id =>
    .mk id role out growing lowering min max start rows members

/-- The declaration with another start value (`cm->start = ...`). -/
def port_t.set_start : port_t → ℚ → port_t
  | .mk id role out growing lowering min max _ rows members, start =>
    .mk id role out growing lowering min max start rows members

mutual
/-- Nesting depth of a declaration: 1 for a declaration without members. -/
def port_t.depth : port_t → Nat
  | .mk _ _ _ _ _ _ _ _ _ none => 1
  | .mk _ _ _ _ _ _ _ _ _ (some ms) => port_t.depths ms + 1
/-- Largest nesting depth in a table of declarations. -/
def port_t.depths : List port_t → Nat
  | [] => 0
  | m :: ms => Nat.max (port_t.depth m) (port_t.depths ms)
end

/-- Modelled from the spec: `clone_port_metadata(members, postfix)` (absent) clones every
member declaration with the postfix appended to its id; it gives NULL for a NULL table.
Failure of the allocation is not modelled. -/
def clone_port_metadata (members : Option (List port_t)) (pfx : List Nat) :
    Option (List port_t) :=
  members.map (fun ms => ms.map (fun m => m.set_id (m.id ++ pfx)))

/-- The classes of port objects that `create_port` constructs. -/
inductive port_class where
  | VSTMeshPort
  | VSTFrameBufferPort
  | VSTMidiOutputPort
  | VSTMidiInputPort
  | VSTPathPort
  | VSTAudioPort
  | VSTMeterPort
  | VSTParameterPort
  | VSTPortGroup
  deriving DecidableEq, Repr

/-- The classes of UI port objects that `create_port` constructs. -/
inductive ui_port_class where
  | VSTUIMeshPort
  | VSTUIFrameBufferPort
  | VSTUIPathPort
  | VSTUIMeterPort
  | VSTUIParameterPort
  | VSTUIPortGroup
  deriving DecidableEq, Repr

/-- A port object made by the factory: its class and the declaration it was built on. -/
structure PortObject where
  cls : port_class
  metadata : port_t

/-- A UI port object made by the factory. -/
structure UIPortObject where
  cls : ui_port_class
  metadata : port_t

/-- The part of the wrapper the factory writes: the port lists, the generated metadata,
the ports registered with the plugin by `pPlugin->add_port` (in order of registration), and
the flag `effFlagsIsSynth` of `pEffect->flags`. -/
structure PortRegistry where
  vInputs : List PortObject
  vOutputs : List PortObject
  vParams : List PortObject
  vPorts : List PortObject
  vUIPorts : List UIPortObject
  vGenMetadata : List (List port_t)
  plugin_ports : List PortObject
  isSynth : Bool

/-- The registry of a freshly constructed wrapper. -/
def PortRegistry.empty : PortRegistry := ⟨[], [], [], [], [], [], [], false⟩

/-- The text `snprintf(postfix_buf, sizeof(postfix_buf)-1, "%s_%d", postfix, int(row))`
leaves in the buffer of `maxbytes` bytes (row numbers below `2^31`). -/
def row_pfx (maxbytes : Nat) (pfx : Option (List Nat)) (row : Nat) : List Nat :=
  (pfx.getD [] ++ 95 :: (Nat.toDigits 10 row).map Char.toNat).take (maxbytes - 2)

/-- The start value a cloned member gets in row `row` of `rows` (lines 252-255). -/
def row_start (cm : port_t) (row rows : Nat) : ℚ :=
  if cm.growing then cm.min + ((cm.max - cm.min) * row) / rows
  else if cm.lowering then cm.max - ((cm.max - cm.min) * row) / rows
  else cm.start

/-- The tail of `create_port` (lines 272-277): the results are appended to the lists. -/
def finish_port (vp : Option PortObject) (vup : Option UIPortObject) (st : PortRegistry) :
    Option PortObject × PortRegistry :=
  (vp, { st with vPorts := st.vPorts ++ vp.toList, vUIPorts := st.vUIPorts ++ vup.toList })

/-- The loop over the cloned members of one row (lines 250-260), the start values being
assigned already; `create` stands for the recursive call of `create_port`. -/
def create_members
    (create : port_t → Option (List Nat) → PortRegistry → Option PortObject × PortRegistry)
    (pfx_buf : List Nat) (cms : List port_t) (s : PortRegistry) : PortRegistry :=
  cms.foldl (fun s1 cm =>
    let r := create cm (some pfx_buf) s1
    match r.1 with
    | some p =>
      if p.metadata.role ≠ .R_PORT_SET then
        { r.2 with plugin_ports := r.2.plugin_ports ++ [p] }
      else r.2
    | none => r.2) s

/-- The cloned member table of row `row` of the group `port` with the start values of the
row assigned (lines 242-255); `none` when `clone_port_metadata` gives NULL. -/
def generated_row (maxbytes : Nat) (pfx : Option (List Nat)) (port : port_t) (row : Nat) :
    Option (List port_t) :=
  (clone_port_metadata port.members (row_pfx maxbytes pfx row)).map
    (fun cms => cms.map (fun cm => cm.set_start (row_start cm row port.rows)))

/-- The loop over the rows of a port group (lines 239-262).  The generated metadata of a row
is the cloned table with the start values of the row assigned: the code stores the pointer
to the table and assigns the start values in place while it creates the ports. -/
def create_rows
    (create : port_t → Option (List Nat) → PortRegistry → Option PortObject × PortRegistry)
    (maxbytes : Nat) (port : port_t) (pfx : Option (List Nat)) (st : PortRegistry) :
    PortRegistry :=
  (List.range port.rows).foldl (fun s row =>
    match generated_row maxbytes pfx port row with
    | none => s
    | some cms =>
      create_members create (row_pfx maxbytes pfx row) cms
        { s with vGenMetadata := s.vGenMetadata ++ [cms] }) st

/-- The function `VSTWrapper::create_port(port, postfix)` (lines 179-278).  One unit of
fuel is spent per level of nesting; `maxbytes` is `LSP_MAX_PARAM_ID_BYTES`. -/
def create_port (maxbytes : Nat) : Nat → port_t → Option (List Nat) → PortRegistry →
    Option PortObject × PortRegistry
  | 0, _, _, st => (none, st)
  | fuel + 1, port, pfx, st =>
    match port.role with
    | .R_MESH => finish_port (some ⟨.VSTMeshPort, port⟩) (some ⟨.VSTUIMeshPort, port⟩) st
    | .R_FBUFFER =>
      finish_port (some ⟨.VSTFrameBufferPort, port⟩) (some ⟨.VSTUIFrameBufferPort, port⟩) st
    | .R_MIDI =>
      if port.out then finish_port (some ⟨.VSTMidiOutputPort, port⟩) none st
      else finish_port (some ⟨.VSTMidiInputPort, port⟩) none { st with isSynth := true }
    | .R_PATH => finish_port (some ⟨.VSTPathPort, port⟩) (some ⟨.VSTUIPathPort, port⟩) st
    | .R_AUDIO_ => finish_port (some ⟨.VSTAudioPort, port⟩) none st
    | .R_CONTROL | .R_METER =>
      if port.out then
        finish_port (some ⟨.VSTMeterPort, port⟩) (some ⟨.VSTUIMeterPort, port⟩) st
      else
        finish_port (some ⟨.VSTParameterPort, port⟩) (some ⟨.VSTUIParameterPort, port⟩) st
    | .R_PORT_SET =>
      let pg : PortObject := ⟨.VSTPortGroup, port⟩
      let st1 := { st with plugin_ports := st.plugin_ports ++ [pg],
                           vUIPorts := st.vUIPorts ++ [⟨.VSTUIPortGroup, port⟩] }
      let st2 := create_rows (fun cm p s => create_port maxbytes fuel cm p s) maxbytes port pfx st1
      finish_port (some pg) none st2
    | .R_OTHER => finish_port none none st

/-- The body of the loop of `create_ports` (lines 284-317) for one declaration. -/
def create_ports_step (maxbytes : Nat) (st : PortRegistry) (meta : port_t) : PortRegistry :=
  let r := create_port maxbytes (meta.depth + 1) meta none st
  match r.1 with
  | none => r.2
  | some vp =>
    match meta.role with
    | .R_PORT_SET => r.2
    | .R_MESH | .R_FBUFFER | .R_MIDI | .R_PATH =>
      { r.2 with plugin_ports := r.2.plugin_ports ++ [vp] }
    | .R_AUDIO_ =>
      if meta.out then
        { r.2 with plugin_ports := r.2.plugin_ports ++ [vp], vOutputs := r.2.vOutputs ++ [vp] }
      else
        { r.2 with plugin_ports := r.2.plugin_ports ++ [vp], vInputs := r.2.vInputs ++ [vp] }
    | .R_CONTROL | .R_METER =>
      if ¬ meta.out then
        { r.2 with plugin_ports := r.2.plugin_ports ++ [vp], vParams := r.2.vParams ++ [vp] }
      else { r.2 with plugin_ports := r.2.plugin_ports ++ [vp] }
    | .R_OTHER => r.2

/-- The function `VSTWrapper::create_ports(meta)` (lines 280-319) over the entries of the
table before its terminating entry. -/
def create_ports (maxbytes : Nat) (meta : List port_t) (st : PortRegistry) : PortRegistry :=
  meta.foldl (create_ports_step maxbytes) st

/-! ## Concrete data used in the evaluations below -/

/-- A set of constants for the evaluations: a bank header of 160 bytes of which the bank
size excludes 80, a KVT threshold of 2000, and eight distinct type tags. -/
def demo_consts : VSTConsts :=
  { cMagic := 0x43636E4B
    chunkBankMagic := 0x46424368
    sizeof_fxBank := 160
    VST_BANK_HDR_SIZE := 80
    VST_STATE_BUFFER_SIZE := 84
    sizeof_vst_state := 4
    VST_FX_VERSION_KVT_SUPPORT := 2000
    LSP_MAX_PARAM_ID_BYTES := 64
    vst_deserialize_string := fun _ data length =>
      if length = 0 ∨ length - 1 < rd data 0 then (-1, [])
      else ((rd data 0 : Int) + 1, (data.drop 1).take (rd data 0))
    LSP_VST_INT32 := 105
    LSP_VST_UINT32 := 117
    LSP_VST_INT64 := 73
    LSP_VST_UINT64 := 85
    LSP_VST_FLOAT32 := 102
    LSP_VST_FLOAT64 := 70
    LSP_VST_STRING := 115
    LSP_VST_BLOB := 66 }

/-- An input port whose value is a byte string, written and read back as it is; its legacy
routine reads one byte. -/
def demo_port (id : List Nat) (value : List Nat) : VSTPort (List Nat) :=
  { id := some id
    out := false
    serializable := true
    value := value
    serialize := fun v => v
    deserialize_v1 := fun _ ptr size => if size = 0 then (0, []) else (1, ptr.take 1)
    deserialize_v2 := fun _ payload => (true, payload) }

/-- A plugin with the ports `a` and `b` and the values and the store given. -/
def demo_wrapper (a b : List Nat) (kvt : KVTStorage) : VSTWrapper (List Nat) :=
  { vPorts := [demo_port [97] a, demo_port [98] b], sKVT := kvt, uniqueID := 77, version := 1 }

/-- The store with the one parameter `/x` of type int32 and value 5. -/
def demo_store : KVTStorage := [⟨some [47, 120], .STATUS_OK, .int32 5, false, false⟩]

/-- A bank with a wrong chunk magic. -/
def demo_bank_bad_magic : fxBank :=
  { chunkMagic := 1, byteSize := 100, fxMagic := 0x46424368, version := 1, fxID := 77,
    fxVersion := 2000, numPrograms := 0, currentProgram := 0, content_data_size := 0,
    body := [0, 0, 0, 3, 97, 0, 9] }

/-- A well-formed KVT record: the parameter `/x` of type int32 and value 5. -/
def demo_kvt_record : List Nat := [0, 0, 0, 8, 47, 120, 0, 105, 0, 0, 0, 5]

/-- A v2 bank for the plugin `demo_wrapper`: the record of the port `a` with the payload
`1, 2`, then the KVT record of `/x`; the byte size puts `tail` at the end of the body. -/
def demo_bank_v2 : fxBank :=
  { chunkMagic := 0x43636E4B, byteSize := 100, fxMagic := 0x46424368, version := 1, fxID := 77,
    fxVersion := 2000, numPrograms := 0, currentProgram := 0, content_data_size := 20,
    body := [0, 0, 0, 4, 97, 0, 1, 2] ++ demo_kvt_record }

/-- The loop of `deserialize_v1` after `k` complete iterations: the ids named by the `k`
records read, in order, then the pointer, the difference `tail - ptr` and the port list;
`none` when one of these iterations returns from the function. -/
def v1_after {V : Type} (c : VSTConsts) :
    Nat → List Nat → Int → List (VSTPort V) →
      Option (List (List Nat) × List Nat × Int × List (VSTPort V))
  | 0, ptr, rem, ports => some ([], ptr, rem, ports)
  | k + 1, ptr, rem, ports =>
    match v1_step c ptr rem ports with
    | .stop _ => none
    | .next id ptr1 rem1 ports1 =>
      (v1_after c k ptr1 rem1 ports1).map (fun r => (id :: r.1, r.2))

/-- A v1 body for `demo_wrapper` with a record count of 3: the record of port `a` with the
legacy payload 7, then a record with the id `z`, which no port has, then the record of port
`b`. -/
def demo_v1_body : List Nat := [0, 0, 0, 3, 1, 97, 7, 1, 122, 8, 1, 98, 9]

/-- Two ports that differ at most in the value they hold. -/
def same_port {V : Type} (p q : VSTPort V) : Prop :=
  p.id = q.id ∧ p.out = q.out ∧ p.serializable = q.serializable ∧ p.serialize = q.serialize ∧
    p.deserialize_v1 = q.deserialize_v1 ∧ p.deserialize_v2 = q.deserialize_v2

/-- The decode routines of the port set the value from the bytes they are handed and nothing
else: their results do not depend on the value the port holds. -/
def value_independent {V : Type} (p : VSTPort V) : Prop :=
  (∀ v v' ptr size, p.deserialize_v1 v ptr size = p.deserialize_v1 v' ptr size) ∧
    (∀ v v' payload, p.deserialize_v2 v payload = p.deserialize_v2 v' payload)

/-- Two runs of a decoder side by side: the port lists `a0` and `b0` the runs started from and
the lists `a` and `b` they have reached.  At every position the ports of the four lists
differ at most in their values, and either both runs have put the same value there or
both have left the port as it was at the start. -/
inductive Twin {V : Type} :
    List (VSTPort V) → List (VSTPort V) → List (VSTPort V) → List (VSTPort V) → Prop where
  | nil : Twin [] [] [] []
  | cons {p0 q0 p q : VSTPort V} {a0 b0 a b : List (VSTPort V)} :
      same_port p0 p → same_port p q → value_independent p →
      (p.value = q.value ∨ (p = p0 ∧ q = q0)) → Twin a0 b0 a b →
      Twin (p0 :: a0) (q0 :: b0) (p :: a) (q :: b)

/-- A role with a case in `create_port` other than the port group: a known non-group role. -/
def leaf_role (r : role_t) : Bool := r != .R_PORT_SET && r != .R_OTHER

/-- The declarations of the ports generated for the group `port`: for every row in order, the
cloned members of the row. -/
def generated_members (maxbytes : Nat) (pfx : Option (List Nat)) (port : port_t) : List port_t :=
  (List.range port.rows).flatMap (fun row => (generated_row maxbytes pfx port row).getD [])

/-- A member declaration: an input control with the range 0 to 100 and the declared start
value 7, growing or lowering as given. -/
def demo_member (id : Nat) (growing lowering : Bool) : port_t :=
  .mk [id] .R_CONTROL false growing lowering 0 100 7 0 none

/-- A port group with 4 rows and 3 members: a growing one, a lowering one and a plain one. -/
def demo_group : port_t :=
  .mk [103] .R_PORT_SET false false false 0 0 0 4
    (some [demo_member 120 true false, demo_member 121 false true, demo_member 122 false false])

/-- The start value the spec gives to the port generated for the member `m` in row `row` of a
group with `rows` rows: `min + (max-min)*row/rows` for a growing member,
`max - (max-min)*row/rows` for a lowering one, the declared start otherwise. -/
def spec_start (m : port_t) (row rows : Nat) : ℚ :=
  if m.growing then m.min + (m.max - m.min) * row / rows
  else if m.lowering then m.max - (m.max - m.min) * row / rows
  else m.start

/-- What one iteration of the port-record loop of `deserialize_v2` does with a record. -/
inductive RecordAction (V : Type) where
  | corrupt
  | sentinel
  | apply (ports : List (VSTPort V))

/-- The effect on the port list `ports` of a record of the port loop with the content
`content` (the bytes behind the length field): `corrupt` when the name has no NUL inside
the record, `sentinel` when the name starts with `/`, else the port list after the record,
which is unchanged when no port has the name. -/
def record_action {V : Type} (ports : List (VSTPort V)) (content : List Nat) : RecordAction V :=
  let n := strnlen content content.length
  if n + 1 > content.length then .corrupt
  else if rd content 0 = 47 then .sentinel
  else
    match find_by_id ports (content.take n) with
    | none => .apply ports
    | some i => .apply (port_deserialize_v2 ports i (content.drop (n + 1)))

/-- The byte stream of a list of records given by their contents: every record is its
32-bit length followed by its content. -/
def record_stream : List (List Nat) → List Nat
  | [] => []
  | r :: rs => chunk_record r ++ record_stream rs

/-- A v2 body for `demo_wrapper`: the record of port `a`, a record with the name `z`, which
no port has, and the record of port `b`. -/
def demo_skip_body : List Nat :=
  record_stream [[97, 0, 1, 2]] ++ chunk_record ([122] ++ 0 :: [9]) ++ chunk_record [98, 0, 3]

/-- A v2 bank for `demo_wrapper` with the body given; the byte size puts `tail` at the end
of the body. -/
def demo_bank_with (body : List Nat) : fxBank :=
  { chunkMagic := 0x43636E4B, byteSize := 80 + body.length, fxMagic := 0x46424368, version := 1,
    fxID := 77, fxVersion := 2000, numPrograms := 0, currentProgram := 0,
    content_data_size := body.length, body := body }

/-- The KVT record of the blob parameter `/b` with the content type `t` and the data 1, 2, 3:
length, name, NUL, tag `B`, content type, NUL, data. -/
def demo_blob_record : List Nat := [0, 0, 0, 9, 47, 98, 0, 66, 116, 0, 1, 2, 3]

/-- The store with the one blob parameter `/b`. -/
def demo_blob_store : KVTStorage :=
  [⟨some [47, 98], .STATUS_OK, .blob (some [116]) (some [1, 2, 3]) 3, false, false⟩]

/-- The store after the KVT loop has read a record with the content `content` (the bytes
behind the length field) that holds a type byte behind the NUL of the name: the parameter
decoded by the type switch is put under the name unless its type is still `KVT_ANY`. -/
def kvt_record_put (c : VSTConsts) (kvt : KVTStorage) (content : List Nat) : KVTStorage :=
  let n := strnlen content content.length
  let p := v2_kvt_switch c (rd content (n + 1)) (content.drop (n + 2))
    ((content.length : Int) - ((n + 2 : Nat) : Int))
  if p ≠ .any then kvt.put (content.take n) p else kvt

/-- A type tag with a payload length that the KVT loop discards: a tag that is none of the
eight case labels, or the label of a fixed-size type with a payload of another length. -/
def discarded_tag (c : VSTConsts) (tag len : Nat) : Prop :=
  tag ∉ c.tags ∨
    ((tag = c.LSP_VST_INT32 ∨ tag = c.LSP_VST_UINT32 ∨ tag = c.LSP_VST_FLOAT32) ∧ len ≠ 4) ∨
    ((tag = c.LSP_VST_INT64 ∨ tag = c.LSP_VST_UINT64 ∨ tag = c.LSP_VST_FLOAT64) ∧ len ≠ 8)

/-- The contents of the records the spec asks for in the port section: for each port of the
flat list, in order, that has an id, is not an output and is serializable, the id, a NUL
and the bytes the port writes. -/
def spec_port_records {V : Type} (ports : List (VSTPort V)) : List (List Nat) :=
  (ports.filter (fun p => p.id.isSome && !p.out && p.serializable)).map
    (fun p => p.id.getD [] ++ [0] ++ p.serialize p.value)

/-- A store whose second parameter is a blob with a size of 3 and no data. -/
def demo_null_blob_store : KVTStorage :=
  [⟨some [47, 120], .STATUS_OK, .int32 5, false, false⟩,
   ⟨some [47, 98], .STATUS_OK, .blob (some [116]) none 3, false, false⟩,
   ⟨some [47, 121], .STATUS_OK, .uint32 1, false, false⟩]

/-! ## init -/

/-- What `init` leaves behind: the registry filled by `create_ports`, the counts written to
`pEffect` (of type `VstInt32`), the ids of the entries of `vParams` in the order of that
list (`none` for an entry on which `setID` was not called), and the flag
`effFlagsProgramChunks` of `pEffect->flags`. -/
structure InitResult where
  reg : PortRegistry
  numInputs : Int
  numOutputs : Int
  numParams : Int
  param_ids : List (Option Int)
  effFlagsProgramChunks : Bool

/-- The loop `for (ssize_t id=0; id < e->numParams; ++id) vParams[id]->setID(id)` of `init`
(lines 336-337); one unit of fuel is spent per iteration. -/
def set_param_ids (numParams : Int) : Nat → Nat → List (Option Int) → List (Option Int)
  | 0, _, ids => ids
  | fuel + 1, id, ids =>
    if (id : Int) < numParams then set_param_ids numParams fuel (id + 1) (ids.set id (some id))
    else ids

/-- The function `VSTWrapper::init()` (lines 321-344) on a freshly constructed wrapper, for
the port table `meta` of the plugin (its entries before the terminating one).  The call
`pPlugin->init(this)` is outside the wrapper and has no part in the result. -/
def init (maxbytes : Nat) (meta : List port_t) : InitResult :=
  let reg := create_ports maxbytes meta PortRegistry.empty
  let numParams := to_int32 reg.vParams.length
  { reg := reg
    numInputs := to_int32 reg.vInputs.length
    numOutputs := to_int32 reg.vOutputs.length
    numParams := numParams
    param_ids := set_param_ids numParams numParams.toNat 0 (List.replicate reg.vParams.length none)
    effFlagsProgramChunks := true }

/-- The parameter list the code builds: one `VSTParameterPort` for each declaration of the
top-level table, in order, that has the role control or meter and is not an output. -/
def top_level_params (meta : List port_t) : List PortObject :=
  (meta.filter (fun m => (m.role == .R_CONTROL || m.role == .R_METER) && !m.out)).map
    (fun m => ⟨.VSTParameterPort, m⟩)

/-- A port table with an audio input, an audio output and two input controls. -/
def demo_table : List port_t :=
  [.mk [105] .R_AUDIO_ false false false 0 0 0 0 none,
   .mk [111] .R_AUDIO_ true false false 0 0 0 0 none,
   demo_member 120 false false, demo_member 121 false false]

/-! ## transfer_dsp_to_ui -/

/-- Modelled from the spec: what the KVT synchronisation of `transfer_dsp_to_ui` takes from
code that is absent (`KVTIterator`, `plugin_ui`) and from the build: whether `LSP_DEBUG` is
defined, the status `commit(KVT_TX)` and `commit(KVT_RX)` give for the entry of a name, and
the entries the UI callback `kvt_write`, called for a name and a value, enqueues in the
store that it is handed. -/
structure KVTSyncEnv where
  LSP_DEBUG : Bool
  commit_tx : List Nat → status_t
  commit_rx : List Nat → status_t
  kvt_write : List Nat → kvt_param_t → List KVTNode

/-- The calls on the KVT mutex and the store that `transfer_dsp_to_ui`, `show_ui`,
`serialize_state` and `deserialize_v2` make; `lock` and `try_lock` carry their result. -/
inductive kvt_call where
  | try_lock (acquired : Bool)
  | enum_tx_pending
  | enum_rx_pending
  | commit_all_rx
  | gc
  | unlock
  | lock (acquired : Bool)
  | touch_all
  | enum_all
  | clear
  deriving DecidableEq, Repr

/-- The part of the wrapper and of the UI that `transfer_dsp_to_ui` reads and writes:
whether `pUI` is set, how often the UI ports have been synchronised (lines 754-767, taken as
one step), the store, the calls made on the mutex and the store, and the notifications
delivered to the UI by `kvt_write`, in order. -/
structure UIBridge where
  has_ui : Bool
  ui_port_syncs : Nat
  sKVT : KVTStorage
  kvt_calls : List kvt_call
  kvt_written : List (List Nat × kvt_param_t)
  deriving DecidableEq, Repr

/-- Modelled from the spec: one pass of the loop `while (it->next() == STATUS_OK)` over the
iterator of `enum_tx_pending` (lines 781-796).  The iterator visits the entries that are
pending toward the UI in the order of the store; a commit clears the pending flag.  The
result is the store after the pass, the notifications delivered (their number is `sync`)
and the entries the UI callback has enqueued. -/
def tx_pass (env : KVTSyncEnv) :
    List KVTNode → List KVTNode × List (List Nat × kvt_param_t) × List KVTNode
  | [] => ([], [], [])
  | n :: rest =>
    if n.tx_pending = false then
      let r := tx_pass env rest
      (n :: r.1, r.2.1, r.2.2)
    else
      match n.name with
      | none => (n :: rest, [], [])
      | some name =>
        if n.res ≠ .STATUS_OK then (n :: rest, [], [])
        else if env.commit_tx name ≠ .STATUS_OK then (n :: rest, [], [])
        else
          let r := tx_pass env rest
          ({ n with tx_pending := false } :: r.1, (name, n.param) :: r.2.1,
            env.kvt_write name n.param ++ r.2.2)

/-- The loop `do { ... } while (sync > 0)` of `transfer_dsp_to_ui` (lines 777-797): the store
when the loop is left, the notifications delivered and the number of passes; `none` when
the fuel, one unit per pass, runs out.  Entries enqueued by the UI callback are at the end
of the store. -/
def tx_drain (env : KVTSyncEnv) :
    Nat → KVTStorage → Option (KVTStorage × List (List Nat × kvt_param_t) × Nat)
  | 0, _ => none
  | fuel + 1, s =>
    let r := tx_pass env s
    if r.2.1.length > 0 then
      (tx_drain env fuel (r.1 ++ r.2.2)).map (fun t => (t.1, r.2.1 ++ t.2.1, t.2.2 + 1))
    else some (r.1 ++ r.2.2, r.2.1, 1)

/-- Modelled from the spec: the loop over the iterator of `enum_rx_pending` in a build with
`LSP_DEBUG` (lines 802-815): the entries pending toward the render side are committed in the
order of the store until an operation of the iterator fails. -/
def rx_pass (env : KVTSyncEnv) : List KVTNode → List KVTNode
  | [] => []
  | n :: rest =>
    if n.rx_pending = false then n :: rx_pass env rest
    else
      match n.name with
      | none => n :: rest
      | some name =>
        if n.res ≠ .STATUS_OK then n :: rest
        else if env.commit_rx name ≠ .STATUS_OK then n :: rest
        else { n with rx_pending := false } :: rx_pass env rest

/-- Modelled from the spec: `KVTStorage::commit_all(KVT_RX)` commits every entry pending
toward the render side. -/
def KVTStorage.commit_all_rx (s : KVTStorage) : KVTStorage :=
  s.map (fun n => { n with rx_pending := false })

/-- The function `VSTWrapper::transfer_dsp_to_ui()` (lines 718-825); `acquired` is the result
of `sKVTMutex.try_lock()`.  The result is `none` when the fuel of the loop `do ... while`
runs out. -/
def transfer_dsp_to_ui (env : KVTSyncEnv) (fuel : Nat) (acquired : Bool) (st : UIBridge) :
    Option UIBridge :=
  if st.has_ui = false then some st
  else
    let st1 := { st with ui_port_syncs := st.ui_port_syncs + 1 }
    if acquired = false then
      some { st1 with kvt_calls := st1.kvt_calls ++ [.try_lock false] }
    else
      match tx_drain env fuel st1.sKVT with
      | none => none
      | some (s, written, passes) =>
        let s2 := if env.LSP_DEBUG then rx_pass env s else KVTStorage.commit_all_rx s
        some { st1 with
          sKVT := KVTStorage.gc s2
          kvt_written := st1.kvt_written ++ written
          kvt_calls := st1.kvt_calls ++ [.try_lock true] ++
            List.replicate passes .enum_tx_pending ++
            [if env.LSP_DEBUG then .enum_rx_pending else .commit_all_rx, .gc, .unlock] }

/-- The notifications the spec asks a successful synchronisation to deliver: the name and the
value of every entry pending toward the UI, in the order of the store. -/
def pending_tx (s : KVTStorage) : List (List Nat × kvt_param_t) :=
  s.filterMap (fun n => if n.tx_pending then n.name.map (fun name => (name, n.param)) else none)

/-- An environment of the synchronisation in which every commit succeeds and the UI
callback enqueues nothing, without `LSP_DEBUG`. -/
def demo_sync_env : KVTSyncEnv :=
  { LSP_DEBUG := false
    commit_tx := fun _ => .STATUS_OK
    commit_rx := fun _ => .STATUS_OK
    kvt_write := fun _ _ => [] }

/-- A wrapper with a UI whose store holds `/x`, pending toward the UI, `/y`, pending toward
the render side, and `/z`, pending toward the UI. -/
def demo_bridge : UIBridge :=
  { has_ui := true
    ui_port_syncs := 0
    sKVT := [⟨some [47, 120], .STATUS_OK, .int32 5, true, false⟩,
             ⟨some [47, 121], .STATUS_OK, .uint32 1, false, true⟩,
             ⟨some [47, 122], .STATUS_OK, .int32 7, true, false⟩]
    kvt_calls := []
    kvt_written := [] }

/-- Two entries that differ at most in the flag pending toward the render side. -/
def same_tx (a b : KVTNode) : Prop :=
  a.name = b.name ∧ a.res = b.res ∧ a.param = b.param ∧ a.tx_pending = b.tx_pending

/-! ## The audio callback -/

/-- Modelled from the spec: the transport snapshot `position_t`, with the fields that
`sync_position` writes.  Floating point values are rationals; rounding is not modelled. -/
structure position_t where
  sampleRate : ℚ
  speed : ℚ
  frame : Int
  numerator : ℚ
  denominator : ℚ
  beatsPerMinute : ℚ
  tick : ℚ
  ticksPerBeat : ℚ
  deriving DecidableEq

/-- The fields of the host structure `VstTimeInfo` that `sync_position` reads. -/
structure VstTimeInfo where
  samplePos : ℚ
  sampleRate : ℚ
  ppqPos : ℚ
  tempo : ℚ
  barStartPos : ℚ
  timeSigNumerator : Int
  timeSigDenominator : Int
  flags : Nat
  deriving DecidableEq

/-- The conversion of a floating point value to an integer type: truncation toward zero
(values in the range of the integer type). -/
def to_integer (q : ℚ) : Int := if 0 ≤ q then Rat.floor q else -Rat.floor (-q)

/-- The calls `run` and `sync_position` make on the plugin, the ports and the host: ports
are named by their index in `vInputs`, `vOutputs` and `vPorts`. -/
inductive run_call where
  | activate_ui
  | deactivate_ui
  | get_time
  | set_position (npos : position_t)
  | bind_input (i : Nat)
  | bind_output (i : Nat)
  | pre_process (i : Nat) (samples : Nat)
  | update_settings
  | process (samples : Nat)
  | io_changed
  | post_process (i : Nat) (samples : Nat)
  deriving DecidableEq

/-- The host, the plugin and the constants of headers outside the wrapper, as one block of
audio sees them: the flags of `VstTimeInfo`, `DEFAULT_TICKS_PER_BEAT`, the answer of the host
to `audioMasterGetTime`, the results of `pPlugin->set_position`, of `pre_process` of the port
with a given index and of `pPlugin->get_latency`, and the contents the plugin and the ports
leave in the output buffers (from the sample count, the input and the output buffers). -/
structure RunEnv where
  kVstPpqPosValid : Nat
  kVstTempoValid : Nat
  kVstBarsValid : Nat
  kVstTimeSigValid : Nat
  DEFAULT_TICKS_PER_BEAT : ℚ
  get_time : Option VstTimeInfo
  set_position : position_t → Bool
  pre_process : Nat → Nat → Bool
  process : Nat → List (List ℚ) → List (List ℚ) → List (List ℚ)
  get_latency : ℚ

/-- The part of the wrapper, the plugin and the effect that `run` reads and writes: the
sample rate and the UI flag of the plugin, whether `pUI` and `pMaster` are set, the
transport snapshot, the dirty flag, the last reported latency, `pEffect->initialDelay`, the
port lists (`true` where the pointer is not `NULL`) and the calls made so far. -/
structure RunState where
  sample_rate : Int
  ui_active : Bool
  has_ui : Bool
  has_master : Bool
  sPosition : position_t
  bUpdateSettings : Bool
  fLatency : ℚ
  initialDelay : Int
  vInputs : List Bool
  vOutputs : List Bool
  vPorts : List Bool
  calls : List run_call
  deriving DecidableEq

/-- Modelled from the spec: `dsp::fill_zero(dst, count)` stores `count` zeros at `dst`; the
buffer is the memory from the pointer on. -/
def fill_zero (dst : List ℚ) (count : Nat) : List ℚ :=
  List.replicate count 0 ++ dst.drop count

/-- The indices below the size of a port list whose pointer is not `NULL`, in order. -/
def live_ports (v : List Bool) : List Nat :=
  (List.range v.length).filter (fun i => v.getD i false)

/-- The loop `for (size_t i=0; i < n_outputs; ++i) dsp::fill_zero(outputs[i], samples)` of
`run` (lines 454-456). -/
def fill_outputs (n_outputs samples : Nat) (outputs : List (List ℚ)) : List (List ℚ) :=
  (List.range n_outputs).foldl (fun o i => o.set i (fill_zero (o.getD i []) samples)) outputs

/-- The position `npos` that `sync_position` builds from the snapshot and the answer of the
host (lines 409-441). -/
def new_position (env : RunEnv) (sPosition : position_t) (info : VstTimeInfo) : position_t :=
  let npos := { sPosition with
    sampleRate := info.sampleRate
    speed := 1
    ticksPerBeat := env.DEFAULT_TICKS_PER_BEAT
    frame := to_integer info.samplePos }
  let npos :=
    if info.flags &&& env.kVstTimeSigValid ≠ 0 then
      let npos := { npos with
        numerator := info.timeSigNumerator
        denominator := info.timeSigDenominator }
      if info.flags &&& (env.kVstPpqPosValid ||| env.kVstBarsValid)
          = (env.kVstPpqPosValid ||| env.kVstBarsValid) then
        let uppqPos := (info.ppqPos - info.barStartPos) * info.timeSigDenominator * (1 / 4)
        { npos with tick := npos.ticksPerBeat * (uppqPos - to_integer uppqPos) }
      else npos
    else npos
  if info.flags &&& env.kVstTempoValid ≠ 0 then { npos with beatsPerMinute := info.tempo }
  else npos

/-- The function `VSTWrapper::sync_position()` (lines 403-447). -/
def sync_position (env : RunEnv) (st : RunState) : RunState :=
  match env.get_time with
  | none => { st with calls := st.calls ++ [run_call.get_time] }
  | some info =>
    let npos := new_position env st.sPosition info
    { st with
      bUpdateSettings := if env.set_position npos then true else st.bUpdateSettings
      sPosition := npos
      calls := st.calls ++ [run_call.get_time, run_call.set_position npos] }

/-- The statements of `run` between the sample rate guard and the call of
`pPlugin->process` (lines 460-511): the state in which `process` is called. -/
def run_prepare (env : RunEnv) (st : RunState) (samples : Nat) : RunState :=
  let st :=
    if st.has_ui then
      if st.ui_active = false then
        { st with ui_active := true, calls := st.calls ++ [run_call.activate_ui] }
      else st
    else if st.ui_active then
      { st with ui_active := false, calls := st.calls ++ [run_call.deactivate_ui] }
    else st
  let st := sync_position env st
  let st := { st with
    calls := st.calls ++ (live_ports st.vInputs).map run_call.bind_input
      ++ (live_ports st.vOutputs).map run_call.bind_output }
  let st := { st with
    bUpdateSettings :=
      st.bUpdateSettings || (live_ports st.vPorts).any (fun i => env.pre_process i samples)
    calls := st.calls ++ (live_ports st.vPorts).map (fun i => run_call.pre_process i samples) }
  if st.bUpdateSettings then
    { st with bUpdateSettings := false, calls := st.calls ++ [run_call.update_settings] }
  else st

/-- The function `VSTWrapper::run(inputs, outputs, samples)` (lines 449-536): the state after
the call and the contents of the output buffers. -/
def run (env : RunEnv) (st : RunState) (inputs outputs : List (List ℚ)) (samples : Nat) :
    RunState × List (List ℚ) :=
  if st.sample_rate ≤ 0 then
    (st, fill_outputs st.vOutputs.length samples outputs)
  else
    let st := run_prepare env st samples
    let st := { st with calls := st.calls ++ [run_call.process samples] }
    let latency := env.get_latency
    let st :=
      if st.fLatency ≠ latency then
        { st with
          initialDelay := to_integer latency
          fLatency := latency
          calls := st.calls ++ (if st.has_master then [run_call.io_changed] else []) }
      else st
    ({ st with calls := st.calls ++ (live_ports st.vPorts).map (fun i => run_call.post_process i samples) },
      env.process samples inputs outputs)

/-- A host that answers the transport query with nothing and a plugin that changes nothing. -/
def demo_run_env : RunEnv :=
  { kVstPpqPosValid := 512
    kVstTempoValid := 1024
    kVstBarsValid := 2048
    kVstTimeSigValid := 8192
    DEFAULT_TICKS_PER_BEAT := 1920
    get_time := none
    set_position := fun _ => false
    pre_process := fun _ _ => false
    process := fun _ _ outputs => outputs
    get_latency := 0 }

/-- A wrapper with two audio outputs whose plugin has no sample rate yet. -/
def demo_run_state : RunState :=
  { sample_rate := -1
    ui_active := false
    has_ui := false
    has_master := true
    sPosition := ⟨0, 1, 0, 4, 4, 120, 0, 1920⟩
    bUpdateSettings := true
    fLatency := 0
    initialDelay := 0
    vInputs := [true, true]
    vOutputs := [true, true]
    vPorts := [true, true, true, true]
    calls := [] }

/-- Whether the transport update of a block reports a change: the host answers the query
and `pPlugin->set_position` returns true for the position built from the answer. -/
def transport_changed (env : RunEnv) (st : RunState) : Bool :=
  match env.get_time with
  | none => false
  | some info => env.set_position (new_position env st.sPosition info)

/-- The calls one call of `run` adds to the trace. -/
def block_calls (env : RunEnv) (st : RunState) (inputs outputs : List (List ℚ)) (samples : Nat) :
    List run_call :=
  (run env st inputs outputs samples).1.calls.drop st.calls.length

/-- A host that answers the transport query and a plugin that reports a changed position
and the latency 5. -/
def demo_active_env : RunEnv :=
  { demo_run_env with
    get_time := some ⟨1000, 44100, 9 / 2, 140, 4, 3, 4, 512 + 2048 + 8192⟩
    set_position := fun _ => true
    get_latency := 5 }

/-- A wrapper whose plugin has the sample rate 48000 and whose dirty flag is clear. -/
def demo_active_state : RunState :=
  { demo_run_state with sample_rate := 48000, bUpdateSettings := false }

/-- A declaration whose role has no case in the factory. -/
def demo_unknown : port_t := .mk [117] .R_OTHER false false false 0 0 0 0 none

/-- The port list after the pairs of an id and a payload have been handed, in order, to the
ports they resolve to: the port `find_by_id` gives for the id runs `deserialize_v2` on the
payload, and a pair whose id no port has changes nothing. -/
def apply_pairs {V : Type} (ports : List (VSTPort V)) :
    List (List Nat × List Nat) → List (VSTPort V)
  | [] => ports
  | pr :: rest =>
    match find_by_id ports pr.1 with
    | none => apply_pairs ports rest
    | some i => apply_pairs (port_deserialize_v2 ports i pr.2) rest

/-- The content of the record that frames a name and a payload: the name, a NUL and the
payload. -/
def framed (pr : List Nat × List Nat) : List Nat := pr.1 ++ 0 :: pr.2

/-- The pairs of id and payload the port section is written for: one for each port of the
flat list, in order, that has an id, is not an output and is serializable. -/
def port_pairs {V : Type} (ports : List (VSTPort V)) : List (List Nat × List Nat) :=
  (ports.filter (fun p => p.id.isSome && !p.out && p.serializable)).map
    (fun p => (p.id.getD [], p.serialize p.value))

/-- The type tag and the payload the spec gives for a KVT parameter: the tag of its type,
then a 32-bit or 64-bit big-endian value, a NUL-terminated string, or the NUL-terminated
content type of a blob followed by its raw bytes. -/
def spec_kvt_payload (c : VSTConsts) : kvt_param_t → List Nat
  | .int32 v => c.LSP_VST_INT32 :: put32 (to_uint32 v)
  | .uint32 v => c.LSP_VST_UINT32 :: put32 (v % 2 ^ 32)
  | .int64 v => c.LSP_VST_INT64 :: put64 (to_uint64 v)
  | .uint64 v => c.LSP_VST_UINT64 :: put64 (v % 2 ^ 64)
  | .float32 v => c.LSP_VST_FLOAT32 :: put32 (v % 2 ^ 32)
  | .float64 v => c.LSP_VST_FLOAT64 :: put64 (v % 2 ^ 64)
  | .str s => c.LSP_VST_STRING :: (s.getD [] ++ [0])
  | .blob ctype data size => c.LSP_VST_BLOB :: (ctype.getD [] ++ [0] ++ (data.getD []).take size)
  | .any => []

/-- The pairs of name and tagged payload the spec asks the KVT section to hold: one for
each node of the enumeration that is a parameter (`get` gives `STATUS_OK`) and has a name,
in the order of the enumeration. -/
def kvt_pairs (c : VSTConsts) (nodes : List KVTNode) : List (List Nat × List Nat) :=
  nodes.filterMap (fun n =>
    if n.res = .STATUS_OK then n.name.map (fun name => (name, spec_kvt_payload c n.param))
    else none)

/-- A parameter `serialize_state` can write: its type is one of the eight supported ones,
and a blob with a size above 0 has data. -/
def valid_param : kvt_param_t → Prop
  | .any => False
  | .blob _ data size => ¬ (size > 0 ∧ data = none)
  | _ => True

/-- A node of the enumeration that is not a parameter: `get` gives `STATUS_NOT_FOUND`. -/
def demo_branch_node : KVTNode := ⟨some [47, 121], .STATUS_NOT_FOUND, .any, false, false⟩

/-- The bank `serialize_state` returns for `demo_wrapper [1, 2] [3] demo_store` with
`demo_consts`. -/
def demo_saved_bank : fxBank :=
  ⟨0x43636E4B, 107, 0x46424368, 1, 77, 2000, 0, 0, 27,
    [0, 0, 0, 4, 97, 0, 1, 2, 0, 0, 0, 3, 98, 0, 3, 0, 0, 0, 8, 47, 120, 0, 105, 0, 0, 0, 5]⟩

/-- The port `create_port` has returned that its caller still has to register with the
plugin: a port that is not a port group (lines 258-259 and 288-313). -/
def pending_port (r : Option PortObject) : List PortObject :=
  match r with
  | none => []
  | some p => if p.metadata.role ≠ .R_PORT_SET then [p] else []

/-- A table with a leaf, the group of `demo_group`, an unknown role and a group nested in a
group. -/
def demo_nested_table : List port_t :=
  [demo_member 119 false false, demo_group, demo_unknown,
   .mk [104] .R_PORT_SET false false false 0 0 0 2
     (some [demo_member 112 false false,
       .mk [113] .R_PORT_SET false false false 0 0 0 3 (some [demo_member 114 false false])])]

/-- The declarations the spec asks the flat port list to hold for one declaration, in
order: nothing for a role without a factory case; the declaration itself for a plain port;
for a port group, row by row, what each cloned member gives (a member that is a group is
expanded in turn, under the postfix of the row), and then the group itself.  One unit of
fuel is spent per level of nesting. -/
def flat_decls (maxbytes : Nat) : Nat → port_t → Option (List Nat) → List port_t
  | 0, _, _ => []
  | fuel + 1, port, pfx =>
    if port.role = .R_OTHER then []
    else if port.role = .R_PORT_SET then
      (List.range port.rows).flatMap (fun row =>
        ((generated_row maxbytes pfx port row).getD []).flatMap (fun cm =>
          flat_decls maxbytes fuel cm (some (row_pfx maxbytes pfx row)))) ++ [port]
    else [port]

mutual
/-- The ids declared in a declaration and below it: its id and the ids of its members, at
every depth. -/
def port_t.decl_ids : port_t → List (List Nat)
  | .mk id _ _ _ _ _ _ _ _ none => [id]
  | .mk id _ _ _ _ _ _ _ _ (some ms) => id :: port_t.decl_ids_list ms
/-- The ids declared in a table of declarations, at every depth. -/
def port_t.decl_ids_list : List port_t → List (List Nat)
  | [] => []
  | m :: ms => port_t.decl_ids m ++ port_t.decl_ids_list ms
end

/-- The largest number of decimal digits of a row number below `rows`. -/
def digits_width (rows : Nat) : Nat :=
  ((List.range rows).map (fun row => (Nat.toDigits 10 row).length)).foldr max 0

mutual
/-- The length of the longest row postfix that is generated below a declaration: for each
level of nesting the `_` and the digits of the row number. -/
def port_t.pfx_need : port_t → Nat
  | .mk _ _ _ _ _ _ _ _ _ none => 0
  | .mk _ _ _ _ _ _ _ _ rows (some ms) => 1 + digits_width rows + port_t.pfx_needs ms
/-- The length of the longest row postfix generated below the declarations of a table. -/
def port_t.pfx_needs : List port_t → Nat
  | [] => 0
  | m :: ms => Nat.max (port_t.pfx_need m) (port_t.pfx_needs ms)
end

/-- A byte string that is empty or begins with `_`, as every row postfix does. -/
def sfx_like (t : List Nat) : Prop := ∀ x ∈ t.head?, x = 95

/-- No id of the list is another id of the list followed by `_` and further bytes. -/
def no_underscore_extension (ids : List (List Nat)) : Prop :=
  ∀ a ∈ ids, ∀ b ∈ ids, ∀ t, b ≠ a ++ 95 :: t

/-- The number a string of decimal digits denotes, continuing from `acc`. -/
def digits_value (acc : Nat) (ds : List Nat) : Nat :=
  ds.foldl (fun a d => a * 10 + (d - 48)) acc

/-- Two port groups with the same member id `x`. -/
def demo_twin_groups : List port_t :=
  [.mk [103] .R_PORT_SET false false false 0 0 0 1 (some [demo_member 120 false false]),
   .mk [104] .R_PORT_SET false false false 0 0 0 1 (some [demo_member 120 false false])]

/-- A plain port with the id `x_0` and a port group with the member id `x`. -/
def demo_clash_table : List port_t :=
  [.mk [120, 95, 48] .R_CONTROL false false false 0 100 7 0 none,
   .mk [103] .R_PORT_SET false false false 0 0 0 1 (some [demo_member 120 false false])]

/-- The number of entries of the store that are pending toward the UI. -/
def tx_pending_count (s : KVTStorage) : Nat := s.countP (fun n => n.tx_pending)

/-- An environment of the synchronisation in which the commit of `/x` fails and the UI
callback enqueues nothing. -/
def demo_failing_env : KVTSyncEnv :=
  { demo_sync_env with
    commit_tx := fun name => if name = [47, 120] then .STATUS_UNKNOWN_ERR else .STATUS_OK }

/-- A store with `/w`, `/x` and `/z` pending toward the UI. -/
def demo_pending_store : KVTStorage :=
  [⟨some [47, 119], .STATUS_OK, .int32 1, true, false⟩,
   ⟨some [47, 120], .STATUS_OK, .int32 5, true, false⟩,
   ⟨some [47, 122], .STATUS_OK, .int32 7, true, false⟩]

/-- The host has set the flag `k` in the flags of its answer. -/
def flagged (flags k : Nat) : Prop := flags &&& k ≠ 0

/-- The first statements of an iteration of either record loop of `deserialize_v2` (lines
1184-1195 and 1240-1251, the same in both loops): `none` when the loop condition or the
length check ends the iteration, else the offset `len` of `next` from the start of the
record, the bound `next - head` that `strnlen` is handed as a `size_t`, and what `strnlen`
returns.  `head` is the pointer and `rem` is `tail - head`. -/
def record_head (head : List Nat) (rem : Int) : Option (Nat × Nat × Nat) :=
  if 4 ≤ to_size_t rem then
    let len : Nat := (be32 head + 4) % 2 ^ 32
    if (len : Int) > rem then none
    else
      let bound := to_size_t ((len : Int) - 4)
      some (len, bound, strnlen (head.drop 4) bound)
  else none

/-- Memory that starts with a record whose length field is `FF FF FF FF`, followed by the
bytes `abcd`. -/
def demo_wrap_body : List Nat := [255, 255, 255, 255, 97, 98, 99, 100]

/-- The enumeration with the nodes removed for which `get` gives `STATUS_NOT_FOUND`. -/
def parameters_only (nodes : List KVTNode) : List KVTNode :=
  nodes.filter (fun n => decide (n.res ≠ .STATUS_NOT_FOUND))

/-! ## The KVT mutex -/

/-- Whether the wrapper holds `sKVTMutex` after one call, `held` saying whether it holds it
before: `none` when the call is a misuse (an acquisition that succeeds while the wrapper
holds the mutex, or a release of a mutex it does not hold).  Calls on the store leave the
mutex as it is. -/
def lock_step (held : Bool) : kvt_call → Option Bool
  | .lock acquired => if acquired then (if held then none else some true) else some held
  | .try_lock acquired => if acquired then (if held then none else some true) else some held
  | .unlock => if held then some false else none
  | _ => some held

/-- Whether the wrapper holds `sKVTMutex` after a sequence of calls. -/
def lock_after (held : Bool) : List kvt_call → Option Bool
  | [] => some held
  | call :: rest => (lock_step held call).bind (fun h => lock_after h rest)

/-- The function `VSTWrapper::serialize_state(dst)` (lines 871-1049) with the result of
`sKVTMutex.lock()` as a parameter, and the calls it makes on the mutex and the store.  The
enumeration loop is left by `break` or by its condition only, so that `gc` and `unlock`
follow it; when the lock is not acquired the KVT section is skipped and `res` stays
`STATUS_OK`, which is what the loop gives for an empty enumeration. -/
def serialize_state_locking {V : Type} (c : VSTConsts) (w : VSTWrapper V) (acquired : Bool) :
    Option (Nat × fxBank) × List kvt_call :=
  if acquired then
    (serialize_state c w, [.lock true, .enum_all, .gc, .unlock])
  else
    (serialize_state c { w with sKVT := [] }, [.lock false])

/-- The function `VSTWrapper::deserialize_v2(bank, bytes)` (lines 1172-1351) with the result
of `sKVTMutex.lock()` as a parameter, and the calls it makes on the mutex and the store.
The port loop is left by `return` before the mutex is touched; the KVT loop is left by
`break` or by its condition only, so that `gc` and `unlock` follow it. -/
def deserialize_v2_locking {V : Type} (c : VSTConsts) (w : VSTWrapper V) (bank : fxBank)
    (bytes : Nat) (acquired : Bool) : VSTWrapper V × List kvt_call :=
  let rem0 : Int := to_ptrdiff ((bytes : Int) - c.VST_BANK_HDR_SIZE)
  match v2_port_loop (bank.body.length + 1) bank.body rem0 w.vPorts with
  | (ports, .returned) => ({ w with vPorts := ports }, [])
  | (ports, .left head rem) =>
    if rem ≥ 0 then ({ w with vPorts := ports }, [])
    else if acquired then
      let kvt := v2_kvt_loop c (head.length + 1) head rem w.sKVT.clear
      ({ w with vPorts := ports, sKVT := kvt.gc }, [.lock true, .clear, .gc, .unlock])
    else ({ w with vPorts := ports }, [.lock false])

/-- Modelled from the spec: `KVTStorage::touch_all(KVT_TO_UI)` marks every parameter of the
store pending toward the UI. -/
def KVTStorage.touch_all (s : KVTStorage) : KVTStorage :=
  s.map (fun n => if n.res = .STATUS_OK then { n with tx_pending := true } else n)

/-- The function `VSTWrapper::show_ui(root_widget)` (lines 564-632) as far as the UI object,
the store and its mutex go: `created` says whether the creation step gives a UI object when
there is none, `acquired` is the result of `sKVTMutex.lock()`, and `fuel` and `tried` are
handed to `transfer_dsp_to_ui`.  The result is what the function returns and the state;
`none` when the fuel of `transfer_dsp_to_ui` runs out. -/
def show_ui (env : KVTSyncEnv) (fuel : Nat) (created acquired tried : Bool) (st : UIBridge) :
    Option (Bool × UIBridge) :=
  if st.has_ui = false ∧ created = false then some (false, st)
  else
    let st1 := { st with has_ui := true }
    let st2 :=
      if acquired then
        { st1 with
          sKVT := st1.sKVT.touch_all
          kvt_calls := st1.kvt_calls ++ [.lock true, .touch_all, .unlock] }
      else { st1 with kvt_calls := st1.kvt_calls ++ [.lock false] }
    (transfer_dsp_to_ui env fuel tried st2).map (fun st3 => (true, st3))

/-! # Theorems -/

/-! ## The KVT section of deserialize_v2 is never reached -/

theorem to_size_t_lt_nonneg (rem : Int) (h : -2 ^ 63 ≤ rem) (h4 : ¬ 4 ≤ to_size_t rem) : 0 ≤ rem := by
  unfold to_size_t at h4
  omega

theorem to_size_t_ge_sub (rem : Int) (len : Nat) (h : ¬ (len : Int) > rem) (h4 : 4 ≤ to_size_t rem) :
    0 ≤ rem - 4 := by
  unfold to_size_t at h4
  have h0 : 0 ≤ rem := by omega
  omega

theorem v2_port_loop_left_nonneg {V : Type} (fuel : Nat) :
    ∀ (head : List Nat) (rem : Int) (ports ports' : List (VSTPort V)) (h : List Nat) (r : Int),
      -2 ^ 63 ≤ rem → v2_port_loop fuel head rem ports = (ports', .left h r) → 0 ≤ r := by
  induction fuel with
  | zero => intro head rem ports ports' h r _ he; simp [v2_port_loop] at he
  | succ n ih =>
    intro head rem ports ports' h r hr he
    rw [v2_port_loop] at he
    by_cases h4 : 4 ≤ to_size_t rem
    · rw [if_pos h4] at he
      simp only at he
      by_cases h1 : (((be32 head + 4) % 2 ^ 32 : Nat) : Int) > rem
      · rw [if_pos h1] at he; simp at he
      · rw [if_neg h1] at he
        split_ifs at he with h2 h3
        · simp at he
        · simp at he
          obtain ⟨_, _, rfl⟩ := he
          exact to_size_t_ge_sub rem _ h1 h4
        · split at he
          · exact ih _ _ _ _ _ _ (by omega) he
          · exact ih _ _ _ _ _ _ (by omega) he
    · rw [if_neg h4] at he
      simp at he
      obtain ⟨_, _, rfl⟩ := he
      exact to_size_t_lt_nonneg rem hr h4

theorem to_ptrdiff_ge (x : Int) : -2 ^ 63 ≤ to_ptrdiff x := by
  unfold to_ptrdiff
  omega

theorem deserialize_v2_sKVT {V : Type} (c : VSTConsts) (w : VSTWrapper V) (bank : fxBank)
    (bytes : Nat) : (deserialize_v2 c w bank bytes).sKVT = w.sKVT := by
  unfold deserialize_v2
  simp only
  split
  · rfl
  · next ports head rem he =>
    have := v2_port_loop_left_nonneg _ _ _ _ _ _ _ (to_ptrdiff_ge _) he
    rw [if_pos this]

theorem deserialize_v1_sKVT {V : Type} (c : VSTConsts) (w : VSTWrapper V) (bank : fxBank)
    (bytes : Nat) : (deserialize_v1 c w bank bytes).sKVT = w.sKVT := rfl

theorem deserialize_state_sKVT {V : Type} (c : VSTConsts) (w : VSTWrapper V) (bank : fxBank) :
    (deserialize_state c w bank).sKVT = w.sKVT := by
  unfold deserialize_state
  split
  · rfl
  · exact deserialize_v1_sKVT _ _ _ _
  · exact deserialize_v2_sKVT _ _ _ _

/-- Claim C1, evaluated on the code: the state with the ports `a`, `b` and the parameter
`/x` of type int32 is serialized with success, and the bank, deserialized on a plugin with
the same ports and identity and an empty store, leaves the store empty: the parameter is
not restored, whatever the constants of the format are. -/
theorem serialize_deserialize_drops_kvt (c : VSTConsts) :
    (serialize_state c (demo_wrapper [1, 2] [3] demo_store)).map
        (fun r => (deserialize_state c (demo_wrapper [] [] []) r.2).sKVT) = some [] ∧
      (demo_wrapper [1, 2] [3] demo_store).sKVT = demo_store ∧ demo_store ≠ [] := by
  refine ⟨?_, rfl, by decide⟩
  simp [serialize_state, demo_wrapper, demo_store, serialize_kvt, serialize_kvt_param,
    deserialize_state_sKVT]

/-! ## Header checks -/

/-- Claim C2: when a header check of `deserialize_state` fails (chunk magic, byte size below
the minimum, sub-format magic, plugin identity, bank version above the version of the
plugin, or program count not 0), no decoder is selected and the wrapper, with every port
and every KVT entry, is returned as it was. -/
theorem deserialize_state_rejected {V : Type} (c : VSTConsts) (w : VSTWrapper V) (bank : fxBank)
    (h : bank.chunkMagic ≠ c.cMagic ∨
      to_size_t (to_int32 bank.byteSize) < c.VST_STATE_BUFFER_SIZE ∨
      bank.fxMagic ≠ c.chunkBankMagic ∨
      bank.fxID ≠ w.uniqueID ∨
      to_int32 bank.version > w.version ∨
      bank.numPrograms ≠ 0) :
    select_decoder c w bank = .rejected ∧ deserialize_state c w bank = w := by
  have hsel : select_decoder c w bank = .rejected := by
    unfold select_decoder
    simp only
    rcases h with h | h | h | h | h | h <;> split_ifs <;> rfl
  exact ⟨hsel, by unfold deserialize_state; rw [hsel]⟩

theorem deserialize_state_rejected_witness :
    demo_bank_bad_magic.chunkMagic ≠ demo_consts.cMagic ∧
      select_decoder demo_consts (demo_wrapper [1] [2] demo_store) demo_bank_bad_magic
        = .rejected ∧
      deserialize_state demo_consts (demo_wrapper [1] [2] demo_store) demo_bank_bad_magic
        = demo_wrapper [1] [2] demo_store :=
  ⟨by simp [demo_bank_bad_magic, demo_consts],
    deserialize_state_rejected _ _ _ (Or.inl (by simp [demo_bank_bad_magic, demo_consts]))⟩

/-! ## The KVT section of a v2 bank -/

/-- Claim C3, evaluated on the code: the bank `demo_bank_v2` is accepted and handed to the v2
decoder, the record before the name `/x` is applied to its port, but the record `/x` is not
put into the store, which stays empty; the KVT loop, run on that record from its length
field, would have put it.  For no constants, wrapper and bank at all does
`deserialize_state` change the store. -/
theorem v2_bank_kvt_section_skipped :
    select_decoder demo_consts (demo_wrapper [] [] []) demo_bank_v2 = .v2 100 ∧
      (deserialize_state demo_consts (demo_wrapper [] [] []) demo_bank_v2).vPorts.map (·.value)
        = [[1, 2], []] ∧
      (deserialize_state demo_consts (demo_wrapper [] [] []) demo_bank_v2).sKVT = [] ∧
      v2_kvt_loop demo_consts 13 demo_kvt_record 12 []
        = [⟨some [47, 120], .STATUS_OK, .int32 5, true, false⟩] ∧
      ∀ (c : VSTConsts) (w : VSTWrapper (List Nat)) (bank : fxBank),
        (deserialize_state c w bank).sKVT = w.sKVT := by
  refine ⟨by decide, by decide, by decide, by decide, ?_⟩
  intro c w bank
  exact deserialize_state_sKVT c w bank

/-! ## Port lists -/

theorem find_by_id_some {V : Type} (ports : List (VSTPort V)) (id : List Nat) :
    ∀ i, find_by_id ports id = some i → ∃ p, ports[i]? = some p ∧ p.id = some id := by
  induction ports with
  | nil => intro i h; simp [find_by_id] at h
  | cons sp rest ih =>
    intro i h
    rw [find_by_id] at h
    split_ifs at h with hsp
    · simp at h; subst h; exact ⟨sp, by simp, hsp⟩
    · simp at h
      obtain ⟨j, hj, rfl⟩ := h
      obtain ⟨p, hp, hid⟩ := ih j hj
      exact ⟨p, by simpa using hp, hid⟩

theorem find_by_id_congr {V : Type} (ports ports' : List (VSTPort V)) (id : List Nat)
    (h : ports.map (·.id) = ports'.map (·.id)) : find_by_id ports id = find_by_id ports' id := by
  induction ports generalizing ports' with
  | nil => cases ports' with
    | nil => rfl
    | cons _ _ => simp at h
  | cons sp rest ih =>
    cases ports' with
    | nil => simp at h
    | cons sp' rest' =>
      simp at h
      rw [find_by_id, find_by_id, h.1, ih rest' h.2]

theorem modify_value_ids {V : Type} (ports : List (VSTPort V)) (i : Nat) (g : VSTPort V → V) :
    (ports.modify (fun p => { p with value := g p }) i).map (·.id) = ports.map (·.id) := by
  induction ports generalizing i with
  | nil => simp
  | cons p rest ih =>
    cases i with
    | zero => simp
    | succ j => simpa using ih j

theorem port_deserialize_v1_ids {V : Type} (ports : List (VSTPort V)) (i : Nat) (ptr : List Nat)
    (size : Nat) : (port_deserialize_v1 ports i ptr size).map (·.id) = ports.map (·.id) :=
  modify_value_ids ports i _

theorem port_deserialize_v2_ids {V : Type} (ports : List (VSTPort V)) (i : Nat)
    (payload : List Nat) : (port_deserialize_v2 ports i payload).map (·.id) = ports.map (·.id) :=
  modify_value_ids ports i _

/-! ## deserialize_v1 -/

theorem v1_step_next {V : Type} (c : VSTConsts) (ptr : List Nat) (rem : Int)
    (ports : List (VSTPort V)) (id ptr1 : List Nat) (rem1 : Int) (ports1 : List (VSTPort V))
    (h : v1_step c ptr rem ports = .next id ptr1 rem1 ports1) :
    ports1.map (·.id) = ports.map (·.id) ∧
      ∀ (j : Nat) (p : VSTPort V), ports[j]? = some p → p.id ≠ some id →
        ports1[j]? = some p := by
  unfold v1_step at h
  simp only at h
  split_ifs at h with h1
  cases hi : find_by_id ports
      (c.vst_deserialize_string c.LSP_MAX_PARAM_ID_BYTES ptr (to_size_t rem)).2 with
  | none => simp [hi] at h
  | some i =>
    simp only [hi] at h
    split_ifs at h with h2
    simp only [V1Step.next.injEq] at h
    obtain ⟨hid, -, -, rfl⟩ := h
    refine ⟨port_deserialize_v1_ids _ _ _ _, ?_⟩
    intro j p hj hne
    obtain ⟨q, hq, hqid⟩ := find_by_id_some _ _ _ hi
    have hji : i ≠ j := by
      rintro rfl
      rw [hq] at hj
      simp at hj
      subst hj
      exact hne (hid ▸ hqid)
    rw [port_deserialize_v1, List.getElem?_modify_ne _ _ hji]
    exact hj

theorem v1_after_frame {V : Type} (c : VSTConsts) (k : Nat) :
    ∀ (ptr : List Nat) (rem : Int) (ports : List (VSTPort V)) (ids ptr' : List _) (rem' : Int)
      (ports' : List (VSTPort V)),
      v1_after c k ptr rem ports = some (ids, ptr', rem', ports') →
      ports'.map (·.id) = ports.map (·.id) ∧
        ∀ (j : Nat) (p : VSTPort V), ports[j]? = some p → (∀ id ∈ ids, p.id ≠ some id) →
          ports'[j]? = some p := by
  induction k with
  | zero =>
    intro ptr rem ports ids ptr' rem' ports' h
    simp [v1_after] at h
    obtain ⟨rfl, rfl, rfl, rfl⟩ := h
    exact ⟨rfl, fun j p hj _ => hj⟩
  | succ k ih =>
    intro ptr rem ports ids ptr' rem' ports' h
    rw [v1_after] at h
    cases hs : v1_step c ptr rem ports with
    | stop _ => simp [hs] at h
    | next id ptr1 rem1 ports1 =>
      simp only [hs, Option.map_eq_some'] at h
      obtain ⟨⟨ids1, ptr2, rem2, ports2⟩, hk, heq⟩ := h
      simp only [Prod.mk.injEq] at heq
      obtain ⟨rfl, rfl, rfl, rfl⟩ := heq
      obtain ⟨e1, f1⟩ := v1_step_next c _ _ _ _ _ _ _ hs
      obtain ⟨e2, f2⟩ := ih _ _ _ _ _ _ _ hk
      refine ⟨e2.trans e1, ?_⟩
      intro j p hj hne
      exact f2 j p (f1 j p hj (hne id (by simp))) (fun x hx => hne x (by simp [hx]))

theorem v1_loop_after {V : Type} (c : VSTConsts) (k : Nat) :
    ∀ (m : Nat) (ptr : List Nat) (rem : Int) (ports : List (VSTPort V)) (ids ptr' : List _)
      (rem' : Int) (ports' : List (VSTPort V)),
      v1_after c k ptr rem ports = some (ids, ptr', rem', ports') →
      v1_loop c (k + m) ptr rem ports = v1_loop c m ptr' rem' ports' := by
  induction k with
  | zero =>
    intro m ptr rem ports ids ptr' rem' ports' h
    simp [v1_after] at h
    obtain ⟨rfl, rfl, rfl, rfl⟩ := h
    simp
  | succ k ih =>
    intro m ptr rem ports ids ptr' rem' ports' h
    rw [v1_after] at h
    cases hs : v1_step c ptr rem ports with
    | stop _ => simp [hs] at h
    | next id ptr1 rem1 ports1 =>
      simp only [hs, Option.map_eq_some'] at h
      obtain ⟨⟨ids1, ptr2, rem2, ports2⟩, hk, heq⟩ := h
      simp only [Prod.mk.injEq] at heq
      obtain ⟨rfl, rfl, rfl, rfl⟩ := heq
      rw [show k + 1 + m = (k + m) + 1 by omega, v1_loop, hs]
      exact ih m _ _ _ _ _ _ _ hk

/-- Claim C4: when the first `k` records of a v1 bank have been applied (`v1_after`) and the
id read for the next record resolves to no port, `deserialize_v1`, for every record count
above `k`, ends with the port list as those `k` records left it: no later record is applied,
and every port whose id is not named by one of the `k` records is as it was before the
call. -/
theorem v1_unresolved_id_aborts {V : Type} (c : VSTConsts) (k n : Nat) (ptr : List Nat)
    (rem : Int) (ports : List (VSTPort V)) (ids ptr' : List _) (rem' : Int)
    (ports' : List (VSTPort V))
    (hk : v1_after c k ptr rem ports = some (ids, ptr', rem', ports'))
    (hread : 0 < (c.vst_deserialize_string c.LSP_MAX_PARAM_ID_BYTES ptr' (to_size_t rem')).1)
    (hnone : find_by_id ports'
      (c.vst_deserialize_string c.LSP_MAX_PARAM_ID_BYTES ptr' (to_size_t rem')).2 = none)
    (hn : k < n) :
    v1_loop c n ptr rem ports = ports' ∧
      ∀ (j : Nat) (p : VSTPort V), ports[j]? = some p → (∀ id ∈ ids, p.id ≠ some id) →
        ports'[j]? = some p := by
  refine ⟨?_, (v1_after_frame c k _ _ _ _ _ _ _ hk).2⟩
  obtain ⟨m, rfl⟩ : ∃ m, n = k + (m + 1) := ⟨n - k - 1, by omega⟩
  rw [v1_loop_after c k _ _ _ _ _ _ _ _ hk, v1_loop]
  have : v1_step c ptr' rem' ports' = .stop ports' := by
    unfold v1_step
    simp only
    rw [if_neg (by omega), hnone]
  rw [this]

theorem v1_unresolved_id_aborts_witness :
    v1_loop demo_consts 3 (demo_v1_body.drop 4) 9 (demo_wrapper [] [] []).vPorts
        = (demo_wrapper [7] [] []).vPorts ∧
      (demo_wrapper [7] [] []).vPorts[1]? = some (demo_port [98] []) :=
  have h := v1_unresolved_id_aborts demo_consts 1 3 (demo_v1_body.drop 4) 9
    (demo_wrapper [] [] []).vPorts [[97]] [1, 122, 8, 1, 98, 9] 6
    (demo_wrapper [7] [] []).vPorts rfl (by decide) (by decide) (by decide)
  ⟨h.1, h.2 1 (demo_port [98] []) rfl (by simp [demo_port])⟩

/-! ## Two runs of a decoder side by side -/

theorem same_port_eq {V : Type} (p q : VSTPort V) (h : same_port p q) (hv : p.value = q.value) :
    p = q := by
  cases p; cases q
  simp only [same_port] at h
  simp only at hv
  simp only [VSTPort.mk.injEq]
  tauto

theorem twin_ids {V : Type} {a0 b0 a b : List (VSTPort V)} (h : Twin a0 b0 a b) :
    a.map (·.id) = b.map (·.id) := by
  induction h with
  | nil => rfl
  | cons _ hpq _ _ _ ih => simp [hpq.1, ih]

theorem twin_start {V : Type} (a0 : List (VSTPort V)) (h : ∀ p ∈ a0, value_independent p) :
    Twin a0 a0 a0 a0 := by
  induction a0 with
  | nil => exact .nil
  | cons p a ih =>
    exact .cons ⟨rfl, rfl, rfl, rfl, rfl, rfl⟩ ⟨rfl, rfl, rfl, rfl, rfl, rfl⟩
      (h p (by simp)) (Or.inr ⟨rfl, rfl⟩) (ih (fun q hq => h q (by simp [hq])))

theorem twin_restart {V : Type} {a0 b0 a b : List (VSTPort V)} (h : Twin a0 b0 a b) :
    Twin a0 a a0 a := by
  induction h with
  | nil => exact .nil
  | cons h0 _ hvi _ _ ih =>
    refine .cons ⟨rfl, rfl, rfl, rfl, rfl, rfl⟩ h0 ?_ (Or.inr ⟨rfl, rfl⟩) ih
    obtain ⟨-, -, -, -, e1, e2⟩ := h0
    exact ⟨by rw [e1]; exact hvi.1, by rw [e2]; exact hvi.2⟩

theorem twin_fixed {V : Type} {a0 b0 a b : List (VSTPort V)} (h : Twin a0 b0 a b)
    (e : b0 = a) : b = a := by
  induction h with
  | nil => rfl
  | cons _ hpq _ hd _ ih =>
    simp only [List.cons.injEq] at e
    obtain ⟨e1, e2⟩ := e
    rw [ih e2]
    rcases hd with hv | ⟨-, hq⟩
    · rw [same_port_eq _ _ hpq hv]
    · rw [hq, e1]

theorem twin_modify {V : Type} {a0 b0 a b : List (VSTPort V)} (h : Twin a0 b0 a b)
    (g : VSTPort V → V) (hg : ∀ p q : VSTPort V, same_port p q → value_independent p → g p = g q)
    (i : Nat) :
    Twin a0 b0 (a.modify (fun p => { p with value := g p }) i)
      (b.modify (fun p => { p with value := g p }) i) := by
  induction h generalizing i with
  | nil => simpa using Twin.nil
  | cons h0 hpq hvi hd ht ih =>
    cases i with
    | zero =>
      simp only [List.modify_zero_cons]
      exact .cons h0 hpq hvi (Or.inl (hg _ _ hpq hvi)) ht
    | succ j =>
      simp only [List.modify_succ_cons]
      exact .cons h0 hpq hvi hd (ih j)

theorem twin_find_by_id {V : Type} {a0 b0 a b : List (VSTPort V)} (h : Twin a0 b0 a b)
    (id : List Nat) : find_by_id a id = find_by_id b id :=
  find_by_id_congr a b id (twin_ids h)

theorem twin_port_deserialize_v2 {V : Type} {a0 b0 a b : List (VSTPort V)} (h : Twin a0 b0 a b)
    (i : Nat) (payload : List Nat) :
    Twin a0 b0 (port_deserialize_v2 a i payload) (port_deserialize_v2 b i payload) := by
  refine twin_modify h (fun p => (p.deserialize_v2 p.value payload).2) ?_ i
  intro p q hpq hvi
  simp only
  rw [← hpq.2.2.2.2.2, hvi.2 p.value q.value]

theorem twin_port_deserialize_v1 {V : Type} {a0 b0 a b : List (VSTPort V)} (h : Twin a0 b0 a b)
    (i : Nat) (ptr : List Nat) (size : Nat) :
    Twin a0 b0 (port_deserialize_v1 a i ptr size) (port_deserialize_v1 b i ptr size) := by
  refine twin_modify h (fun p => (p.deserialize_v1 p.value ptr size).2) ?_ i
  intro p q hpq hvi
  simp only
  rw [← hpq.2.2.2.2.1, hvi.1 p.value q.value]

theorem twin_delta {V : Type} {a0 b0 a b : List (VSTPort V)} (h : Twin a0 b0 a b)
    (i : Nat) (ptr : List Nat) (size : Nat) :
    (a[i]?.map (fun vp => (vp.deserialize_v1 vp.value ptr size).1)).getD 0 =
      (b[i]?.map (fun vp => (vp.deserialize_v1 vp.value ptr size).1)).getD 0 := by
  induction h generalizing i with
  | nil => simp
  | cons _ hpq hvi _ _ ih =>
    cases i with
    | zero =>
      simp only [List.getElem?_cons_zero, Option.map_some', Option.getD_some]
      rw [← hpq.2.2.2.2.1, hvi.1 _ _]
    | succ j => simpa using ih j

theorem twin_v2_port_loop {V : Type} (fuel : Nat) :
    ∀ (head : List Nat) (rem : Int) {a0 b0 a b : List (VSTPort V)}, Twin a0 b0 a b →
      Twin a0 b0 (v2_port_loop fuel head rem a).1 (v2_port_loop fuel head rem b).1 ∧
        (v2_port_loop fuel head rem a).2 = (v2_port_loop fuel head rem b).2 := by
  induction fuel with
  | zero => intro head rem a0 b0 a b h; exact ⟨h, rfl⟩
  | succ n ih =>
    intro head rem a0 b0 a b h
    rw [v2_port_loop, v2_port_loop]
    by_cases h4 : 4 ≤ to_size_t rem
    · rw [if_pos h4, if_pos h4]
      simp only
      by_cases h1 : (((be32 head + 4) % 2 ^ 32 : Nat) : Int) > rem
      · rw [if_pos h1, if_pos h1]; exact ⟨h, rfl⟩
      · rw [if_neg h1, if_neg h1]
        split_ifs with h2 h3
        · exact ⟨h, rfl⟩
        · exact ⟨h, rfl⟩
        · rw [twin_find_by_id h]
          cases find_by_id b _ with
          | none => exact ih _ _ h
          | some i => exact ih _ _ (twin_port_deserialize_v2 h i _)
    · rw [if_neg h4, if_neg h4]; exact ⟨h, rfl⟩

theorem twin_v1_loop {V : Type} (c : VSTConsts) (n : Nat) :
    ∀ (ptr : List Nat) (rem : Int) {a0 b0 a b : List (VSTPort V)}, Twin a0 b0 a b →
      Twin a0 b0 (v1_loop c n ptr rem a) (v1_loop c n ptr rem b) := by
  induction n with
  | zero => intro ptr rem a0 b0 a b h; exact h
  | succ n ih =>
    intro ptr rem a0 b0 a b h
    rw [v1_loop, v1_loop]
    unfold v1_step
    simp only
    split_ifs with h1
    · exact h
    · rw [twin_find_by_id h]
      cases find_by_id b _ with
      | none => exact h
      | some i =>
        simp only
        rw [twin_delta h]
        split_ifs with h2
        · exact twin_port_deserialize_v1 h i _ _
        · exact ih _ _ (twin_port_deserialize_v1 h i _ _)

theorem v2_port_loop_idem {V : Type} (fuel : Nat) (head : List Nat) (rem : Int)
    (a : List (VSTPort V)) (h : ∀ p ∈ a, value_independent p) :
    (v2_port_loop fuel head rem (v2_port_loop fuel head rem a).1).1 =
      (v2_port_loop fuel head rem a).1 :=
  twin_fixed (twin_v2_port_loop fuel head rem
    (twin_restart (twin_v2_port_loop fuel head rem (twin_start a h)).1)).1 rfl

theorem v1_loop_idem {V : Type} (c : VSTConsts) (n : Nat) (ptr : List Nat) (rem : Int)
    (a : List (VSTPort V)) (h : ∀ p ∈ a, value_independent p) :
    v1_loop c n ptr rem (v1_loop c n ptr rem a) = v1_loop c n ptr rem a :=
  twin_fixed (twin_v1_loop c n ptr rem
    (twin_restart (twin_v1_loop c n ptr rem (twin_start a h)))) rfl

/-! ## Idempotence of deserialize_state -/

theorem deserialize_v2_eq {V : Type} (c : VSTConsts) (w : VSTWrapper V) (bank : fxBank)
    (bytes : Nat) :
    deserialize_v2 c w bank bytes =
      { w with vPorts := (v2_port_loop (bank.body.length + 1) bank.body
          (to_ptrdiff ((bytes : Int) - c.VST_BANK_HDR_SIZE)) w.vPorts).1 } := by
  unfold deserialize_v2
  simp only
  split
  · next ports he => rw [he]
  · next ports head rem he =>
    have := v2_port_loop_left_nonneg _ _ _ _ _ _ _ (to_ptrdiff_ge _) he
    rw [if_pos this, he]

theorem select_decoder_congr {V : Type} (c : VSTConsts) (w w' : VSTWrapper V) (bank : fxBank)
    (h1 : w'.uniqueID = w.uniqueID) (h2 : w'.version = w.version) :
    select_decoder c w' bank = select_decoder c w bank := by
  unfold select_decoder
  rw [h1, h2]

/-- Claim C5: when the decode routines of every port set the value from the bytes they are
handed and nothing else, calling `deserialize_state` a second time with the same bank leaves
the wrapper, ports and KVT store, as the first call left it. -/
theorem deserialize_state_idempotent {V : Type} (c : VSTConsts) (w : VSTWrapper V)
    (bank : fxBank) (h : ∀ p ∈ w.vPorts, value_independent p) :
    deserialize_state c (deserialize_state c w bank) bank = deserialize_state c w bank := by
  have hsel : select_decoder c (deserialize_state c w bank) bank = select_decoder c w bank := by
    apply select_decoder_congr
    · unfold deserialize_state; split <;> simp [deserialize_v1, deserialize_v2_eq]
    · unfold deserialize_state; split <;> simp [deserialize_v1, deserialize_v2_eq]
  cases hd : select_decoder c w bank with
  | rejected =>
    have e : deserialize_state c w bank = w := by unfold deserialize_state; rw [hd]
    rw [e, e]
  | v1 bytes =>
    have e : deserialize_state c w bank = deserialize_v1 c w bank bytes := by
      unfold deserialize_state; rw [hd]
    have e' : deserialize_state c (deserialize_state c w bank) bank =
        deserialize_v1 c (deserialize_state c w bank) bank bytes := by
      rw [deserialize_state, hsel, hd]
    rw [e', e]
    simp only [deserialize_v1]
    rw [v1_loop_idem _ _ _ _ _ h]
  | v2 bytes =>
    have e : deserialize_state c w bank = deserialize_v2 c w bank bytes := by
      unfold deserialize_state; rw [hd]
    have e' : deserialize_state c (deserialize_state c w bank) bank =
        deserialize_v2 c (deserialize_state c w bank) bank bytes := by
      rw [deserialize_state, hsel, hd]
    rw [e', e]
    simp only [deserialize_v2_eq]
    rw [v2_port_loop_idem _ _ _ _ h]

theorem demo_wrapper_value_independent (a b : List Nat) (kvt : KVTStorage) :
    ∀ p ∈ (demo_wrapper a b kvt).vPorts, value_independent p := by
  intro p hp
  simp only [demo_wrapper, List.mem_cons, List.mem_singleton, List.not_mem_nil, or_false] at hp
  rcases hp with rfl | rfl <;> exact ⟨fun _ _ _ _ => rfl, fun _ _ _ => rfl⟩

theorem deserialize_state_idempotent_witness :
    deserialize_state demo_consts
        (deserialize_state demo_consts (demo_wrapper [5] [6] demo_store) demo_bank_v2)
        demo_bank_v2
      = deserialize_state demo_consts (demo_wrapper [5] [6] demo_store) demo_bank_v2 :=
  deserialize_state_idempotent _ _ _ (demo_wrapper_value_independent _ _ _)

/-! ## The port factory -/

theorem port_role_set_start (cm : port_t) (x : ℚ) : (cm.set_start x).role = cm.role := by
  cases cm; rfl

theorem port_role_set_id (cm : port_t) (x : List Nat) : (cm.set_id x).role = cm.role := by
  cases cm; rfl

theorem finish_port_some (x : PortObject) (y : Option UIPortObject) (s : PortRegistry) :
    ∃ p st', finish_port (some x) y s = (some p, st') ∧
      p.metadata = x.metadata ∧ st'.vPorts = s.vPorts ++ [p] ∧
      st'.vGenMetadata = s.vGenMetadata :=
  ⟨x, _, rfl, rfl, by simp [finish_port], rfl⟩

theorem create_port_leaf (maxbytes fuel : Nat) (port : port_t) (pfx : Option (List Nat))
    (st : PortRegistry) (h : leaf_role port.role = true) :
    ∃ p st', create_port maxbytes (fuel + 1) port pfx st = (some p, st') ∧
      p.metadata = port ∧ st'.vPorts = st.vPorts ++ [p] ∧
      st'.vGenMetadata = st.vGenMetadata := by
  rw [create_port]
  cases hr : port.role <;> simp only [hr, leaf_role] at h ⊢ <;>
    first
    | exact finish_port_some _ _ _
    | (split_ifs <;> exact finish_port_some _ _ _)
    | exact absurd h (by decide)

theorem create_members_leaf (maxbytes fuel : Nat) (buf : List Nat) (cms : List port_t) :
    ∀ (s : PortRegistry), (∀ cm ∈ cms, leaf_role cm.role = true) →
      ∃ gen, (create_members (fun cm p s => create_port maxbytes (fuel + 1) cm p s) buf cms s).vPorts
          = s.vPorts ++ gen ∧ gen.map (·.metadata) = cms ∧
        (create_members (fun cm p s => create_port maxbytes (fuel + 1) cm p s) buf cms s).vGenMetadata
          = s.vGenMetadata := by
  induction cms with
  | nil => intro s _; exact ⟨[], by simp [create_members], rfl, by simp [create_members]⟩
  | cons cm rest ih =>
    intro s h
    obtain ⟨p, st', he, hm, hv, hg⟩ :=
      create_port_leaf maxbytes fuel cm (some buf) s (h cm (by simp))
    have hstep : create_members (fun cm p s => create_port maxbytes (fuel + 1) cm p s) buf
        (cm :: rest) s =
        create_members (fun cm p s => create_port maxbytes (fuel + 1) cm p s) buf rest
          (if p.metadata.role ≠ .R_PORT_SET then
            { st' with plugin_ports := st'.plugin_ports ++ [p] } else st') := by
      simp only [create_members, List.foldl_cons, he]
    rw [hstep]
    obtain ⟨gen, h1, h2, h3⟩ := ih (if p.metadata.role ≠ .R_PORT_SET then
        { st' with plugin_ports := st'.plugin_ports ++ [p] } else st')
      (fun x hx => h x (by simp [hx]))
    refine ⟨p :: gen, ?_, by simp [hm, h2], ?_⟩
    · rw [h1]; split_ifs <;> simp [hv]
    · rw [h3]; split_ifs <;> simp [hg]

theorem generated_row_some (maxbytes : Nat) (pfx : Option (List Nat)) (port : port_t)
    (ms : List port_t) (hm : port.members = some ms) (row : Nat) :
    generated_row maxbytes pfx port row =
      some (ms.map (fun m => (m.set_id (m.id ++ row_pfx maxbytes pfx row)).set_start
        (row_start (m.set_id (m.id ++ row_pfx maxbytes pfx row)) row port.rows))) := by
  simp [generated_row, clone_port_metadata, hm, Function.comp_def]

theorem generated_row_leaf (maxbytes : Nat) (pfx : Option (List Nat)) (port : port_t)
    (ms : List port_t) (hm : port.members = some ms)
    (hleaf : ∀ m ∈ ms, leaf_role m.role = true) (row : Nat) :
    ∀ cm ∈ (generated_row maxbytes pfx port row).getD [], leaf_role cm.role = true := by
  rw [generated_row_some maxbytes pfx port ms hm row]
  intro cm hcm
  simp only [Option.getD_some, List.mem_map] at hcm
  obtain ⟨m, hmem, rfl⟩ := hcm
  rw [port_role_set_start, port_role_set_id]
  exact hleaf m hmem

theorem generated_row_length (maxbytes : Nat) (pfx : Option (List Nat)) (port : port_t)
    (ms : List port_t) (hm : port.members = some ms) (row : Nat) :
    ((generated_row maxbytes pfx port row).getD []).length = ms.length := by
  rw [generated_row_some maxbytes pfx port ms hm row]
  simp

theorem rows_fold_leaf (maxbytes fuel : Nat) (pfx : Option (List Nat)) (port : port_t)
    (ms : List port_t) (hm : port.members = some ms)
    (hleaf : ∀ m ∈ ms, leaf_role m.role = true) (rows : List Nat) :
    ∀ (s : PortRegistry), ∃ gen,
      (rows.foldl (fun s row =>
        match generated_row maxbytes pfx port row with
        | none => s
        | some cms =>
          create_members (fun cm p s => create_port maxbytes (fuel + 1) cm p s)
            (row_pfx maxbytes pfx row) cms
            { s with vGenMetadata := s.vGenMetadata ++ [cms] }) s).vPorts = s.vPorts ++ gen ∧
      gen.map (·.metadata) = rows.flatMap (fun row => (generated_row maxbytes pfx port row).getD []) ∧
      (rows.foldl (fun s row =>
        match generated_row maxbytes pfx port row with
        | none => s
        | some cms =>
          create_members (fun cm p s => create_port maxbytes (fuel + 1) cm p s)
            (row_pfx maxbytes pfx row) cms
            { s with vGenMetadata := s.vGenMetadata ++ [cms] }) s).vGenMetadata =
        s.vGenMetadata ++ rows.map (fun row => (generated_row maxbytes pfx port row).getD []) := by
  induction rows with
  | nil => intro s; exact ⟨[], by simp, by simp, by simp⟩
  | cons row rest ih =>
    intro s
    have hl := generated_row_leaf maxbytes pfx port ms hm hleaf row
    simp only [List.foldl_cons]
    cases hg : generated_row maxbytes pfx port row with
    | none => rw [generated_row_some maxbytes pfx port ms hm row] at hg; simp at hg
    | some cms =>
      simp only
      rw [hg] at hl
      simp only [Option.getD_some] at hl
      obtain ⟨g1, h1, h2, h3⟩ := create_members_leaf maxbytes fuel (row_pfx maxbytes pfx row) cms
        { s with vGenMetadata := s.vGenMetadata ++ [cms] } hl
      obtain ⟨g2, k1, k2, k3⟩ := ih (create_members
        (fun cm p s => create_port maxbytes (fuel + 1) cm p s) (row_pfx maxbytes pfx row) cms
        { s with vGenMetadata := s.vGenMetadata ++ [cms] })
      refine ⟨g1 ++ g2, ?_, ?_, ?_⟩
      · rw [k1, h1]; simp
      · simp [h2, k2, hg]
      · rw [k3, h3]; simp [hg]

theorem flatMap_length_const {α β : Type} (l : List α) (f : α → List β) (k : Nat)
    (h : ∀ a, (f a).length = k) : (l.flatMap f).length = l.length * k := by
  induction l with
  | nil => simp
  | cons a rest ih => simp [List.flatMap_cons, ih, h a]; ring

theorem create_port_group (maxbytes fuel : Nat) (port : port_t) (pfx : Option (List Nat))
    (st : PortRegistry) (ms : List port_t) (hrole : port.role = .R_PORT_SET)
    (hm : port.members = some ms) (hleaf : ∀ m ∈ ms, leaf_role m.role = true) :
    (create_port maxbytes (fuel + 2) port pfx st).1 = some ⟨.VSTPortGroup, port⟩ ∧
      ∃ gen, (create_port maxbytes (fuel + 2) port pfx st).2.vPorts
          = st.vPorts ++ gen ++ [⟨.VSTPortGroup, port⟩] ∧
        gen.map (·.metadata) = generated_members maxbytes pfx port ∧
        (create_port maxbytes (fuel + 2) port pfx st).2.vGenMetadata =
          st.vGenMetadata ++
            (List.range port.rows).map (fun row => (generated_row maxbytes pfx port row).getD []) := by
  rw [create_port]
  simp only [hrole, create_rows, finish_port]
  obtain ⟨gen, h1, h2, h3⟩ := rows_fold_leaf maxbytes fuel pfx port ms hm hleaf
    (List.range port.rows)
    { st with plugin_ports := st.plugin_ports ++ [⟨.VSTPortGroup, port⟩],
              vUIPorts := st.vUIPorts ++ [⟨.VSTUIPortGroup, port⟩] }
  refine ⟨trivial, gen, ?_, h2, ?_⟩
  · simp only [Option.toList_some]; rw [h1]
  · exact h3

/-- Claim C6: for a port group whose member table has `m` entries, all with a known
non-group role, and which reports `r` rows, `create_port` appends to the flat port list the
`m*r` generated ports, one per member per row in the order of the rows, and then the group
port itself, and it records `r` sets of generated metadata. -/
theorem create_port_group_count (maxbytes fuel : Nat) (port : port_t)
    (pfx : Option (List Nat)) (st : PortRegistry) (ms : List port_t)
    (hrole : port.role = .R_PORT_SET) (hm : port.members = some ms)
    (hleaf : ∀ m ∈ ms, leaf_role m.role = true) :
    ∃ gen, (create_port maxbytes (fuel + 2) port pfx st).2.vPorts
        = st.vPorts ++ gen ++ [⟨.VSTPortGroup, port⟩] ∧
      gen.length = ms.length * port.rows ∧
      gen.map (·.metadata) = generated_members maxbytes pfx port ∧
      (create_port maxbytes (fuel + 2) port pfx st).2.vGenMetadata.length
        = st.vGenMetadata.length + port.rows := by
  obtain ⟨-, gen, h1, h2, h3⟩ := create_port_group maxbytes fuel port pfx st ms hrole hm hleaf
  refine ⟨gen, h1, ?_, h2, ?_⟩
  · have := congrArg List.length h2
    rw [List.length_map, generated_members,
      flatMap_length_const _ _ ms.length (generated_row_length maxbytes pfx port ms hm)] at this
    rw [this, List.length_range, Nat.mul_comm]
  · rw [h3]; simp

theorem create_port_group_count_witness :
    ∃ gen, (create_port 64 2 demo_group none PortRegistry.empty).2.vPorts
        = [] ++ gen ++ [⟨.VSTPortGroup, demo_group⟩] ∧
      gen.length = 12 ∧
      gen.map (·.metadata) = generated_members 64 none demo_group ∧
      (create_port 64 2 demo_group none PortRegistry.empty).2.vGenMetadata.length = 4 :=
  create_port_group_count 64 0 demo_group none PortRegistry.empty
    [demo_member 120 true false, demo_member 121 false true, demo_member 122 false false]
    rfl rfl (by decide)

theorem generated_members_start (maxbytes : Nat) (pfx : Option (List Nat)) (port : port_t)
    (ms : List port_t) (hm : port.members = some ms) :
    (generated_members maxbytes pfx port).map (·.start) =
      (List.range port.rows).flatMap (fun row => ms.map (fun m => spec_start m row port.rows)) := by
  have key : ∀ (row : Nat) (m : port_t),
      ((m.set_id (m.id ++ row_pfx maxbytes pfx row)).set_start
        (row_start (m.set_id (m.id ++ row_pfx maxbytes pfx row)) row port.rows)).start
        = spec_start m row port.rows := by
    intro row m
    cases m
    rfl
  unfold generated_members
  induction List.range port.rows with
  | nil => rfl
  | cons row rest ih =>
    simp only [List.flatMap_cons, List.map_append, ih]
    rw [generated_row_some maxbytes pfx port ms hm row]
    simp [Function.comp_def, key]

/-- Claim C7: for a port group whose members have known non-group roles, the start values
of the generated ports, in the order of the flat port list (row by row, member by member),
are `min + (max-min)*row/rows` for a growing member, `max - (max-min)*row/rows` for a
lowering member that is not growing, and the declared start otherwise (`spec_start`). -/
theorem generated_port_start (maxbytes fuel : Nat) (port : port_t)
    (pfx : Option (List Nat)) (st : PortRegistry) (ms : List port_t)
    (hrole : port.role = .R_PORT_SET) (hm : port.members = some ms)
    (hleaf : ∀ m ∈ ms, leaf_role m.role = true) :
    ∃ gen, (create_port maxbytes (fuel + 2) port pfx st).2.vPorts
        = st.vPorts ++ gen ++ [⟨.VSTPortGroup, port⟩] ∧
      gen.map (fun p => p.metadata.start) =
        (List.range port.rows).flatMap
          (fun row => ms.map (fun m => spec_start m row port.rows)) := by
  obtain ⟨-, gen, h1, h2, -⟩ := create_port_group maxbytes fuel port pfx st ms hrole hm hleaf
  refine ⟨gen, h1, ?_⟩
  rw [← generated_members_start maxbytes pfx port ms hm, ← h2, List.map_map]
  rfl

theorem generated_port_start_witness :
    ∃ gen, (create_port 64 2 demo_group none PortRegistry.empty).2.vPorts
        = [] ++ gen ++ [⟨.VSTPortGroup, demo_group⟩] ∧
      gen.map (fun p => p.metadata.start) = [0, 100, 7, 25, 75, 7, 50, 50, 7, 75, 25, 7] := by
  obtain ⟨gen, h1, h2⟩ := generated_port_start 64 0 demo_group none PortRegistry.empty
    [demo_member 120 true false, demo_member 121 false true, demo_member 122 false false]
    rfl rfl (by decide)
  refine ⟨gen, h1, ?_⟩
  rw [h2]
  simp [demo_group, demo_member, port_t.rows, spec_start, port_t.growing, port_t.lowering,
    port_t.min, port_t.max, port_t.start, List.range, List.range.loop]
  norm_num

/-! ## The port-record loop of deserialize_v2, record by record -/

theorem strnlen_le (p : List Nat) (n : Nat) : strnlen p n ≤ n := by
  unfold strnlen; omega

theorem be32_nil : be32 [] = 0 := by decide

/-- In an iteration of the record loops that goes on, the record is at least five bytes long
and the buffer is not empty. -/
theorem record_len_ge (head : List Nat)
    (h2 : ¬ (((strnlen (head.drop 4) (to_size_t ((((be32 head + 4) % 2 ^ 32 : Nat) : Int) - 4)) + 1)
      % 2 ^ 32 : Nat) : Int) > (((be32 head + 4) % 2 ^ 32 : Nat) : Int) - 4) :
    5 ≤ (be32 head + 4) % 2 ^ 32 ∧ head ≠ [] := by
  have hl := strnlen_le (head.drop 4) (to_size_t ((((be32 head + 4) % 2 ^ 32 : Nat) : Int) - 4))
  have hlt : (be32 head + 4) % 2 ^ 32 < 2 ^ 32 := Nat.mod_lt _ (by norm_num)
  have h5 : 5 ≤ (be32 head + 4) % 2 ^ 32 := by
    generalize strnlen (head.drop 4) (to_size_t ((((be32 head + 4) % 2 ^ 32 : Nat) : Int) - 4))
      = s at hl h2
    generalize (be32 head + 4) % 2 ^ 32 = l at hl h2 hlt
    unfold to_size_t at hl
    omega
  refine ⟨h5, ?_⟩
  rintro rfl
  rw [be32_nil] at h5
  norm_num at h5

theorem v2_port_loop_fuel {V : Type} (f1 : Nat) :
    ∀ (f2 : Nat) (head : List Nat) (rem : Int) (ports : List (VSTPort V)),
      head.length < f1 → head.length < f2 →
      v2_port_loop f1 head rem ports = v2_port_loop f2 head rem ports := by
  induction f1 with
  | zero => intro f2 head rem ports h; omega
  | succ n ih =>
    intro f2 head rem ports h1 h2
    obtain ⟨m, rfl⟩ : ∃ m, f2 = m + 1 := ⟨f2 - 1, by omega⟩
    rw [v2_port_loop, v2_port_loop]
    by_cases h4 : 4 ≤ to_size_t rem
    · rw [if_pos h4, if_pos h4]
      simp only
      by_cases hl : (((be32 head + 4) % 2 ^ 32 : Nat) : Int) > rem
      · rw [if_pos hl, if_pos hl]
      · rw [if_neg hl, if_neg hl]
        split_ifs with hn hs
        · rfl
        · rfl
        · obtain ⟨h5, hne⟩ := record_len_ge head hn
          have hpos : 0 < head.length := List.length_pos.mpr hne
          have hd : (head.drop ((be32 head + 4) % 2 ^ 32)).length < head.length := by
            rw [List.length_drop]; omega
          cases find_by_id ports _ with
          | none => exact ih m _ _ _ (by omega) (by omega)
          | some i => exact ih m _ _ _ (by omega) (by omega)
    · rw [if_neg h4, if_neg h4]


theorem be32_put32 (n : Nat) (h : n < 2 ^ 32) (xs : List Nat) : be32 (put32 n ++ xs) = n := by
  simp only [be32, put32, rd, List.cons_append, List.nil_append, List.getD_cons_zero,
    List.getD_cons_succ]
  omega

theorem put32_length (n : Nat) : (put32 n).length = 4 := rfl

theorem strnlen_append (c r : List Nat) : strnlen (c ++ r) c.length = strnlen c c.length := by
  unfold strnlen
  induction c with
  | nil => simp
  | cons x c ih =>
    simp only [List.cons_append, List.takeWhile_cons, List.length_cons]
    split
    · simp only [List.length_cons]; omega
    · simp

theorem v2_port_loop_record {V : Type} (fuel : Nat) (content rest : List Nat) (rem : Int)
    (ports : List (VSTPort V)) (hlen : content.length + 4 < 2 ^ 32)
    (hrem : ((content.length + 4 : Nat) : Int) ≤ rem) (hmax : rem < 2 ^ 63) :
    v2_port_loop (fuel + 1) (chunk_record content ++ rest) rem ports =
      match record_action ports content with
      | .corrupt => (ports, .returned)
      | .sentinel => (ports, .left (content ++ rest) (rem - 4))
      | .apply ports' => v2_port_loop fuel rest (rem - ((content.length + 4 : Nat) : Int)) ports' := by
  have hmod : content.length % 2 ^ 32 = content.length := Nat.mod_eq_of_lt (by omega)
  have hbe : be32 (chunk_record content ++ rest) = content.length := by
    rw [chunk_record, hmod, List.append_assoc, be32_put32 _ (by omega)]
  have hl : (be32 (chunk_record content ++ rest) + 4) % 2 ^ 32 = content.length + 4 := by
    rw [hbe]; exact Nat.mod_eq_of_lt hlen
  have hd4 : (chunk_record content ++ rest).drop 4 = content ++ rest := by
    rw [chunk_record, List.append_assoc]
    exact List.drop_left' (put32_length _)
  have hdl : (chunk_record content ++ rest).drop (content.length + 4) = rest := by
    rw [show content.length + 4 = 4 + content.length by omega, ← List.drop_drop, hd4]
    exact List.drop_left' rfl
  have h4 : 4 ≤ to_size_t rem := by unfold to_size_t; omega
  have hnh : to_size_t (((content.length + 4 : Nat) : Int) - 4) = content.length := by
    unfold to_size_t; omega
  have hsl := strnlen_le content content.length
  rw [v2_port_loop, if_pos h4]
  simp only [hl, hd4, hdl, hnh, strnlen_append]
  rw [if_neg (by omega)]
  have hl2 : (strnlen content content.length + 1) % 2 ^ 32 = strnlen content content.length + 1 :=
    Nat.mod_eq_of_lt (by omega)
  rw [hl2]
  unfold record_action
  simp only
  by_cases hc : strnlen content content.length + 1 > content.length
  · rw [if_pos hc, if_pos (by omega)]
  · rw [if_neg hc, if_neg (by omega)]
    have hne : content ≠ [] := by rintro rfl; simp at hc
    have hrd : rd (content ++ rest) 0 = rd content 0 := by
      cases content with
      | nil => exact absurd rfl hne
      | cons x xs => rfl
    rw [hrd]
    by_cases hs : rd content 0 = 47
    · rw [if_pos hs, if_pos hs]
    · rw [if_neg hs, if_neg hs]
      have htake : (content ++ rest).take (strnlen content content.length + 1 - 1)
          = content.take (strnlen content content.length) := by
        rw [Nat.add_sub_cancel, List.take_append_of_le_length hsl]
      have hpay : ((content ++ rest).drop (strnlen content content.length + 1)).take
          ((((content.length + 4 : Nat) : Int) - 4 - ((strnlen content content.length + 1 : Nat) : Int)).toNat)
          = content.drop (strnlen content content.length + 1) := by
        rw [List.drop_append_of_le_length (by omega)]
        have : ((((content.length + 4 : Nat) : Int) - 4 -
            ((strnlen content content.length + 1 : Nat) : Int)).toNat)
            = (content.drop (strnlen content content.length + 1)).length := by
          rw [List.length_drop]; omega
        rw [this, List.take_left']
        rfl
      rw [htake, hpay]
      cases find_by_id ports (content.take (strnlen content content.length)) <;> rfl


theorem record_action_ids {V : Type} (ports ports' : List (VSTPort V)) (content : List Nat)
    (h : record_action ports content = .apply ports') :
    ports'.map (·.id) = ports.map (·.id) := by
  unfold record_action at h
  simp only at h
  split_ifs at h
  cases hf : find_by_id ports (content.take (strnlen content content.length)) with
  | none => simp only [hf, RecordAction.apply.injEq] at h; rw [← h]
  | some i =>
    simp only [hf, RecordAction.apply.injEq] at h
    rw [← h]; exact port_deserialize_v2_ids _ _ _

theorem takeWhile_name (name payload : List Nat) (h0 : ∀ b ∈ name, b ≠ 0) :
    (name ++ 0 :: payload).takeWhile (fun b => b != 0) = name := by
  induction name with
  | nil => simp
  | cons x xs ih =>
    have hx : x ≠ 0 := h0 x (by simp)
    simp only [List.cons_append, List.takeWhile_cons, bne_iff_ne, ne_eq, hx, not_false_eq_true,
      decide_True, ite_true, List.cons.injEq, true_and]
    exact ih (fun b hb => h0 b (by simp [hb]))

theorem strnlen_name (name payload : List Nat) (h0 : ∀ b ∈ name, b ≠ 0) :
    strnlen (name ++ 0 :: payload) (name ++ 0 :: payload).length = name.length := by
  unfold strnlen
  rw [takeWhile_name name payload h0]
  simp

theorem record_action_unresolved {V : Type} (ports : List (VSTPort V)) (name payload : List Nat)
    (h0 : ∀ b ∈ name, b ≠ 0) (hslash : name.head? ≠ some 47)
    (hfind : find_by_id ports name = none) :
    record_action ports (name ++ 0 :: payload) = .apply ports := by
  unfold record_action
  simp only [strnlen_name name payload h0]
  rw [if_neg (by simp)]
  have hrd : rd (name ++ 0 :: payload) 0 ≠ 47 := by
    cases name with
    | nil => simp [rd]
    | cons x xs => simpa [rd] using hslash
  rw [if_neg hrd, List.take_left' rfl, hfind]

theorem chunk_record_length (c : List Nat) : (chunk_record c).length = c.length + 4 := by
  simp [chunk_record, put32]

theorem record_stream_cons_length (r : List Nat) (rs : List (List Nat)) :
    (record_stream (r :: rs)).length = r.length + 4 + (record_stream rs).length := by
  simp [record_stream, chunk_record, put32]
  omega

theorem port_loop_skip {V : Type} (name payload post : List Nat)
    (h0 : ∀ b ∈ name, b ≠ 0) (hslash : name.head? ≠ some 47)
    (hlen : (name ++ 0 :: payload).length + 4 < 2 ^ 32) (pre : List (List Nat)) :
    ∀ (ports : List (VSTPort V)) (rem : Int) (f1 f2 : Nat),
      (∀ r ∈ pre, r.length + 4 < 2 ^ 32) → find_by_id ports name = none →
      (((record_stream pre).length + ((name ++ 0 :: payload).length + 4) : Nat) : Int) ≤ rem →
      rem < 2 ^ 63 →
      (record_stream pre ++ chunk_record (name ++ 0 :: payload) ++ post).length < f1 →
      (record_stream pre ++ post).length < f2 →
      (v2_port_loop f1 (record_stream pre ++ chunk_record (name ++ 0 :: payload) ++ post)
          rem ports).1 =
        (v2_port_loop f2 (record_stream pre ++ post)
          (rem - (((name ++ 0 :: payload).length + 4 : Nat) : Int)) ports).1 := by
  induction pre with
  | nil =>
    intro ports rem f1 f2 _ hfind hrem hmax hf1 hf2
    obtain ⟨k, rfl⟩ : ∃ k, f1 = k + 1 := ⟨f1 - 1, by omega⟩
    simp only [record_stream, List.nil_append, List.length_nil, Nat.zero_add] at *
    rw [v2_port_loop_record k _ post rem ports hlen hrem hmax,
      record_action_unresolved ports name payload h0 hslash hfind]
    simp only
    rw [v2_port_loop_fuel k f2 post _ ports
      (by simp only [List.length_append, chunk_record_length] at hf1; omega) hf2]
  | cons r rs ih =>
    intro ports rem f1 f2 hpre hfind hrem hmax hf1 hf2
    obtain ⟨k1, rfl⟩ : ∃ k, f1 = k + 1 := ⟨f1 - 1, by omega⟩
    obtain ⟨k2, rfl⟩ : ∃ k, f2 = k + 1 := ⟨f2 - 1, by omega⟩
    have hr : r.length + 4 < 2 ^ 32 := hpre r (by simp)
    rw [record_stream_cons_length] at hrem
    simp only [record_stream, List.append_assoc] at hf1 hf2 ⊢
    rw [v2_port_loop_record k1 r _ rem ports hr (by omega) hmax,
      v2_port_loop_record k2 r _ _ ports hr (by omega) (by omega)]
    cases ha : record_action ports r with
    | corrupt => rfl
    | sentinel => rfl
    | apply ports' =>
      simp only
      have hfind' : find_by_id ports' name = none := by
        rw [find_by_id_congr ports' ports name (record_action_ids _ _ _ ha)]; exact hfind
      have := ih ports' (rem - ((r.length + 4 : Nat) : Int)) k1 k2
        (fun x hx => hpre x (by simp [hx])) hfind' (by push_cast at hrem ⊢; omega) (by omega)
        (by simp only [List.append_assoc, List.length_append, chunk_record_length] at hf1 ⊢
            omega)
        (by simp only [List.length_append, chunk_record_length] at hf2 ⊢; omega)
      simp only [List.append_assoc] at this
      rw [this]
      congr 2
      omega

theorem to_ptrdiff_small (x : Int) (h0 : 0 ≤ x) (h1 : x < 2 ^ 63) : to_ptrdiff x = x := by
  unfold to_ptrdiff; omega

/-- Claim C8: a record of the port section of a v2 bank whose name (without NUL, not starting
with `/`) matches no port is skipped and the records behind it are still parsed: the
port list after `deserialize_v2` is the one obtained from the bank with that record removed
and the byte size reduced by its length.  `pre` are the records in front of it. -/
theorem v2_unresolved_record_skipped {V : Type} (c : VSTConsts) (w : VSTWrapper V)
    (bank : fxBank) (bytes : Nat) (pre : List (List Nat)) (name payload post : List Nat)
    (hpre : ∀ r ∈ pre, r.length + 4 < 2 ^ 32)
    (h0 : ∀ b ∈ name, b ≠ 0) (hslash : name.head? ≠ some 47)
    (hfind : find_by_id w.vPorts name = none)
    (hlen : (name ++ 0 :: payload).length + 4 < 2 ^ 32)
    (hbody : bank.body = record_stream pre ++ chunk_record (name ++ 0 :: payload) ++ post)
    (hbytes : c.VST_BANK_HDR_SIZE + (record_stream pre).length
      + ((name ++ 0 :: payload).length + 4) ≤ bytes)
    (hmax : bytes < 2 ^ 63) :
    (deserialize_v2 c w bank bytes).vPorts =
      (deserialize_v2 c w { bank with body := record_stream pre ++ post }
        (bytes - ((name ++ 0 :: payload).length + 4))).vPorts := by
  rw [deserialize_v2_eq, deserialize_v2_eq]
  simp only [hbody]
  rw [to_ptrdiff_small _ (by omega) (by omega), to_ptrdiff_small _ (by omega) (by omega)]
  rw [port_loop_skip name payload post h0 hslash hlen pre w.vPorts _ _
    ((record_stream pre ++ post).length + 1) hpre hfind (by omega) (by omega)
    (by omega) (by omega)]
  congr 2
  omega

theorem v2_unresolved_record_skipped_witness :
    (deserialize_v2 demo_consts (demo_wrapper [] [] []) (demo_bank_with demo_skip_body) 102).vPorts
      = (deserialize_v2 demo_consts (demo_wrapper [] [] [])
          { demo_bank_with demo_skip_body with
            body := record_stream [[97, 0, 1, 2]] ++ chunk_record [98, 0, 3] }
          (102 - (([122] ++ 0 :: [9]).length + 4))).vPorts :=
  v2_unresolved_record_skipped demo_consts (demo_wrapper [] [] []) (demo_bank_with demo_skip_body)
    102 [[97, 0, 1, 2]] [122] [9] (chunk_record [98, 0, 3])
    (by decide) (by decide) (by decide) (by decide) (by decide) rfl (by decide) (by decide)


theorem rd_lt (p : List Nat) (h : ∀ b ∈ p, b < 256) (i : Nat) : rd p i < 256 := by
  unfold rd
  rw [List.getD_eq_getElem?_getD]
  cases hi : p[i]? with
  | none => simp
  | some b =>
    obtain ⟨hlt, rfl⟩ := List.getElem?_eq_some_iff.mp hi
    simpa using h _ (List.getElem_mem hlt)

theorem be32_lt (p : List Nat) (h : ∀ b ∈ p, b < 256) : be32 p < 2 ^ 32 := by
  have h0 := rd_lt p h 0
  have h1 := rd_lt p h 1
  have h2 := rd_lt p h 2
  have h3 := rd_lt p h 3
  unfold be32
  omega

theorem port_loop_corrupt {V : Type} (f : Nat) (bad : List Nat) (rem : Int)
    (ports : List (VSTPort V)) (hbyte : ∀ b ∈ bad, b < 256)
    (hbad : (be32 bad : Int) + 4 > rem ∨ strnlen (bad.drop 4) (be32 bad) = be32 bad) :
    (v2_port_loop f bad rem ports).1 = ports := by
  cases f with
  | zero => rfl
  | succ k =>
    have hL := be32_lt bad hbyte
    rw [v2_port_loop]
    by_cases h4 : 4 ≤ to_size_t rem
    · rw [if_pos h4]
      simp only
      by_cases hl : (((be32 bad + 4) % 2 ^ 32 : Nat) : Int) > rem
      · rw [if_pos hl]
      · rw [if_neg hl]
        have hcorrupt : (((strnlen (bad.drop 4)
            (to_size_t ((((be32 bad + 4) % 2 ^ 32 : Nat) : Int) - 4)) + 1) % 2 ^ 32 : Nat) : Int)
            > (((be32 bad + 4) % 2 ^ 32 : Nat) : Int) - 4 := by
          by_cases hw : be32 bad + 4 < 2 ^ 32
          · have e1 : (be32 bad + 4) % 2 ^ 32 = be32 bad + 4 := Nat.mod_eq_of_lt hw
            rw [e1] at hl ⊢
            have e2 : to_size_t (((be32 bad + 4 : Nat) : Int) - 4) = be32 bad := by
              unfold to_size_t; omega
            rw [e2]
            rcases hbad with hb | hb
            · exact absurd hb (by push_cast at hl; omega)
            · rw [hb]; omega
          · have : (be32 bad + 4) % 2 ^ 32 < 4 := by omega
            omega
        rw [if_pos hcorrupt]
    · rw [if_neg h4]

theorem port_loop_truncate {V : Type} (bad : List Nat) (hbyte : ∀ b ∈ bad, b < 256)
    (pre : List (List Nat)) :
    ∀ (ports : List (VSTPort V)) (rem : Int) (f1 f2 : Nat),
      (∀ r ∈ pre, r.length + 4 < 2 ^ 32) →
      ((record_stream pre).length : Int) ≤ rem → rem < 2 ^ 63 →
      ((be32 bad : Int) + 4 > rem - (record_stream pre).length ∨
        strnlen (bad.drop 4) (be32 bad) = be32 bad) →
      (record_stream pre ++ bad).length < f1 → (record_stream pre).length < f2 →
      (v2_port_loop f1 (record_stream pre ++ bad) rem ports).1 =
        (v2_port_loop f2 (record_stream pre) (record_stream pre).length ports).1 := by
  induction pre with
  | nil =>
    intro ports rem f1 f2 _ hrem hmax hbad hf1 hf2
    obtain ⟨k2, rfl⟩ : ∃ k, f2 = k + 1 := ⟨f2 - 1, by omega⟩
    simp only [record_stream, List.nil_append, List.length_nil, Nat.cast_zero, sub_zero] at *
    rw [port_loop_corrupt f1 bad rem ports hbyte hbad]
    rfl
  | cons r rs ih =>
    intro ports rem f1 f2 hpre hrem hmax hbad hf1 hf2
    obtain ⟨k1, rfl⟩ : ∃ k, f1 = k + 1 := ⟨f1 - 1, by omega⟩
    obtain ⟨k2, rfl⟩ : ∃ k, f2 = k + 1 := ⟨f2 - 1, by omega⟩
    have hr : r.length + 4 < 2 ^ 32 := hpre r (by simp)
    rw [record_stream_cons_length] at hrem hbad ⊢
    have hs : record_stream (r :: rs) = chunk_record r ++ record_stream rs := rfl
    have hs' : chunk_record r ++ record_stream rs = chunk_record r ++ (record_stream rs ++ []) := by
      simp
    rw [hs] at hf1 hf2 ⊢
    simp only [List.append_assoc, List.length_append, chunk_record_length] at hf1 hf2
    rw [List.append_assoc, v2_port_loop_record k1 r _ rem ports hr (by omega) hmax]
    rw [hs', v2_port_loop_record k2 r _ _ ports hr (by push_cast; omega) (by push_cast; omega)]
    cases record_action ports r with
    | corrupt => rfl
    | sentinel => rfl
    | apply ports' =>
      simp only [List.append_nil]
      have := ih ports' (rem - ((r.length + 4 : Nat) : Int)) k1 k2
        (fun x hx => hpre x (by simp [hx])) (by push_cast at hrem ⊢; omega) (by omega)
        (by
          rcases hbad with hb | hb
          · left; push_cast at hb ⊢; omega
          · right; exact hb)
        (by simp only [List.length_append]; omega) (by omega)
      rw [this]
      congr 2
      push_cast
      omega


/-- Claim C9: when the port section of a v2 bank holds, behind the records `pre`, a corrupt
record (its declared length exceeds the bytes that remain before `tail`, or its name has no
NUL inside the record), the port list after `deserialize_v2` is the one obtained from the
bank that ends just before the corrupt record: the records before it are applied and kept,
no later record is applied. -/
theorem v2_corrupt_record_truncates {V : Type} (c : VSTConsts) (w : VSTWrapper V)
    (bank : fxBank) (bytes : Nat) (pre : List (List Nat)) (bad : List Nat)
    (hpre : ∀ r ∈ pre, r.length + 4 < 2 ^ 32) (hbyte : ∀ b ∈ bad, b < 256)
    (hbody : bank.body = record_stream pre ++ bad)
    (hbytes : c.VST_BANK_HDR_SIZE + (record_stream pre).length ≤ bytes) (hmax : bytes < 2 ^ 63)
    (hbad : (be32 bad : Int) + 4 >
        (bytes : Int) - c.VST_BANK_HDR_SIZE - (record_stream pre).length ∨
      strnlen (bad.drop 4) (be32 bad) = be32 bad) :
    (deserialize_v2 c w bank bytes).vPorts =
      (deserialize_v2 c w { bank with body := record_stream pre }
        (c.VST_BANK_HDR_SIZE + (record_stream pre).length)).vPorts := by
  rw [deserialize_v2_eq, deserialize_v2_eq]
  simp only [hbody]
  rw [to_ptrdiff_small _ (by omega) (by omega),
    to_ptrdiff_small _ (by push_cast; omega) (by push_cast; omega)]
  rw [port_loop_truncate bad hbyte pre w.vPorts _ _ ((record_stream pre).length + 1) hpre
    (by omega) (by omega) hbad (by omega) (by omega)]
  congr 2
  push_cast
  omega

theorem v2_corrupt_record_truncates_witness :
    (deserialize_v2 demo_consts (demo_wrapper [] [] [])
        (demo_bank_with (record_stream [[97, 0, 1, 2]] ++ [0, 0, 0, 9, 98, 0, 3])) 95).vPorts
      = (deserialize_v2 demo_consts (demo_wrapper [] [] [])
          { demo_bank_with (record_stream [[97, 0, 1, 2]] ++ [0, 0, 0, 9, 98, 0, 3]) with
            body := record_stream [[97, 0, 1, 2]] }
          (demo_consts.VST_BANK_HDR_SIZE + (record_stream [[97, 0, 1, 2]]).length)).vPorts :=
  v2_corrupt_record_truncates demo_consts (demo_wrapper [] [] [])
    (demo_bank_with (record_stream [[97, 0, 1, 2]] ++ [0, 0, 0, 9, 98, 0, 3])) 95
    [[97, 0, 1, 2]] [0, 0, 0, 9, 98, 0, 3]
    (by decide) (by decide) rfl (by decide) (by decide) (Or.inl (by decide))

/-! ## The KVT-record loop of deserialize_v2 -/

/-- Claim C10, evaluated on the code: the type switch of the KVT loop never yields a blob
parameter, whatever the tag and the bytes; the record that `serialize_state` writes for the
blob parameter `/b` is read by the KVT loop, started on its length field, without anything
being put into the store. -/
theorem v2_kvt_loop_drops_blob :
    (∀ (c : VSTConsts) (type : Nat) (head : List Nat) (d : Int) ctype data size,
        v2_kvt_switch c type head d ≠ .blob ctype data size) ∧
      serialize_kvt demo_consts demo_blob_store .STATUS_OK = (.STATUS_OK, demo_blob_record) ∧
      v2_kvt_loop demo_consts 14 demo_blob_record 13 [] = [] := by
  refine ⟨?_, by decide, by decide⟩
  intro c type head d ctype data size
  unfold v2_kvt_switch
  split_ifs <;> simp

/-! ## The KVT-record loop of deserialize_v2, record by record -/

theorem v2_kvt_loop_fuel (c : VSTConsts) (f1 : Nat) :
    ∀ (f2 : Nat) (head : List Nat) (rem : Int) (kvt : KVTStorage),
      head.length < f1 → head.length < f2 →
      v2_kvt_loop c f1 head rem kvt = v2_kvt_loop c f2 head rem kvt := by
  induction f1 with
  | zero => intro f2 head rem kvt h; omega
  | succ n ih =>
    intro f2 head rem kvt h1 h2
    obtain ⟨m, rfl⟩ : ∃ m, f2 = m + 1 := ⟨f2 - 1, by omega⟩
    rw [v2_kvt_loop, v2_kvt_loop]
    by_cases h4 : 4 ≤ to_size_t rem
    · rw [if_pos h4, if_pos h4]
      simp only
      by_cases hl : (((be32 head + 4) % 2 ^ 32 : Nat) : Int) > rem
      · rw [if_pos hl, if_pos hl]
      · rw [if_neg hl, if_neg hl]
        by_cases hn : (((strnlen (head.drop 4)
            (to_size_t ((((be32 head + 4) % 2 ^ 32 : Nat) : Int) - 4)) + 1) % 2 ^ 32 : Nat) : Int)
            > (((be32 head + 4) % 2 ^ 32 : Nat) : Int) - 4
        · rw [if_pos hn, if_pos hn]
        · rw [if_neg hn, if_neg hn]
          obtain ⟨h5, hne⟩ := record_len_ge head hn
          have hpos : 0 < head.length := List.length_pos.mpr hne
          have hd : (head.drop ((be32 head + 4) % 2 ^ 32)).length < head.length := by
            rw [List.length_drop]; omega
          exact ih m _ _ _ (by omega) (by omega)
    · rw [if_neg h4, if_neg h4]

theorem rd_append_lt (p r : List Nat) (i : Nat) (h : i < p.length) : rd (p ++ r) i = rd p i := by
  unfold rd
  rw [List.getD_eq_getElem?_getD, List.getD_eq_getElem?_getD, List.getElem?_append_left h]

theorem be32_append (p r : List Nat) (h : 4 ≤ p.length) : be32 (p ++ r) = be32 p := by
  unfold be32
  rw [rd_append_lt p r 0 (by omega), rd_append_lt p r 1 (by omega), rd_append_lt p r 2 (by omega),
    rd_append_lt p r 3 (by omega)]

theorem be64_append (p r : List Nat) (h : 8 ≤ p.length) : be64 (p ++ r) = be64 p := by
  unfold be64
  rw [be32_append p r (by omega), List.drop_append_of_le_length (by omega),
    be32_append (p.drop 4) r (by rw [List.length_drop]; omega)]

theorem takeWhile_append_lt (f : Nat → Bool) (p r : List Nat)
    (h : (p.takeWhile f).length < p.length) : (p ++ r).takeWhile f = p.takeWhile f := by
  induction p with
  | nil => simp at h
  | cons x xs ih =>
    simp only [List.cons_append, List.takeWhile_cons] at h ⊢
    split
    · next hx =>
      rw [hx] at h
      simp only [ite_true, List.length_cons] at h
      rw [ih (by omega)]
    · rfl

theorem v2_kvt_switch_append (c : VSTConsts) (type : Nat) (p r : List Nat)
    (hp : p.length < 2 ^ 64) :
    v2_kvt_switch c type (p ++ r) (p.length : Int) = v2_kvt_switch c type p (p.length : Int) := by
  have hs : to_size_t (p.length : Int) = p.length := by unfold to_size_t; omega
  have e4 : p.length = 4 → be32 (p ++ r) = be32 p := fun h => be32_append p r (by omega)
  have e8 : p.length = 8 → be64 (p ++ r) = be64 p := fun h => be64_append p r (by omega)
  have es : strnlen p p.length < p.length →
      (p ++ r).takeWhile (fun b => b != 0) = p.takeWhile (fun b => b != 0) :=
    fun h => takeWhile_append_lt _ p r (by unfold strnlen at h; omega)
  have estr : (if strnlen p p.length < p.length
        then kvt_param_t.str (some ((p ++ r).takeWhile (fun b => b != 0)))
        else kvt_param_t.any) =
      (if strnlen p p.length < p.length
        then kvt_param_t.str (some (p.takeWhile (fun b => b != 0)))
        else kvt_param_t.any) := by
    split_ifs with h
    · rw [es h]
    · rfl
  unfold v2_kvt_switch
  simp only [hs, strnlen_append, estr]
  by_cases h4 : p.length = 4
  · rw [e4 h4]; simp [h4]
  · by_cases h8 : p.length = 8
    · rw [e8 h8]; simp [h8]
    · simp [h4, h8]


theorem rd_drop (l : List Nat) (k : Nat) : rd (l.drop k) 0 = rd l k := by
  unfold rd
  rw [List.getD_eq_getElem?_getD, List.getD_eq_getElem?_getD, List.getElem?_drop]
  simp

theorem v2_kvt_loop_record (c : VSTConsts) (fuel : Nat) (content rest : List Nat) (rem : Int)
    (kvt : KVTStorage) (hlen : content.length + 4 < 2 ^ 32)
    (hrem : ((content.length + 4 : Nat) : Int) ≤ rem) (hmax : rem < 2 ^ 63)
    (hfr : strnlen content content.length + 1 ≠ content.length) :
    v2_kvt_loop c (fuel + 1) (chunk_record content ++ rest) rem kvt =
      if strnlen content content.length + 1 > content.length then kvt
      else v2_kvt_loop c fuel rest (rem - ((content.length + 4 : Nat) : Int))
        (kvt_record_put c kvt content) := by
  have hmod : content.length % 2 ^ 32 = content.length := Nat.mod_eq_of_lt (by omega)
  have hbe : be32 (chunk_record content ++ rest) = content.length := by
    rw [chunk_record, hmod, List.append_assoc, be32_put32 _ (by omega)]
  have hl : (be32 (chunk_record content ++ rest) + 4) % 2 ^ 32 = content.length + 4 := by
    rw [hbe]; exact Nat.mod_eq_of_lt hlen
  have hd4 : (chunk_record content ++ rest).drop 4 = content ++ rest := by
    rw [chunk_record, List.append_assoc]
    exact List.drop_left' (put32_length _)
  have hdl : (chunk_record content ++ rest).drop (content.length + 4) = rest := by
    rw [show content.length + 4 = 4 + content.length by omega, ← List.drop_drop, hd4]
    exact List.drop_left' rfl
  have h4 : 4 ≤ to_size_t rem := by unfold to_size_t; omega
  have hnh : to_size_t (((content.length + 4 : Nat) : Int) - 4) = content.length := by
    unfold to_size_t; omega
  have hsl := strnlen_le content content.length
  rw [v2_kvt_loop, if_pos h4]
  simp only [hl, hd4, hdl, hnh, strnlen_append]
  rw [if_neg (by omega)]
  have hl2 : (strnlen content content.length + 1) % 2 ^ 32 = strnlen content content.length + 1 :=
    Nat.mod_eq_of_lt (by omega)
  rw [hl2]
  by_cases hc : strnlen content content.length + 1 > content.length
  · rw [if_pos hc, if_pos (by omega)]
  · rw [if_neg hc, if_neg (by omega)]
    have hlt : strnlen content content.length + 1 < content.length := by omega
    have htake : (content ++ rest).take (strnlen content content.length + 1 - 1)
        = content.take (strnlen content content.length) := by
      rw [Nat.add_sub_cancel, List.take_append_of_le_length hsl]
    have hdrop : ((content ++ rest).drop (strnlen content content.length + 1)).drop 1
        = content.drop (strnlen content content.length + 2) ++ rest := by
      rw [List.drop_drop, List.drop_append_of_le_length (by omega)]
    have htype : rd ((content ++ rest).drop (strnlen content content.length + 1)) 0
        = rd content (strnlen content content.length + 1) := by
      rw [rd_drop, rd_append_lt _ _ _ hlt]
    have hd : ((content.length + 4 : Nat) : Int) - 4
        - ((strnlen content content.length + 1 : Nat) : Int) - 1
        = ((content.drop (strnlen content content.length + 2)).length : Int) := by
      rw [List.length_drop]; omega
    have hd' : (content.length : Int) - ((strnlen content content.length + 2 : Nat) : Int)
        = ((content.drop (strnlen content content.length + 2)).length : Int) := by
      rw [List.length_drop]; omega
    rw [htake, hdrop, htype, hd]
    rw [v2_kvt_switch_append c _ _ rest (by rw [List.length_drop]; omega)]
    unfold kvt_record_put
    simp only
    rw [hd']

theorem v2_kvt_switch_discarded (c : VSTConsts) (hnodup : c.tags.Nodup) (tag len : Nat)
    (head : List Nat) (hbad : discarded_tag c tag len) (hlt : len < 2 ^ 64) :
    v2_kvt_switch c tag head (len : Int) = .any := by
  have hs : to_size_t (len : Int) = len := by unfold to_size_t; omega
  simp only [VSTConsts.tags, List.nodup_cons, List.mem_cons, List.mem_singleton, not_or,
    List.not_mem_nil, not_false_eq_true, List.nodup_nil, and_true] at hnodup
  unfold v2_kvt_switch
  simp only [hs]
  obtain ⟨⟨i_u, i_I, i_U, i_f, i_F, -, -⟩, ⟨u_I, u_U, u_f, u_F, -, -⟩, ⟨I_U, I_f, I_F, -, -⟩,
    ⟨U_f, U_F, -, -⟩, ⟨f_F, -, -⟩, -, -⟩ := hnodup
  rcases hbad with h | ⟨h | h | h, hl⟩ | ⟨h | h | h, hl⟩
  · simp only [VSTConsts.tags, List.mem_cons, List.mem_singleton, not_or, List.not_mem_nil,
      not_false_eq_true, and_true] at h
    rw [if_neg h.1, if_neg h.2.1, if_neg h.2.2.1, if_neg h.2.2.2.1, if_neg h.2.2.2.2.1,
      if_neg h.2.2.2.2.2.1, if_neg h.2.2.2.2.2.2.1, if_neg h.2.2.2.2.2.2.2]
  · rw [if_pos h, if_pos hl]
  · subst h
    rw [if_neg (Ne.symm i_u), if_pos rfl, if_pos hl]
  · subst h
    rw [if_neg (Ne.symm i_f), if_neg (Ne.symm u_f), if_neg (Ne.symm I_f), if_neg (Ne.symm U_f),
      if_pos rfl, if_pos hl]
  · subst h
    rw [if_neg (Ne.symm i_I), if_neg (Ne.symm u_I), if_pos rfl, if_pos hl]
  · subst h
    rw [if_neg (Ne.symm i_U), if_neg (Ne.symm u_U), if_neg (Ne.symm I_U), if_pos rfl, if_pos hl]
  · subst h
    rw [if_neg (Ne.symm i_F), if_neg (Ne.symm u_F), if_neg (Ne.symm I_F), if_neg (Ne.symm U_F),
      if_neg (Ne.symm f_F), if_pos rfl, if_pos hl]


theorem kvt_record_put_discarded (c : VSTConsts) (hnodup : c.tags.Nodup) (kvt : KVTStorage)
    (name payload : List Nat) (tag : Nat) (h0 : ∀ b ∈ name, b ≠ 0)
    (hbad : discarded_tag c tag payload.length) (hlt : payload.length < 2 ^ 64) :
    kvt_record_put c kvt (name ++ 0 :: tag :: payload) = kvt := by
  have hn := strnlen_name name (tag :: payload) h0
  have hd : (name ++ 0 :: tag :: payload).drop (name.length + 2) = payload := by
    rw [show name ++ 0 :: tag :: payload = (name ++ [0, tag]) ++ payload by simp]
    exact List.drop_left' (by simp)
  have ht : rd (name ++ 0 :: tag :: payload) (name.length + 1) = tag := by
    unfold rd
    rw [List.getD_eq_getElem?_getD, List.getElem?_append_right (by omega)]
    simp
  have hl : ((name ++ 0 :: tag :: payload).length : Int) - ((name.length + 2 : Nat) : Int)
      = (payload.length : Int) := by
    simp only [List.length_append, List.length_cons]; omega
  unfold kvt_record_put
  simp only [hn, hd, ht, hl]
  rw [v2_kvt_switch_discarded c hnodup tag _ payload hbad hlt]
  simp

/-- Claim C11: in the KVT-record loop of `deserialize_v2`, a record whose type tag is none of
the case labels, or is the label of a fixed-size type while the payload has another length,
is not put into the store and the loop goes on with the next record: run over the records
`pre`, that record and the bytes `post`, the loop ends with the store it ends with when the
record is removed from the stream.  The records `pre` hold a type byte or are corrupt. -/
theorem kvt_discarded_record_skipped (c : VSTConsts) (hnodup : c.tags.Nodup)
    (name payload post : List Nat) (tag : Nat) (h0 : ∀ b ∈ name, b ≠ 0)
    (hbad : discarded_tag c tag payload.length)
    (hlen : (name ++ 0 :: tag :: payload).length + 4 < 2 ^ 32) (pre : List (List Nat)) :
    ∀ (kvt : KVTStorage) (rem : Int) (f1 f2 : Nat),
      (∀ r ∈ pre, r.length + 4 < 2 ^ 32 ∧ strnlen r r.length + 1 ≠ r.length) →
      (((record_stream pre).length + ((name ++ 0 :: tag :: payload).length + 4) : Nat) : Int)
        ≤ rem →
      rem < 2 ^ 63 →
      (record_stream pre ++ chunk_record (name ++ 0 :: tag :: payload) ++ post).length < f1 →
      (record_stream pre ++ post).length < f2 →
      v2_kvt_loop c f1 (record_stream pre ++ chunk_record (name ++ 0 :: tag :: payload) ++ post)
          rem kvt =
        v2_kvt_loop c f2 (record_stream pre ++ post)
          (rem - (((name ++ 0 :: tag :: payload).length + 4 : Nat) : Int)) kvt := by
  have hfr : strnlen (name ++ 0 :: tag :: payload) (name ++ 0 :: tag :: payload).length + 1
      ≠ (name ++ 0 :: tag :: payload).length := by
    rw [strnlen_name name (tag :: payload) h0]
    simp only [List.length_append, List.length_cons]; omega
  have hpl : payload.length < 2 ^ 64 := by
    simp only [List.length_append, List.length_cons] at hlen; omega
  have hlt2 : ¬ strnlen (name ++ 0 :: tag :: payload) (name ++ 0 :: tag :: payload).length + 1
      > (name ++ 0 :: tag :: payload).length := by
    rw [strnlen_name name (tag :: payload) h0]
    simp only [List.length_append, List.length_cons]; omega
  induction pre with
  | nil =>
    intro kvt rem f1 f2 _ hrem hmax hf1 hf2
    obtain ⟨k, rfl⟩ : ∃ k, f1 = k + 1 := ⟨f1 - 1, by omega⟩
    simp only [record_stream, List.nil_append, List.length_nil, Nat.zero_add] at *
    rw [v2_kvt_loop_record c k _ post rem kvt hlen hrem hmax hfr, if_neg hlt2,
      kvt_record_put_discarded c hnodup kvt name payload tag h0 hbad hpl]
    exact v2_kvt_loop_fuel c k f2 post _ kvt
      (by simp only [List.length_append, chunk_record_length] at hf1; omega) hf2
  | cons r rs ih =>
    intro kvt rem f1 f2 hpre hrem hmax hf1 hf2
    obtain ⟨k1, rfl⟩ : ∃ k, f1 = k + 1 := ⟨f1 - 1, by omega⟩
    obtain ⟨k2, rfl⟩ : ∃ k, f2 = k + 1 := ⟨f2 - 1, by omega⟩
    obtain ⟨hr, hrf⟩ := hpre r (by simp)
    rw [record_stream_cons_length] at hrem
    simp only [record_stream, List.append_assoc] at hf1 hf2 ⊢
    rw [v2_kvt_loop_record c k1 r _ rem kvt hr (by omega) hmax hrf,
      v2_kvt_loop_record c k2 r _ _ kvt hr (by omega) (by omega) hrf]
    split_ifs with hc
    · rfl
    · have := ih (kvt_record_put c kvt r) (rem - ((r.length + 4 : Nat) : Int)) k1 k2
        (fun x hx => hpre x (by simp [hx])) (by push_cast at hrem ⊢; omega) (by omega)
        (by simp only [List.append_assoc, List.length_append, chunk_record_length] at hf1 ⊢
            omega)
        (by simp only [List.length_append, chunk_record_length] at hf2 ⊢; omega)
      simp only [List.append_assoc] at this
      rw [this]
      congr 1
      omega


theorem kvt_discarded_record_skipped_witness :
    v2_kvt_loop demo_consts 40
        (record_stream [[47, 120, 0, 105, 0, 0, 0, 5]] ++
          chunk_record ([47, 121] ++ 0 :: 122 :: [1]) ++ chunk_record [47, 119, 0, 117, 0, 0, 0, 9])
        33 [] =
      v2_kvt_loop demo_consts 40
        (record_stream [[47, 120, 0, 105, 0, 0, 0, 5]] ++ chunk_record [47, 119, 0, 117, 0, 0, 0, 9])
        (33 - ((([47, 121] ++ 0 :: 122 :: [1]).length + 4 : Nat) : Int)) [] :=
  kvt_discarded_record_skipped demo_consts (by decide) [47, 121] [1]
    (chunk_record [47, 119, 0, 117, 0, 0, 0, 9]) 122 (by decide) (Or.inl (by decide)) (by decide)
    [[47, 120, 0, 105, 0, 0, 0, 5]] [] 33 40 40 (by decide) (by decide) (by decide) (by decide)
    (by decide)

/-! ## serialize_state -/

theorem serialize_kvt_invalid (c : VSTConsts) (bad : KVTNode) (post : List KVTNode)
    (hres : bad.res = .STATUS_OK) (hname : bad.name ≠ none)
    (hinv : bad.param = .any ∨ ∃ ctype size, 0 < size ∧ bad.param = .blob ctype none size)
    (pre : List KVTNode) :
    ∀ (res : status_t), (∀ n ∈ pre, n.res = .STATUS_OK → n.name ≠ none) →
      (serialize_kvt c (pre ++ bad :: post) res).1 ≠ .STATUS_OK := by
  induction pre with
  | nil =>
    intro res _
    obtain ⟨name, hn⟩ := Option.ne_none_iff_exists'.mp hname
    have hp : (serialize_kvt_param c bad.param).1 ≠ .STATUS_OK := by
      rcases hinv with h | ⟨ctype, size, hs, h⟩
      · rw [h]; simp [serialize_kvt_param]
      · rw [h]; simp [serialize_kvt_param, hs]
    simp only [List.nil_append, serialize_kvt, hres, hn]
    rw [if_neg (by decide), if_neg (by simp), if_pos hp]
    exact hp
  | cons n rest ih =>
    intro res hpre
    have ih' := fun r => ih r (fun x hx => hpre x (by simp [hx]))
    rw [List.cons_append, serialize_kvt]
    by_cases h1 : n.res = .STATUS_NOT_FOUND
    · rw [if_pos h1]; exact ih' _
    · rw [if_neg h1]
      by_cases h2 : n.res ≠ .STATUS_OK
      · rw [if_pos h2]; exact h2
      · rw [if_neg h2]
        have hok : n.res = .STATUS_OK := not_not.mp h2
        obtain ⟨name, hn⟩ := Option.ne_none_iff_exists'.mp (hpre n (by simp) hok)
        simp only [hn]
        by_cases h3 : (serialize_kvt_param c n.param).1 ≠ .STATUS_OK
        · rw [if_pos h3]; exact h3
        · rw [if_neg h3]; exact ih' _

/-- Claim C12: when the enumeration of the KVT section of `serialize_state` reaches a
parameter whose type is none of the supported ones, or a blob with a size above 0 and no
data, `serialize_state` returns size 0 and a NULL output pointer, whatever the ports are and
whatever nodes precede and follow that parameter.  The enumeration reaches the parameter when
no node before it has a NULL name. -/
theorem serialize_state_invalid_param {V : Type} (c : VSTConsts) (w : VSTWrapper V)
    (pre post : List KVTNode) (bad : KVTNode) (hs : w.sKVT = pre ++ bad :: post)
    (hpre : ∀ n ∈ pre, n.res = .STATUS_OK → n.name ≠ none)
    (hres : bad.res = .STATUS_OK) (hname : bad.name ≠ none)
    (hinv : bad.param = .any ∨ ∃ ctype size, 0 < size ∧ bad.param = .blob ctype none size) :
    serialize_state c w = none := by
  unfold serialize_state
  simp only
  rw [if_pos]
  rw [hs]
  exact serialize_kvt_invalid c bad post hres hname hinv pre _ hpre

theorem serialize_state_invalid_param_witness :
    serialize_state demo_consts (demo_wrapper [1, 2] [3] demo_null_blob_store) = none :=
  serialize_state_invalid_param demo_consts (demo_wrapper [1, 2] [3] demo_null_blob_store)
    [⟨some [47, 120], .STATUS_OK, .int32 5, false, false⟩]
    [⟨some [47, 121], .STATUS_OK, .uint32 1, false, false⟩]
    ⟨some [47, 98], .STATUS_OK, .blob (some [116]) none 3, false, false⟩
    rfl (by decide) rfl (by decide) (Or.inr ⟨some [116], 3, by decide, rfl⟩)

theorem serialize_ports_eq {V : Type} (ports : List (VSTPort V)) :
    serialize_ports ports = record_stream (spec_port_records ports) := by
  induction ports with
  | nil => rfl
  | cons vp rest ih =>
    rw [serialize_ports]
    cases hid : vp.id with
    | none => simp [spec_port_records, hid, List.filter_cons] at ih ⊢; exact ih
    | some id =>
      simp only
      by_cases ho : vp.out = true
      · rw [if_pos (Or.inl ho), ih]
        simp [spec_port_records, hid, ho, List.filter_cons]
      · by_cases hsr : vp.serializable = true
        · rw [if_neg (by simp [ho, hsr]), ih]
          simp [spec_port_records, hid, ho, hsr, List.filter_cons, record_stream]
        · rw [if_pos (Or.inr hsr), ih]
          simp [spec_port_records, hid, ho, hsr, List.filter_cons]

/-- Claim C13: when `serialize_state` succeeds, the body of the bank starts with the port
section, which is the stream of one record for each port of the flat list that has an id,
is not an output and is serializable, in the order of the list, and of no other record;
the records of the KVT section follow. -/
theorem serialize_state_port_section {V : Type} (c : VSTConsts) (w : VSTWrapper V) (size : Nat)
    (bank : fxBank) (h : serialize_state c w = some (size, bank)) :
    bank.body = record_stream (spec_port_records w.vPorts) ++
      (serialize_kvt c w.sKVT .STATUS_OK).2 := by
  unfold serialize_state at h
  simp only at h
  split_ifs at h
  simp only [Option.some.injEq, Prod.mk.injEq] at h
  rw [← h.2, serialize_ports_eq]

theorem serialize_state_port_section_witness :
    (⟨0x43636E4B, 107, 0x46424368, 1, 77, 2000, 0, 0, 27,
        [0, 0, 0, 4, 97, 0, 1, 2, 0, 0, 0, 3, 98, 0, 3,
         0, 0, 0, 8, 47, 120, 0, 105, 0, 0, 0, 5]⟩ : fxBank).body =
      record_stream (spec_port_records (demo_wrapper [1, 2] [3] demo_store).vPorts) ++
        (serialize_kvt demo_consts (demo_wrapper [1, 2] [3] demo_store).sKVT .STATUS_OK).2 :=
  serialize_state_port_section demo_consts (demo_wrapper [1, 2] [3] demo_store) 187 _ (by decide)

/-! ## Version dispatch -/

/-- Claim C14: for a bank that passes the six header checks, `deserialize_state` calls one
decoder: `deserialize_v1` when the fx-version field, read as a signed 32-bit integer, is
below `VST_FX_VERSION_KVT_SUPPORT`, and `deserialize_v2` otherwise, with the byte size read
from the header. -/
theorem deserialize_state_dispatch {V : Type} (c : VSTConsts) (w : VSTWrapper V) (bank : fxBank)
    (h1 : bank.chunkMagic = c.cMagic)
    (h2 : c.VST_STATE_BUFFER_SIZE ≤ to_size_t (to_int32 bank.byteSize))
    (h3 : bank.fxMagic = c.chunkBankMagic) (h4 : bank.fxID = w.uniqueID)
    (h5 : to_int32 bank.version ≤ w.version) (h6 : bank.numPrograms = 0) :
    (select_decoder c w bank =
        if to_int32 bank.fxVersion < c.VST_FX_VERSION_KVT_SUPPORT
        then .v1 (to_size_t (to_int32 bank.byteSize))
        else .v2 (to_size_t (to_int32 bank.byteSize))) ∧
      deserialize_state c w bank =
        if to_int32 bank.fxVersion < c.VST_FX_VERSION_KVT_SUPPORT
        then deserialize_v1 c w bank (to_size_t (to_int32 bank.byteSize))
        else deserialize_v2 c w bank (to_size_t (to_int32 bank.byteSize)) := by
  have hsel : select_decoder c w bank =
      if to_int32 bank.fxVersion < c.VST_FX_VERSION_KVT_SUPPORT
      then .v1 (to_size_t (to_int32 bank.byteSize))
      else .v2 (to_size_t (to_int32 bank.byteSize)) := by
    unfold select_decoder
    simp only
    rw [if_neg (not_not.mpr h1), if_neg (by omega), if_neg (not_not.mpr h3),
      if_neg (not_not.mpr h4), if_neg (by omega), if_neg (not_not.mpr h6)]
  refine ⟨hsel, ?_⟩
  unfold deserialize_state
  rw [hsel]
  split_ifs <;> rfl

theorem deserialize_state_dispatch_witness :
    select_decoder demo_consts (demo_wrapper [] [] []) demo_bank_v2 = .v2 100 ∧
      deserialize_state demo_consts (demo_wrapper [] [] []) demo_bank_v2 =
        deserialize_v2 demo_consts (demo_wrapper [] [] []) demo_bank_v2 100 :=
  deserialize_state_dispatch demo_consts (demo_wrapper [] [] []) demo_bank_v2
    rfl (by decide) rfl rfl (by decide) rfl

/-! ## init -/

theorem create_members_vParams
    (create : port_t → Option (List Nat) → PortRegistry → Option PortObject × PortRegistry)
    (hc : ∀ cm p s, (create cm p s).2.vParams = s.vParams) (buf : List Nat)
    (cms : List port_t) :
    ∀ s, (create_members create buf cms s).vParams = s.vParams := by
  induction cms with
  | nil => intro s; rfl
  | cons cm rest ih =>
    intro s
    simp only [create_members, List.foldl_cons] at ih ⊢
    rw [ih]
    cases h : (create cm (some buf) s).1 with
    | none => simp only; exact hc _ _ _
    | some p =>
      simp only
      split_ifs
      · exact hc _ _ _
      · exact hc _ _ _

theorem create_rows_vParams
    (create : port_t → Option (List Nat) → PortRegistry → Option PortObject × PortRegistry)
    (hc : ∀ cm p s, (create cm p s).2.vParams = s.vParams) (maxbytes : Nat) (port : port_t)
    (pfx : Option (List Nat)) (st : PortRegistry) :
    (create_rows create maxbytes port pfx st).vParams = st.vParams := by
  unfold create_rows
  generalize List.range port.rows = rows
  induction rows generalizing st with
  | nil => rfl
  | cons row rest ih =>
    simp only [List.foldl_cons]
    rw [ih]
    cases generated_row maxbytes pfx port row with
    | none => rfl
    | some cms => exact create_members_vParams create hc _ cms _

theorem create_port_vParams (maxbytes fuel : Nat) :
    ∀ (port : port_t) (pfx : Option (List Nat)) (st : PortRegistry),
      (create_port maxbytes fuel port pfx st).2.vParams = st.vParams := by
  induction fuel with
  | zero => intro port pfx st; rfl
  | succ n ih =>
    intro port pfx st
    rw [create_port]
    cases port.role <;> simp only [finish_port]
    · split_ifs <;> rfl
    · split_ifs <;> rfl
    · split_ifs <;> rfl
    · exact create_rows_vParams _ (fun cm p s => ih cm p s) maxbytes port pfx _

theorem create_ports_step_vParams (maxbytes : Nat) (st : PortRegistry) (meta : port_t) :
    (create_ports_step maxbytes st meta).vParams = st.vParams ++ top_level_params [meta] := by
  have hv := create_port_vParams maxbytes (meta.depth + 1) meta none st
  unfold create_ports_step
  simp only
  rw [create_port] at hv ⊢
  cases hr : meta.role <;> simp only [hr, finish_port, top_level_params, List.filter_cons] at hv ⊢
  all_goals (split_ifs <;> simp_all)

theorem top_level_params_append (a b : List port_t) :
    top_level_params (a ++ b) = top_level_params a ++ top_level_params b := by
  simp [top_level_params]

theorem create_ports_vParams (maxbytes : Nat) (meta : List port_t) :
    ∀ (st : PortRegistry),
      (create_ports maxbytes meta st).vParams = st.vParams ++ top_level_params meta := by
  induction meta with
  | nil => intro st; simp [create_ports, top_level_params]
  | cons m rest ih =>
    intro st
    have h := ih (create_ports_step maxbytes st m)
    simp only [create_ports, List.foldl_cons] at h ⊢
    rw [h, create_ports_step_vParams, List.append_assoc, ← top_level_params_append]
    rfl

/-- Claim C15 as the code has it: after `init` the parameter list holds the parameter ports
created for the declarations of the top-level table with the role control or meter and the
input direction, in the order of the table, and nothing else; the host-visible parameter
count is the 32-bit value of the length of that list.  A port generated from a member of a
port group is not added to the list. -/
theorem init_params_top_level (maxbytes : Nat) (meta : List port_t) :
    (init maxbytes meta).reg.vParams = top_level_params meta ∧
      (init maxbytes meta).numParams = to_int32 (top_level_params meta).length := by
  have h := create_ports_vParams maxbytes meta PortRegistry.empty
  simp only [PortRegistry.empty, List.nil_append] at h
  simp only [init, PortRegistry.empty, h, and_self]

/-- Claim C15 fails as stated: for the table that holds the group `demo_group`, whose three
members are input controls, `init` leaves twelve parameter ports of input controls in the
flat port list, none of them in the parameter list, and a parameter count of 0. -/
theorem init_group_params_not_listed :
    ((init 64 [demo_group]).reg.vPorts.filter (fun p =>
        p.cls = .VSTParameterPort ∧ p.metadata.role = .R_CONTROL ∧ p.metadata.out = false)).length
        = 12 ∧
      (init 64 [demo_group]).reg.vParams.length = 0 ∧
      (init 64 [demo_group]).numParams = 0 := by
  refine ⟨by decide, by decide, by decide⟩

theorem set_param_ids_range (n : Nat) (k : Nat) :
    ∀ (id : Nat), id + k = n →
      set_param_ids (n : Int) k id
          ((List.range id).map (fun (i : Nat) => some (i : Int)) ++ List.replicate k none) =
        (List.range n).map (fun (i : Nat) => some (i : Int)) := by
  induction k with
  | zero => intro id h; simp at h; subst h; simp [set_param_ids]
  | succ k ih =>
    intro id h
    rw [set_param_ids, if_pos (by omega)]
    have hset : ((List.range id).map (fun (i : Nat) => some (i : Int)) ++ List.replicate (k + 1) none).set
        id (some (id : Int)) =
        (List.range (id + 1)).map (fun (i : Nat) => some (i : Int)) ++ List.replicate k none := by
      rw [List.set_append_right _ _ (by simp)]
      simp [List.range_succ, List.replicate_succ]
    rw [hset]
    exact ih (id + 1) (by omega)

/-- Claim C16: after `init`, when the lists of parameters, audio inputs and audio outputs have
fewer than `2^31` entries (the counts are of type `VstInt32`), the parameter count is the
length `n` of the parameter list and the `i`-th entry has the id `i`, so that the ids are
pairwise distinct and are `0..n-1`; the input and output counts are the lengths of the
lists of audio input and output ports. -/
theorem init_counts_and_ids (maxbytes : Nat) (meta : List port_t)
    (hp : (init maxbytes meta).reg.vParams.length < 2 ^ 31)
    (hi : (init maxbytes meta).reg.vInputs.length < 2 ^ 31)
    (ho : (init maxbytes meta).reg.vOutputs.length < 2 ^ 31) :
    (init maxbytes meta).numParams = (init maxbytes meta).reg.vParams.length ∧
      (init maxbytes meta).param_ids =
        (List.range (init maxbytes meta).reg.vParams.length).map (fun (i : Nat) => some (i : Int)) ∧
      (init maxbytes meta).param_ids.Nodup ∧
      (init maxbytes meta).numInputs = (init maxbytes meta).reg.vInputs.length ∧
      (init maxbytes meta).numOutputs = (init maxbytes meta).reg.vOutputs.length := by
  have h32 : ∀ x : Nat, x < 2 ^ 31 → to_int32 x = (x : Int) := by
    intro x hx; unfold to_int32; omega
  simp only [init] at hp hi ho ⊢
  have hids : set_param_ids
      (to_int32 (create_ports maxbytes meta PortRegistry.empty).vParams.length)
      (to_int32 (create_ports maxbytes meta PortRegistry.empty).vParams.length).toNat 0
      (List.replicate (create_ports maxbytes meta PortRegistry.empty).vParams.length none) =
      (List.range (create_ports maxbytes meta PortRegistry.empty).vParams.length).map
        (fun (i : Nat) => some (i : Int)) := by
    rw [h32 _ hp, Int.toNat_ofNat]
    have := set_param_ids_range (create_ports maxbytes meta PortRegistry.empty).vParams.length
      (create_ports maxbytes meta PortRegistry.empty).vParams.length 0 (by omega)
    simpa using this
  refine ⟨h32 _ hp, hids, ?_, h32 _ hi, h32 _ ho⟩
  rw [hids]
  refine (List.nodup_range _).map ?_
  intro a b hab
  simpa using hab

theorem init_counts_and_ids_witness :
    (init 64 demo_table).numParams = (2 : Nat) ∧
      (init 64 demo_table).param_ids = (List.range 2).map (fun (i : Nat) => some (i : Int)) ∧
      (init 64 demo_table).param_ids.Nodup ∧
      (init 64 demo_table).numInputs = (1 : Nat) ∧
      (init 64 demo_table).numOutputs = (1 : Nat) :=
  init_counts_and_ids 64 demo_table (by decide) (by decide) (by decide)

/-! ## transfer_dsp_to_ui -/


/-- Claim C17: when `try_lock` fails, `transfer_dsp_to_ui` returns, for every amount of fuel,
with the store, every entry and flag of it, as it was and with no notification delivered;
the only call on the mutex and the store is the failed `try_lock` (no blocking lock, no
iterator, no commit, no garbage collection). -/
theorem transfer_lock_contended (env : KVTSyncEnv) (fuel : Nat) (st : UIBridge) :
    ∃ st', transfer_dsp_to_ui env fuel false st = some st' ∧
      st'.sKVT = st.sKVT ∧ st'.kvt_written = st.kvt_written ∧
      st'.kvt_calls = st.kvt_calls ++ (if st.has_ui then [.try_lock false] else []) := by
  unfold transfer_dsp_to_ui
  by_cases h : st.has_ui = false
  · rw [if_pos h]
    exact ⟨st, rfl, rfl, rfl, by simp [h]⟩
  · rw [if_neg h]
    simp only [if_true]
    exact ⟨_, rfl, rfl, rfl, by simp [h]⟩

theorem tx_pass_none_pending (env : KVTSyncEnv) (s : List KVTNode)
    (h : ∀ n ∈ s, n.tx_pending = false) : tx_pass env s = (s, [], []) := by
  induction s with
  | nil => rfl
  | cons n rest ih =>
    rw [tx_pass, if_pos (h n (by simp)), ih (fun x hx => h x (by simp [hx]))]

theorem tx_pass_all (env : KVTSyncEnv) (hw : ∀ name p, env.kvt_write name p = [])
    (s : List KVTNode)
    (hops : ∀ n ∈ s, n.tx_pending = true →
      n.res = .STATUS_OK ∧ ∃ name, n.name = some name ∧ env.commit_tx name = .STATUS_OK) :
    tx_pass env s = (s.map (fun n => { n with tx_pending := false }), pending_tx s, []) := by
  induction s with
  | nil => rfl
  | cons n rest ih =>
    have ih' := ih (fun x hx => hops x (by simp [hx]))
    rw [tx_pass]
    by_cases hp : n.tx_pending = false
    · rw [if_pos hp, ih']
      have : ({ n with tx_pending := false } : KVTNode) = n := by
        cases n; simp_all
      simp [pending_tx, hp, this]
    · rw [if_neg hp]
      have hp' : n.tx_pending = true := by simpa using hp
      obtain ⟨hres, name, hname, hc⟩ := hops n (by simp) hp'
      simp only [hname]
      rw [if_neg (not_not.mpr hres), if_neg (not_not.mpr hc), ih', hw]
      simp [pending_tx, hp', hname]

theorem tx_drain_all (env : KVTSyncEnv) (hw : ∀ name p, env.kvt_write name p = [])
    (s : List KVTNode)
    (hops : ∀ n ∈ s, n.tx_pending = true →
      n.res = .STATUS_OK ∧ ∃ name, n.name = some name ∧ env.commit_tx name = .STATUS_OK)
    (fuel : Nat) :
    ∃ passes, tx_drain env (fuel + 2) s =
      some (s.map (fun n => { n with tx_pending := false }), pending_tx s, passes) := by
  rw [tx_drain, tx_pass_all env hw s hops]
  simp only [List.append_nil]
  split_ifs with h
  · rw [tx_drain, tx_pass_none_pending env _ (by simp)]
    simp
  · exact ⟨1, rfl⟩

theorem rx_pass_tx (env : KVTSyncEnv) (s : List KVTNode)
    (h : ∀ n ∈ s, n.tx_pending = false) : ∀ n ∈ rx_pass env s, n.tx_pending = false := by
  induction s with
  | nil => simp [rx_pass]
  | cons n rest ih =>
    have ih' := ih (fun x hx => h x (by simp [hx]))
    have hn := h n (by simp)
    have hcons : ∀ m : KVTNode, m.tx_pending = false →
        ∀ x ∈ m :: rx_pass env rest, x.tx_pending = false := by
      intro m hm x hx
      simp only [List.mem_cons] at hx
      rcases hx with rfl | hx
      · exact hm
      · exact ih' x hx
    rw [rx_pass]
    by_cases h1 : n.rx_pending = false
    · rw [if_pos h1]; exact hcons n hn
    · rw [if_neg h1]
      cases hname : n.name with
      | none => simpa using h
      | some name =>
        simp only
        by_cases h2 : n.res ≠ .STATUS_OK
        · rw [if_pos h2]; exact h
        · rw [if_neg h2]
          by_cases h3 : env.commit_rx name ≠ .STATUS_OK
          · rw [if_pos h3]; exact h
          · rw [if_neg h3]; exact hcons _ hn

/-- Claim C18: when `try_lock` succeeds, every operation of the iterator succeeds on the
entries pending toward the UI and the UI callback enqueues nothing, one call of
`transfer_dsp_to_ui` (with fuel for two passes) returns, delivers to the UI the name and the
value of every entry that was pending at its start, each once and in the order of the store,
and leaves no entry of the store pending toward the UI. -/
theorem transfer_drains_tx (env : KVTSyncEnv) (fuel : Nat) (st : UIBridge)
    (hui : st.has_ui = true)
    (hops : ∀ n ∈ st.sKVT, n.tx_pending = true →
      n.res = .STATUS_OK ∧ ∃ name, n.name = some name ∧ env.commit_tx name = .STATUS_OK)
    (hw : ∀ name p, env.kvt_write name p = []) (hf : 2 ≤ fuel) :
    ∃ st', transfer_dsp_to_ui env fuel true st = some st' ∧
      st'.kvt_written = st.kvt_written ++ pending_tx st.sKVT ∧
      ∀ n ∈ st'.sKVT, n.tx_pending = false := by
  obtain ⟨f, rfl⟩ : ∃ f, fuel = f + 2 := ⟨fuel - 2, by omega⟩
  obtain ⟨passes, hd⟩ := tx_drain_all env hw st.sKVT hops f
  unfold transfer_dsp_to_ui
  rw [if_neg (by simp [hui])]
  simp only [hd]
  refine ⟨_, rfl, rfl, ?_⟩
  simp only [KVTStorage.gc]
  split_ifs
  · exact rx_pass_tx env _ (by simp)
  · simp [KVTStorage.commit_all_rx]

theorem transfer_drains_tx_witness :
    ∃ st', transfer_dsp_to_ui demo_sync_env 2 true demo_bridge = some st' ∧
      st'.kvt_written = demo_bridge.kvt_written ++ pending_tx demo_bridge.sKVT ∧
      ∀ n ∈ st'.sKVT, n.tx_pending = false :=
  transfer_drains_tx demo_sync_env 2 demo_bridge rfl (by decide) (fun _ _ => rfl) (by decide)


theorem tx_pass_quiet (env : KVTSyncEnv) (s : List KVTNode)
    (h : (tx_pass env s).2.1 = []) : (tx_pass env s).1 = s ∧ (tx_pass env s).2.2 = [] := by
  induction s with
  | nil => exact ⟨rfl, rfl⟩
  | cons n rest ih =>
    rw [tx_pass] at h ⊢
    by_cases hp : n.tx_pending = false
    · rw [if_pos hp] at h ⊢
      simp only at h ⊢
      obtain ⟨h1, h2⟩ := ih h
      exact ⟨by rw [h1], h2⟩
    · rw [if_neg hp] at h ⊢
      cases hname : n.name with
      | none => exact ⟨rfl, rfl⟩
      | some name =>
        simp only [hname] at h ⊢
        by_cases h2 : n.res ≠ .STATUS_OK
        · rw [if_pos h2]; exact ⟨rfl, rfl⟩
        · rw [if_neg h2] at h ⊢
          by_cases h3 : env.commit_tx name ≠ .STATUS_OK
          · rw [if_pos h3]; exact ⟨rfl, rfl⟩
          · rw [if_neg h3] at h
            simp at h

theorem tx_drain_quiet (env : KVTSyncEnv) (fuel : Nat) :
    ∀ (s s' : KVTStorage) (w : List (List Nat × kvt_param_t)) (k : Nat),
      tx_drain env fuel s = some (s', w, k) → (tx_pass env s').2.1 = [] := by
  induction fuel with
  | zero => intro s s' w k h; simp [tx_drain] at h
  | succ f ih =>
    intro s s' w k h
    rw [tx_drain] at h
    split_ifs at h with hd
    · simp only [Option.map_eq_some'] at h
      obtain ⟨⟨t1, t2, t3⟩, ht, heq⟩ := h
      simp only [Prod.mk.injEq] at heq
      obtain ⟨rfl, -, -⟩ := heq
      exact ih _ _ _ _ ht
    · have hnil : (tx_pass env s).2.1 = [] := by
        simpa [List.length_pos] using hd
      obtain ⟨e1, e2⟩ := tx_pass_quiet env s hnil
      simp only [Option.some.injEq, Prod.mk.injEq] at h
      obtain ⟨rfl, -, -⟩ := h
      rw [e1, e2, List.append_nil]
      exact hnil

theorem tx_pass_same_tx (env : KVTSyncEnv) (s t : List KVTNode)
    (h : List.Forall₂ same_tx s t) : (tx_pass env s).2.1 = (tx_pass env t).2.1 := by
  induction h with
  | nil => rfl
  | @cons a b l1 l2 hab _ ih =>
    obtain ⟨hn, hr, hpm, htx⟩ := hab
    simp only [tx_pass, ← htx, ← hn, ← hr, ← hpm]
    by_cases hp : a.tx_pending = false
    · rw [if_pos hp, if_pos hp]; exact ih
    · rw [if_neg hp, if_neg hp]
      cases a.name with
      | none => rfl
      | some name =>
        simp only
        by_cases h2 : a.res ≠ .STATUS_OK
        · rw [if_pos h2, if_pos h2]
        · rw [if_neg h2, if_neg h2]
          by_cases h3 : env.commit_tx name ≠ .STATUS_OK
          · rw [if_pos h3, if_pos h3]
          · rw [if_neg h3, if_neg h3]
            simp only [ih]

theorem same_tx_refl (s : List KVTNode) : List.Forall₂ same_tx s s := by
  induction s with
  | nil => exact .nil
  | cons n rest ih => exact .cons ⟨rfl, rfl, rfl, rfl⟩ ih

theorem rx_pass_same_tx (env : KVTSyncEnv) (s : List KVTNode) :
    List.Forall₂ same_tx s (rx_pass env s) := by
  induction s with
  | nil => exact .nil
  | cons n rest ih =>
    rw [rx_pass]
    by_cases h1 : n.rx_pending = false
    · rw [if_pos h1]; exact .cons ⟨rfl, rfl, rfl, rfl⟩ ih
    · rw [if_neg h1]
      cases hname : n.name with
      | none => exact same_tx_refl _
      | some name =>
        simp only
        by_cases h2 : n.res ≠ .STATUS_OK
        · rw [if_pos h2]; exact same_tx_refl _
        · rw [if_neg h2]
          by_cases h3 : env.commit_rx name ≠ .STATUS_OK
          · rw [if_pos h3]; exact same_tx_refl _
          · rw [if_neg h3]; exact .cons ⟨hname, rfl, rfl, rfl⟩ ih

theorem commit_all_rx_same_tx (s : List KVTNode) :
    List.Forall₂ same_tx s (KVTStorage.commit_all_rx s) := by
  induction s with
  | nil => exact .nil
  | cons n rest ih => exact .cons ⟨rfl, rfl, rfl, rfl⟩ ih

theorem rx_pass_idem (env : KVTSyncEnv) (s : List KVTNode) :
    rx_pass env (rx_pass env s) = rx_pass env s := by
  induction s with
  | nil => rfl
  | cons n rest ih =>
    rw [rx_pass]
    by_cases h1 : n.rx_pending = false
    · rw [if_pos h1, rx_pass, if_pos h1, ih]
    · rw [if_neg h1]
      cases hname : n.name with
      | none => simp only; rw [rx_pass, if_neg h1]; simp only [hname]
      | some name =>
        simp only
        by_cases h2 : n.res ≠ .STATUS_OK
        · rw [if_pos h2, rx_pass, if_neg h1]; simp only [hname]; rw [if_pos h2]
        · rw [if_neg h2]
          by_cases h3 : env.commit_rx name ≠ .STATUS_OK
          · rw [if_pos h3, rx_pass, if_neg h1]; simp only [hname]; rw [if_neg h2, if_pos h3]
          · rw [if_neg h3, rx_pass, if_pos rfl, ih]

theorem commit_all_rx_idem (s : List KVTNode) :
    KVTStorage.commit_all_rx (KVTStorage.commit_all_rx s) = KVTStorage.commit_all_rx s := by
  simp [KVTStorage.commit_all_rx, Function.comp_def]

theorem tx_drain_quiet_store (env : KVTSyncEnv) (fuel : Nat) (s : KVTStorage)
    (h : (tx_pass env s).2.1 = []) : tx_drain env (fuel + 1) s = some (s, [], 1) := by
  obtain ⟨e1, e2⟩ := tx_pass_quiet env s h
  rw [tx_drain]
  simp only [h, e1, e2, List.length_nil, gt_iff_lt, lt_self_iff_false, if_false, List.append_nil]

/-- Claim C19: a call of `transfer_dsp_to_ui` that acquires the lock and follows, with no
write to the store in between, a call that acquired the lock and returned, returns as well,
delivers no notification to the UI and leaves the store as it is. -/
theorem transfer_fixed_point (env : KVTSyncEnv) (f1 f2 : Nat) (st st1 : UIBridge)
    (h1 : transfer_dsp_to_ui env f1 true st = some st1) (hf : 1 ≤ f2) :
    ∃ st2, transfer_dsp_to_ui env f2 true st1 = some st2 ∧
      st2.sKVT = st1.sKVT ∧ st2.kvt_written = st1.kvt_written := by
  obtain ⟨f, rfl⟩ : ∃ f, f2 = f + 1 := ⟨f2 - 1, by omega⟩
  unfold transfer_dsp_to_ui at h1
  by_cases hui : st.has_ui = false
  · rw [if_pos hui] at h1
    simp only [Option.some.injEq] at h1
    subst h1
    unfold transfer_dsp_to_ui
    rw [if_pos hui]
    exact ⟨st, rfl, rfl, rfl⟩
  · rw [if_neg hui, if_neg (by decide)] at h1
    simp only at h1
    cases hd : tx_drain env f1 st.sKVT with
    | none => simp [hd] at h1
    | some r =>
      obtain ⟨s, written, passes⟩ := r
      simp only [hd, Option.some.injEq] at h1
      have hq := tx_drain_quiet env f1 _ _ _ _ hd
      have hq1 : (tx_pass env st1.sKVT).2.1 = [] := by
        rw [← h1]
        simp only [KVTStorage.gc]
        split_ifs
        · rw [← tx_pass_same_tx env s _ (rx_pass_same_tx env s)]; exact hq
        · rw [← tx_pass_same_tx env s _ (commit_all_rx_same_tx s)]; exact hq
      have hrx : (if env.LSP_DEBUG then rx_pass env st1.sKVT
          else KVTStorage.commit_all_rx st1.sKVT) = st1.sKVT := by
        rw [← h1]
        simp only [KVTStorage.gc]
        split_ifs
        · exact rx_pass_idem env s
        · exact commit_all_rx_idem s
      have hui1 : st1.has_ui = st.has_ui := by rw [← h1]
      unfold transfer_dsp_to_ui
      rw [if_neg (by rw [hui1]; exact hui)]
      simp only [if_false, tx_drain_quiet_store env f st1.sKVT hq1]
      refine ⟨_, rfl, ?_, by simp⟩
      simp only [KVTStorage.gc]
      exact hrx

theorem transfer_fixed_point_witness :
    ∃ st2, transfer_dsp_to_ui demo_sync_env 1 true
        { demo_bridge with
          ui_port_syncs := 1
          sKVT := demo_bridge.sKVT.map (fun n => { n with tx_pending := false, rx_pending := false })
          kvt_calls := [.try_lock true, .enum_tx_pending, .enum_tx_pending, .commit_all_rx, .gc,
            .unlock]
          kvt_written := [([47, 120], .int32 5), ([47, 122], .int32 7)] } = some st2 ∧
      st2.sKVT = demo_bridge.sKVT.map (fun n => { n with tx_pending := false, rx_pending := false }) ∧
      st2.kvt_written = [([47, 120], .int32 5), ([47, 122], .int32 7)] :=
  transfer_fixed_point demo_sync_env 2 1 demo_bridge _ (by decide) (by decide)

/-! ## run -/


theorem fill_outputs_succ (n samples : Nat) (l : List (List ℚ)) :
    fill_outputs (n + 1) samples l =
      (fill_outputs n samples l).set n (fill_zero ((fill_outputs n samples l).getD n []) samples) := by
  unfold fill_outputs
  rw [List.range_succ, List.foldl_append]
  rfl

theorem fill_outputs_length (n samples : Nat) (l : List (List ℚ)) :
    (fill_outputs n samples l).length = l.length := by
  induction n with
  | zero => rfl
  | succ n ih => rw [fill_outputs_succ, List.length_set, ih]

theorem fill_outputs_getD (n samples : Nat) (l : List (List ℚ)) (i : Nat) (hi : i < l.length) :
    (fill_outputs n samples l).getD i [] =
      if i < n then fill_zero (l.getD i []) samples else l.getD i [] := by
  induction n with
  | zero => rfl
  | succ n ih =>
    rw [fill_outputs_succ]
    have hlen := fill_outputs_length n samples l
    by_cases h1 : i = n
    · subst h1
      rw [if_neg (lt_irrefl _)] at ih
      rw [if_pos (Nat.lt_succ_self _), ih, List.getD_eq_getElem?_getD,
        List.getElem?_set_self (by rw [hlen]; exact hi)]
      rfl
    · rw [List.getD_eq_getElem?_getD, List.getElem?_set_ne (Ne.symm h1),
        ← List.getD_eq_getElem?_getD, ih]
      by_cases h2 : i < n
      · rw [if_pos h2, if_pos (by omega)]
      · rw [if_neg h2, if_neg (by omega)]

/-- Claim C20: a call of `run` while the sample rate of the plugin is not positive leaves
the whole state as it was (the transport snapshot, the dirty flag, the last reported
latency, and the calls made: no port is bound, pre-processed or post-processed, and neither
`update_settings` nor `process` is called), keeps the number of buffers, stores `samples`
zeros in each of the first `vOutputs.size()` output buffers and leaves the others alone. -/
theorem run_without_sample_rate (env : RunEnv) (st : RunState) (inputs outputs : List (List ℚ))
    (samples : Nat) (h : st.sample_rate ≤ 0) :
    (run env st inputs outputs samples).1 = st ∧
    (run env st inputs outputs samples).2.length = outputs.length ∧
    ∀ i, i < outputs.length →
      (run env st inputs outputs samples).2.getD i [] =
        if i < st.vOutputs.length then
          List.replicate samples 0 ++ (outputs.getD i []).drop samples
        else outputs.getD i [] := by
  unfold run
  rw [if_pos h]
  exact ⟨rfl, fill_outputs_length _ _ _, fun i hi => fill_outputs_getD _ _ _ i hi⟩

theorem run_without_sample_rate_witness :
    (run demo_run_env demo_run_state [[1, 2, 3], [4, 5, 6]] [[7, 8, 9], [1, 1, 1]] 2).1
      = demo_run_state ∧
    (run demo_run_env demo_run_state [[1, 2, 3], [4, 5, 6]] [[7, 8, 9], [1, 1, 1]] 2).2.length
      = 2 ∧
    ∀ i, i < 2 →
      (run demo_run_env demo_run_state [[1, 2, 3], [4, 5, 6]] [[7, 8, 9], [1, 1, 1]] 2).2.getD i []
        = if i < 2 then
            List.replicate 2 0 ++ (([[7, 8, 9], [1, 1, 1]] : List (List ℚ)).getD i []).drop 2
          else ([[7, 8, 9], [1, 1, 1]] : List (List ℚ)).getD i [] :=
  run_without_sample_rate demo_run_env demo_run_state _ _ 2 (by decide)


theorem count_map_ne (x : run_call) (f : Nat → run_call) (h : ∀ i, f i ≠ x) (l : List Nat) :
    (l.map f).count x = 0 := by
  rw [List.count_eq_zero]
  intro hm
  obtain ⟨i, -, hi⟩ := List.mem_map.mp hm
  exact h i hi

/-- The state in which `process` is called, field by field. -/
theorem run_prepare_eq (env : RunEnv) (st : RunState) (samples : Nat) :
    run_prepare env st samples =
      { st with
        ui_active := st.has_ui
        sPosition :=
          match env.get_time with
          | none => st.sPosition
          | some info => new_position env st.sPosition info
        bUpdateSettings := false
        calls := st.calls ++
          ((if st.has_ui then (if st.ui_active then [] else [run_call.activate_ui])
            else (if st.ui_active then [run_call.deactivate_ui] else [])) ++
          (match env.get_time with
            | none => [run_call.get_time]
            | some info =>
              [run_call.get_time, run_call.set_position (new_position env st.sPosition info)]) ++
          (live_ports st.vInputs).map run_call.bind_input ++
          (live_ports st.vOutputs).map run_call.bind_output ++
          (live_ports st.vPorts).map (fun i => run_call.pre_process i samples) ++
          (if (st.bUpdateSettings || transport_changed env st ||
              (live_ports st.vPorts).any (fun i => env.pre_process i samples)) = true
            then [run_call.update_settings] else [])) } := by
  obtain ⟨sr, ua, hu, hm, pos, dirty, lat, idl, vi, vo, vp, calls⟩ := st
  unfold run_prepare sync_position transport_changed
  cases ha : (live_ports vp).any (fun i => env.pre_process i samples) <;>
  cases hgt : env.get_time with
  | none =>
    cases ua <;> cases hu <;> cases dirty <;> simp [ha]
  | some info =>
    cases hb : env.set_position (new_position env pos info) <;>
    cases ua <;> cases hu <;> cases dirty <;> simp [ha, hb]

/-- The state after an Active block, from the state in which `process` is called. -/
theorem run_active_eq (env : RunEnv) (st : RunState) (inputs outputs : List (List ℚ))
    (samples : Nat) (h : 0 < st.sample_rate) :
    (run env st inputs outputs samples).1 =
      { run_prepare env st samples with
        initialDelay :=
          if st.fLatency ≠ env.get_latency then to_integer env.get_latency else st.initialDelay
        fLatency := env.get_latency
        calls := (run_prepare env st samples).calls ++ run_call.process samples ::
          ((if st.fLatency ≠ env.get_latency ∧ st.has_master = true then [run_call.io_changed]
            else []) ++
          (live_ports st.vPorts).map (fun i => run_call.post_process i samples)) } := by
  unfold run
  rw [if_neg (not_le.mpr h)]
  have e1 : (run_prepare env st samples).fLatency = st.fLatency := by rw [run_prepare_eq]
  have e2 : (run_prepare env st samples).initialDelay = st.initialDelay := by rw [run_prepare_eq]
  have e3 : (run_prepare env st samples).has_master = st.has_master := by rw [run_prepare_eq]
  have e4 : (run_prepare env st samples).vPorts = st.vPorts := by rw [run_prepare_eq]
  simp only [e1, e2, e3, e4]
  by_cases hl : st.fLatency = env.get_latency
  · simp [hl, e1, e2, e3, e4]
  · cases hm : st.has_master <;> simp [hl, hm, e1, e2, e3, e4]

/-- Claim C21: in an Active block (the sample rate is positive) `update_settings` is called
exactly once when the dirty flag was set on entry, or the transport update reported a change,
or `pre_process` of some port reported a change, and not at all otherwise; the dirty flag is
clear in the state in which `process` is called and when `run` returns. -/
theorem run_settings_gate (env : RunEnv) (st : RunState) (inputs outputs : List (List ℚ))
    (samples : Nat) (h : 0 < st.sample_rate) :
    (run env st inputs outputs samples).1.calls =
        st.calls ++ block_calls env st inputs outputs samples ∧
      ((st.bUpdateSettings = true ∨ transport_changed env st = true ∨
          ∃ i ∈ live_ports st.vPorts, env.pre_process i samples = true) →
        (block_calls env st inputs outputs samples).count run_call.update_settings = 1) ∧
      (¬ (st.bUpdateSettings = true ∨ transport_changed env st = true ∨
          ∃ i ∈ live_ports st.vPorts, env.pre_process i samples = true) →
        (block_calls env st inputs outputs samples).count run_call.update_settings = 0) ∧
      (∃ tail, (run env st inputs outputs samples).1.calls =
        (run_prepare env st samples).calls ++ run_call.process samples :: tail) ∧
      (run_prepare env st samples).bUpdateSettings = false ∧
      (run env st inputs outputs samples).1.bUpdateSettings = false := by
  have c1 := count_map_ne run_call.update_settings run_call.bind_input (fun _ => by simp)
  have c2 := count_map_ne run_call.update_settings run_call.bind_output (fun _ => by simp)
  have c3 := count_map_ne run_call.update_settings (fun i => run_call.pre_process i samples)
    (fun _ => by simp)
  have c4 := count_map_ne run_call.update_settings (fun i => run_call.post_process i samples)
    (fun _ => by simp)
  have hdirty : (st.bUpdateSettings = true ∨ transport_changed env st = true ∨
      ∃ i ∈ live_ports st.vPorts, env.pre_process i samples = true) ↔
      (st.bUpdateSettings || transport_changed env st ||
        (live_ports st.vPorts).any (fun i => env.pre_process i samples)) = true := by
    simp [List.any_eq_true, or_assoc]
  have key : ∃ new, (run env st inputs outputs samples).1.calls = st.calls ++ new ∧
      new.count run_call.update_settings =
        if (st.bUpdateSettings || transport_changed env st ||
          (live_ports st.vPorts).any (fun i => env.pre_process i samples)) = true then 1 else 0 := by
    rw [run_active_eq env st inputs outputs samples h, run_prepare_eq]
    refine ⟨_, by simp only [List.append_assoc]; rfl, ?_⟩
    have p1 : (run_call.process samples == run_call.update_settings) = false := by
      rw [beq_eq_false_iff_ne]; simp
    have p2 : (run_call.io_changed == run_call.update_settings) = false := by decide
    have p3 : (run_call.activate_ui == run_call.update_settings) = false := by decide
    have p4 : (run_call.deactivate_ui == run_call.update_settings) = false := by decide
    have p5 : (run_call.get_time == run_call.update_settings) = false := by decide
    have p6 : ∀ x, (run_call.set_position x == run_call.update_settings) = false := by
      intro x; rw [beq_eq_false_iff_ne]; simp
    have q1 : ∀ (b : Prop) [Decidable b] (x y : List run_call),
        (if b then x else y).count run_call.update_settings =
          if b then x.count run_call.update_settings else y.count run_call.update_settings := by
      intro b _ x y; split_ifs <;> rfl
    cases env.get_time <;>
      simp only [List.count_append, List.count_cons, List.count_nil, c1, c2, c3, c4, p1, p2, p3,
        p4, p5, p6, q1, beq_self_eq_true, if_true, Bool.false_eq_true, if_false, ite_self,
        Nat.zero_add, Nat.add_zero]
  obtain ⟨new, hnew, hcount⟩ := key
  have hb : block_calls env st inputs outputs samples = new := by
    unfold block_calls
    rw [hnew, List.drop_left' rfl]
  refine ⟨by rw [hb, hnew], ?_, ?_,
    ⟨_, by rw [run_active_eq env st inputs outputs samples h]⟩,
    by rw [run_prepare_eq], by rw [run_active_eq env st inputs outputs samples h, run_prepare_eq]⟩
  · intro hd
    rw [hb, hcount, if_pos (hdirty.mp hd)]
  · intro hd
    rw [hb, hcount, if_neg (fun hh => hd (hdirty.mpr hh))]

theorem run_settings_gate_witness :
    (run demo_active_env demo_active_state [] [[7, 8, 9], [1, 1, 1]] 2).1.calls =
        demo_active_state.calls ++
          block_calls demo_active_env demo_active_state [] [[7, 8, 9], [1, 1, 1]] 2 ∧
      ((demo_active_state.bUpdateSettings = true ∨
          transport_changed demo_active_env demo_active_state = true ∨
          ∃ i ∈ live_ports demo_active_state.vPorts, demo_active_env.pre_process i 2 = true) →
        (block_calls demo_active_env demo_active_state [] [[7, 8, 9], [1, 1, 1]] 2).count
          run_call.update_settings = 1) ∧
      (¬ (demo_active_state.bUpdateSettings = true ∨
          transport_changed demo_active_env demo_active_state = true ∨
          ∃ i ∈ live_ports demo_active_state.vPorts, demo_active_env.pre_process i 2 = true) →
        (block_calls demo_active_env demo_active_state [] [[7, 8, 9], [1, 1, 1]] 2).count
          run_call.update_settings = 0) ∧
      (∃ tail, (run demo_active_env demo_active_state [] [[7, 8, 9], [1, 1, 1]] 2).1.calls =
        (run_prepare demo_active_env demo_active_state 2).calls ++ run_call.process 2 :: tail) ∧
      (run_prepare demo_active_env demo_active_state 2).bUpdateSettings = false ∧
      (run demo_active_env demo_active_state [] [[7, 8, 9], [1, 1, 1]] 2).1.bUpdateSettings
        = false :=
  run_settings_gate demo_active_env demo_active_state [] [[7, 8, 9], [1, 1, 1]] 2 (by decide)


theorem count_io_changed (env : RunEnv) (st : RunState) (inputs outputs : List (List ℚ))
    (samples : Nat) (h : 0 < st.sample_rate) :
    ∃ new, (run env st inputs outputs samples).1.calls = st.calls ++ new ∧
      new.count run_call.io_changed =
        if st.fLatency ≠ env.get_latency ∧ st.has_master = true then 1 else 0 := by
  have c1 := count_map_ne run_call.io_changed run_call.bind_input (fun _ => by simp)
  have c2 := count_map_ne run_call.io_changed run_call.bind_output (fun _ => by simp)
  have c3 := count_map_ne run_call.io_changed (fun i => run_call.pre_process i samples)
    (fun _ => by simp)
  have c4 := count_map_ne run_call.io_changed (fun i => run_call.post_process i samples)
    (fun _ => by simp)
  rw [run_active_eq env st inputs outputs samples h, run_prepare_eq]
  refine ⟨_, by simp only [List.append_assoc]; rfl, ?_⟩
  have p1 : (run_call.process samples == run_call.io_changed) = false := by
    rw [beq_eq_false_iff_ne]; simp
  have p2 : (run_call.update_settings == run_call.io_changed) = false := by decide
  have p3 : (run_call.activate_ui == run_call.io_changed) = false := by decide
  have p4 : (run_call.deactivate_ui == run_call.io_changed) = false := by decide
  have p5 : (run_call.get_time == run_call.io_changed) = false := by decide
  have p6 : ∀ x, (run_call.set_position x == run_call.io_changed) = false := by
    intro x; rw [beq_eq_false_iff_ne]; simp
  have q1 : ∀ (b : Prop) [Decidable b] (x y : List run_call),
      (if b then x else y).count run_call.io_changed =
        if b then x.count run_call.io_changed else y.count run_call.io_changed := by
    intro b _ x y; split_ifs <;> rfl
  cases env.get_time <;>
    simp only [List.count_append, List.count_cons, List.count_nil, c1, c2, c3, c4, p1, p2, p3,
      p4, p5, p6, q1, beq_self_eq_true, if_true, Bool.false_eq_true, if_false, ite_self,
      Nat.zero_add, Nat.add_zero]

/-- Claim C22: in an Active block the host is sent `audioMasterIOChanged` at most once, and
only if the latency the plugin reports differs from the last reported value; after the block
the last reported value is the latency of the plugin.  In a following Active block in which
the plugin reports the same latency no notification is sent, and the last reported value and
`initialDelay` stay as they are. -/
theorem run_latency_report (env env2 : RunEnv) (st : RunState)
    (inputs outputs inputs2 outputs2 : List (List ℚ)) (samples samples2 : Nat)
    (h : 0 < st.sample_rate) (hsame : env2.get_latency = env.get_latency) :
    ((block_calls env st inputs outputs samples).count run_call.io_changed ≤ 1 ∧
      (run_call.io_changed ∈ block_calls env st inputs outputs samples →
        st.fLatency ≠ env.get_latency)) ∧
    (run env st inputs outputs samples).1.fLatency = env.get_latency ∧
    run_call.io_changed ∉
      block_calls env2 (run env st inputs outputs samples).1 inputs2 outputs2 samples2 ∧
    (run env2 (run env st inputs outputs samples).1 inputs2 outputs2 samples2).1.fLatency =
      (run env st inputs outputs samples).1.fLatency ∧
    (run env2 (run env st inputs outputs samples).1 inputs2 outputs2 samples2).1.initialDelay =
      (run env st inputs outputs samples).1.initialDelay := by
  obtain ⟨new, hnew, hcount⟩ := count_io_changed env st inputs outputs samples h
  have hb : block_calls env st inputs outputs samples = new := by
    unfold block_calls
    rw [hnew, List.drop_left' rfl]
  have hlat : (run env st inputs outputs samples).1.fLatency = env.get_latency := by
    rw [run_active_eq env st inputs outputs samples h]
  have hsr : 0 < (run env st inputs outputs samples).1.sample_rate := by
    rw [run_active_eq env st inputs outputs samples h, run_prepare_eq]; exact h
  obtain ⟨new2, hnew2, hcount2⟩ :=
    count_io_changed env2 (run env st inputs outputs samples).1 inputs2 outputs2 samples2 hsr
  have hb2 : block_calls env2 (run env st inputs outputs samples).1 inputs2 outputs2 samples2
      = new2 := by
    unfold block_calls
    rw [hnew2, List.drop_left' rfl]
  refine ⟨⟨?_, ?_⟩, hlat, ?_, ?_, ?_⟩
  · rw [hb, hcount]; split_ifs <;> omega
  · intro hm
    rw [hb] at hm
    have hpos := List.count_pos_iff.mpr hm
    rw [hcount] at hpos
    split_ifs at hpos with hc
    · exact hc.1
    · omega
  · rw [hb2]
    intro hm
    have hpos := List.count_pos_iff.mpr hm
    rw [hcount2, if_neg (by rw [hlat, hsame]; simp)] at hpos
    omega
  · rw [run_active_eq env2 _ inputs2 outputs2 samples2 hsr, hlat, hsame]
  · rw [run_active_eq env2 _ inputs2 outputs2 samples2 hsr]
    simp only
    rw [if_neg (by rw [hlat, hsame]; simp)]

theorem run_latency_report_witness :
    ((block_calls demo_active_env demo_active_state [] [[7, 8, 9]] 2).count
        run_call.io_changed ≤ 1 ∧
      (run_call.io_changed ∈ block_calls demo_active_env demo_active_state [] [[7, 8, 9]] 2 →
        demo_active_state.fLatency ≠ demo_active_env.get_latency)) ∧
    (run demo_active_env demo_active_state [] [[7, 8, 9]] 2).1.fLatency
      = demo_active_env.get_latency ∧
    run_call.io_changed ∉
      block_calls demo_active_env (run demo_active_env demo_active_state [] [[7, 8, 9]] 2).1
        [] [[7, 8, 9]] 2 ∧
    (run demo_active_env (run demo_active_env demo_active_state [] [[7, 8, 9]] 2).1
        [] [[7, 8, 9]] 2).1.fLatency =
      (run demo_active_env demo_active_state [] [[7, 8, 9]] 2).1.fLatency ∧
    (run demo_active_env (run demo_active_env demo_active_state [] [[7, 8, 9]] 2).1
        [] [[7, 8, 9]] 2).1.initialDelay =
      (run demo_active_env demo_active_state [] [[7, 8, 9]] 2).1.initialDelay :=
  run_latency_report demo_active_env demo_active_env demo_active_state [] [[7, 8, 9]] []
    [[7, 8, 9]] 2 2 (by decide) rfl

/-- Claim C23: when the host answers the transport query with nothing, `sync_position`
only makes the query: the transport snapshot, the dirty flag and every other field of the
state are as before, and no position is reported to the plugin (the trace grows by the
query alone). -/
theorem sync_position_no_answer (env : RunEnv) (st : RunState) (h : env.get_time = none) :
    sync_position env st = { st with calls := st.calls ++ [run_call.get_time] } ∧
      (sync_position env st).sPosition = st.sPosition ∧
      (sync_position env st).bUpdateSettings = st.bUpdateSettings ∧
      ∀ npos, run_call.set_position npos ∉ (sync_position env st).calls.drop st.calls.length := by
  have e : sync_position env st = { st with calls := st.calls ++ [run_call.get_time] } := by
    unfold sync_position
    rw [h]
  refine ⟨e, by rw [e], by rw [e], fun npos => ?_⟩
  rw [e]
  simp only
  rw [List.drop_left' rfl]
  simp

theorem sync_position_no_answer_witness :
    sync_position demo_run_env demo_run_state =
        { demo_run_state with calls := demo_run_state.calls ++ [run_call.get_time] } ∧
      (sync_position demo_run_env demo_run_state).sPosition = demo_run_state.sPosition ∧
      (sync_position demo_run_env demo_run_state).bUpdateSettings
        = demo_run_state.bUpdateSettings ∧
      ∀ npos, run_call.set_position npos ∉
        (sync_position demo_run_env demo_run_state).calls.drop demo_run_state.calls.length :=
  sync_position_no_answer demo_run_env demo_run_state rfl

/-! ## Declarations without a factory case -/


theorem create_ports_append (maxbytes : Nat) (a b : List port_t) (st : PortRegistry) :
    create_ports maxbytes (a ++ b) st = create_ports maxbytes b (create_ports maxbytes a st) := by
  simp [create_ports, List.foldl_append]

/-- Claim C24: for a declaration whose role has no case in the factory, `create_port`
returns NULL and leaves the flat port list, the UI port list, the role buckets and the rest
of the registry as they are; `create_ports` treats the table as if the declaration were not
in it, so the declarations behind it get their ports. -/
theorem create_port_unknown_role (maxbytes fuel : Nat) (port : port_t)
    (pfx : Option (List Nat)) (st : PortRegistry) (pre post : List port_t)
    (h : port.role = .R_OTHER) :
    create_port maxbytes fuel port pfx st = (none, st) ∧
      create_ports maxbytes (pre ++ port :: post) st = create_ports maxbytes (pre ++ post) st := by
  have h1 : ∀ f p s, create_port maxbytes f port p s = (none, s) := by
    intro f p s
    cases f with
    | zero => rfl
    | succ n =>
      rw [create_port]
      simp only [h, finish_port, Option.toList_none, List.append_nil]
  refine ⟨h1 _ _ _, ?_⟩
  rw [create_ports_append, create_ports_append]
  have hstep : ∀ s, create_ports_step maxbytes s port = s := by
    intro s
    unfold create_ports_step
    simp only [h1]
  simp only [create_ports, List.foldl_cons, hstep]

theorem create_port_unknown_role_witness :
    create_port 64 1 demo_unknown none PortRegistry.empty = (none, PortRegistry.empty) ∧
      create_ports 64 ([demo_member 120 false false] ++ demo_unknown :: [demo_member 121 false false])
          PortRegistry.empty =
        create_ports 64 ([demo_member 120 false false] ++ [demo_member 121 false false])
          PortRegistry.empty :=
  create_port_unknown_role 64 1 demo_unknown none PortRegistry.empty
    [demo_member 120 false false] [demo_member 121 false false] rfl

/-! ## Framing of the records -/


theorem record_action_framed {V : Type} (ports : List (VSTPort V)) (pr : List Nat × List Nat)
    (h0 : ∀ b ∈ pr.1, b ≠ 0) (hslash : pr.1.head? ≠ some 47) :
    record_action ports (framed pr) =
      .apply (match find_by_id ports pr.1 with
        | none => ports
        | some i => port_deserialize_v2 ports i pr.2) := by
  unfold record_action framed
  simp only [strnlen_name pr.1 pr.2 h0]
  rw [if_neg (by simp)]
  have hrd : rd (pr.1 ++ 0 :: pr.2) 0 ≠ 47 := by
    cases h : pr.1 with
    | nil => simp [rd]
    | cons x xs => rw [h] at hslash; simpa [rd] using hslash
  rw [if_neg hrd, List.take_left' rfl]
  have hd : (pr.1 ++ 0 :: pr.2).drop (pr.1.length + 1) = pr.2 := by
    rw [show pr.1 ++ 0 :: pr.2 = (pr.1 ++ [0]) ++ pr.2 by simp]
    exact List.drop_left' (by simp)
  rw [hd]
  cases find_by_id ports pr.1 <;> rfl

theorem record_stream_framed_cons (pr : List Nat × List Nat) (rest : List (List Nat × List Nat)) :
    record_stream ((pr :: rest).map framed) =
      chunk_record (framed pr) ++ record_stream (rest.map framed) := rfl

/-- Claim C25: for pairs of an id and a payload whose ids hold no NUL and do not begin with
`/`, the port-record loop of `deserialize_v2`, run with enough fuel over the record stream
that frames the pairs (shorter than 4 GiB) and with `tail` at the end of the stream, leaves
the loop at the end of the stream after it has handed every payload, in order and exactly
as written, to the port its id resolves to. -/
theorem v2_port_loop_splits_records {V : Type} (pairs : List (List Nat × List Nat)) :
    ∀ (ports : List (VSTPort V)) (fuel : Nat),
      (∀ pr ∈ pairs, (∀ b ∈ pr.1, b ≠ 0) ∧ pr.1.head? ≠ some 47) →
      (record_stream (pairs.map framed)).length < 2 ^ 32 →
      (record_stream (pairs.map framed)).length < fuel →
      v2_port_loop fuel (record_stream (pairs.map framed))
          (record_stream (pairs.map framed)).length ports =
        (apply_pairs ports pairs, .left [] 0) := by
  induction pairs with
  | nil =>
    intro ports fuel _ _ hf
    obtain ⟨k, rfl⟩ : ∃ k, fuel = k + 1 := ⟨fuel - 1, by omega⟩
    simp [record_stream, v2_port_loop, to_size_t, apply_pairs]
  | cons pr rest ih =>
    intro ports fuel hid hlen hf
    obtain ⟨k, rfl⟩ : ∃ k, fuel = k + 1 := ⟨fuel - 1, by omega⟩
    rw [record_stream_framed_cons] at hlen hf ⊢
    simp only [List.length_append, chunk_record_length] at hlen hf
    obtain ⟨h0, hslash⟩ := hid pr (by simp)
    rw [v2_port_loop_record k (framed pr) _ _ ports (by omega)
      (by simp only [List.length_append, chunk_record_length]; push_cast; omega)
      (by simp only [List.length_append, chunk_record_length]; push_cast; omega),
      record_action_framed ports pr h0 hslash]
    simp only
    have hrem : (((chunk_record (framed pr) ++ record_stream (rest.map framed)).length : Nat) : Int)
        - (((framed pr).length + 4 : Nat) : Int)
        = ((record_stream (rest.map framed)).length : Int) := by
      simp only [List.length_append, chunk_record_length]; push_cast; omega
    rw [hrem, ih _ k (fun x hx => hid x (by simp [hx])) (by omega) (by omega)]
    rw [apply_pairs]
    cases find_by_id ports pr.1 <;> rfl

theorem v2_port_loop_splits_records_witness :
    v2_port_loop 100 (record_stream ([([97], [1, 2]), ([122], [9]), ([98], [3])].map framed))
        (record_stream ([([97], [1, 2]), ([122], [9]), ([98], [3])].map framed)).length
        (demo_wrapper [] [] []).vPorts =
      (apply_pairs (demo_wrapper [] [] []).vPorts [([97], [1, 2]), ([122], [9]), ([98], [3])],
        .left [] 0) :=
  v2_port_loop_splits_records [([97], [1, 2]), ([122], [9]), ([98], [3])]
    (demo_wrapper [] [] []).vPorts 100 (by decide) (by decide) (by decide)


theorem serialize_ports_framed {V : Type} (ports : List (VSTPort V)) :
    serialize_ports ports = record_stream ((port_pairs ports).map framed) := by
  rw [serialize_ports_eq]
  congr 1
  simp [spec_port_records, port_pairs, framed, Function.comp_def]

theorem spec_kvt_payload_eq (c : VSTConsts) (p : kvt_param_t)
    (h : (serialize_kvt_param c p).1 = .STATUS_OK) :
    (serialize_kvt_param c p).2 = spec_kvt_payload c p := by
  cases p with
  | any => simp [serialize_kvt_param] at h
  | blob ctype data size =>
    simp only [serialize_kvt_param, spec_kvt_payload] at h ⊢
    by_cases hb : size > 0 ∧ data = none
    · rw [if_pos hb] at h; simp at h
    · rw [if_neg hb]
  | _ => rfl

theorem serialize_kvt_param_valid (c : VSTConsts) (p : kvt_param_t) :
    (serialize_kvt_param c p).1 = .STATUS_OK ↔ valid_param p := by
  cases p with
  | any => simp [serialize_kvt_param, valid_param]
  | blob ctype data size =>
    simp only [serialize_kvt_param, valid_param]
    by_cases hb : size > 0 ∧ data = none
    · rw [if_pos hb]; simp [hb]
    · rw [if_neg hb]; simp [hb]
  | _ => simp [serialize_kvt_param, valid_param]

theorem record_stream_append (a b : List (List Nat)) :
    record_stream (a ++ b) = record_stream a ++ record_stream b := by
  induction a with
  | nil => rfl
  | cons x xs ih => simp [record_stream, ih]

theorem kvt_pairs_skip (c : VSTConsts) (n : KVTNode) (rest : List KVTNode)
    (h : n.res ≠ .STATUS_OK) : kvt_pairs c (n :: rest) = kvt_pairs c rest := by
  unfold kvt_pairs
  rw [List.filterMap_cons, if_neg h]

theorem kvt_pairs_param (c : VSTConsts) (n : KVTNode) (rest : List KVTNode) (name : List Nat)
    (h : n.res = .STATUS_OK) (hn : n.name = some name) :
    kvt_pairs c (n :: rest) = (name, spec_kvt_payload c n.param) :: kvt_pairs c rest := by
  unfold kvt_pairs
  rw [List.filterMap_cons, if_pos h, hn]
  rfl

/-- When the enumeration loop is left with `STATUS_OK`, its records are those of the nodes
in front of the first parameter without a name. -/
theorem serialize_kvt_records (c : VSTConsts) (nodes : List KVTNode) :
    ∀ (res : status_t), (serialize_kvt c nodes res).1 = .STATUS_OK →
      ∃ k, (serialize_kvt c nodes res).2 =
        record_stream (((kvt_pairs c nodes).take k).map framed) := by
  induction nodes with
  | nil => intro res _; exact ⟨0, rfl⟩
  | cons n rest ih =>
    intro res h
    rw [serialize_kvt] at h ⊢
    by_cases h1 : n.res = .STATUS_NOT_FOUND
    · rw [if_pos h1] at h ⊢
      obtain ⟨k, hk⟩ := ih _ h
      refine ⟨k, ?_⟩
      rw [hk, kvt_pairs_skip c n rest (by rw [h1]; decide)]
    · rw [if_neg h1] at h ⊢
      by_cases h2 : n.res ≠ .STATUS_OK
      · rw [if_pos h2] at h; exact absurd h h2
      · rw [if_neg h2] at h ⊢
        have hok : n.res = .STATUS_OK := not_not.mp h2
        cases hn : n.name with
        | none => exact ⟨0, by simp [record_stream]⟩
        | some name =>
          simp only [hn] at h ⊢
          by_cases h3 : (serialize_kvt_param c n.param).1 ≠ .STATUS_OK
          · rw [if_pos h3] at h; exact absurd h h3
          · rw [if_neg h3] at h ⊢
            obtain ⟨k, hk⟩ := ih _ h
            refine ⟨k + 1, ?_⟩
            simp only [hk]
            rw [kvt_pairs_param c n rest name hok hn, List.take_succ_cons, List.map_cons,
              record_stream, spec_kvt_payload_eq c n.param (not_not.mp h3)]
            simp [framed]

theorem record_stream_mem_length (r : List Nat) (recs : List (List Nat)) (h : r ∈ recs) :
    r.length + 4 ≤ (record_stream recs).length := by
  induction recs with
  | nil => simp at h
  | cons x xs ih =>
    rw [record_stream_cons_length]
    rcases List.mem_cons.mp h with rfl | hm
    · omega
    · have := ih hm; omega

theorem be32_chunk_record (content : List Nat) (h : content.length < 2 ^ 32) :
    be32 (chunk_record content) = content.length := by
  have := be32_put32 (content.length % 2 ^ 32) (Nat.mod_lt _ (by norm_num)) content
  rw [chunk_record, this, Nat.mod_eq_of_lt h]

/-- Claim C26: when `serialize_state` returns a bank of less than 4 GiB, its body is the
stream of the records of the port pairs followed by records of the KVT pairs (all of them
up to a parameter without a name), and in each record the 32-bit length prefix is the number
of bytes that follow it in the record: the length of the name, one for the NUL, and the
length of the payload, so that the payload length is the prefix minus the name and its NUL. -/
theorem serialize_state_length_prefix {V : Type} (c : VSTConsts) (w : VSTWrapper V) (size : Nat)
    (bank : fxBank) (h : serialize_state c w = some (size, bank)) (hsize : size < 2 ^ 32) :
    ∃ k, bank.body =
        record_stream ((port_pairs w.vPorts ++ (kvt_pairs c w.sKVT).take k).map framed) ∧
      ∀ pr ∈ port_pairs w.vPorts ++ (kvt_pairs c w.sKVT).take k,
        be32 (chunk_record (framed pr)) = (framed pr).length ∧
        be32 (chunk_record (framed pr)) = pr.1.length + 1 + pr.2.length ∧
        pr.2.length = be32 (chunk_record (framed pr)) - (pr.1.length + 1) := by
  unfold serialize_state at h
  simp only at h
  by_cases hk : (serialize_kvt c w.sKVT .STATUS_OK).1 ≠ .STATUS_OK
  · rw [if_pos hk] at h; simp at h
  · rw [if_neg hk] at h
    simp only [Option.some.injEq, Prod.mk.injEq] at h
    obtain ⟨hs, hb⟩ := h
    obtain ⟨k, hkv⟩ := serialize_kvt_records c w.sKVT .STATUS_OK (not_not.mp hk)
    have hbody0 : bank.body =
        serialize_ports w.vPorts ++ (serialize_kvt c w.sKVT .STATUS_OK).2 := by rw [← hb]
    have hbody : bank.body =
        record_stream ((port_pairs w.vPorts ++ (kvt_pairs c w.sKVT).take k).map framed) := by
      rw [hbody0, serialize_ports_framed, hkv, List.map_append, record_stream_append]
    refine ⟨k, hbody, fun pr hpr => ?_⟩
    have hlen : (framed pr).length + 4 ≤ bank.body.length := by
      rw [hbody]
      exact record_stream_mem_length _ _ (List.mem_map_of_mem framed hpr)
    have hbl : bank.body.length < 2 ^ 32 := by
      rw [hbody0]; omega
    have hbe := be32_chunk_record (framed pr) (by omega)
    have hfl : (framed pr).length = pr.1.length + 1 + pr.2.length := by
      simp [framed]; omega
    rw [hbe]
    exact ⟨rfl, hfl, by omega⟩

theorem serialize_state_length_prefix_witness :
    ∃ k, demo_saved_bank.body =
        record_stream ((port_pairs (demo_wrapper [1, 2] [3] demo_store).vPorts ++
          (kvt_pairs demo_consts (demo_wrapper [1, 2] [3] demo_store).sKVT).take k).map framed) ∧
      ∀ pr ∈ port_pairs (demo_wrapper [1, 2] [3] demo_store).vPorts ++
          (kvt_pairs demo_consts (demo_wrapper [1, 2] [3] demo_store).sKVT).take k,
        be32 (chunk_record (framed pr)) = (framed pr).length ∧
        be32 (chunk_record (framed pr)) = pr.1.length + 1 + pr.2.length ∧
        pr.2.length = be32 (chunk_record (framed pr)) - (pr.1.length + 1) :=
  serialize_state_length_prefix demo_consts (demo_wrapper [1, 2] [3] demo_store) 187
    demo_saved_bank (by decide) (by decide)

/-- The enumeration loop over nodes that are no parameters or valid parameters with a name:
every parameter gets its record, and the status when the loop is left is the one `get` gave
for the last node. -/
theorem serialize_kvt_valid (c : VSTConsts) (nodes : List KVTNode) :
    ∀ (res : status_t),
      (∀ n ∈ nodes, n.res = .STATUS_NOT_FOUND ∨
        (n.res = .STATUS_OK ∧ n.name ≠ none ∧ valid_param n.param)) →
      serialize_kvt c nodes res =
        ((nodes.getLast?.map (fun n => n.res)).getD res,
          record_stream ((kvt_pairs c nodes).map framed)) := by
  induction nodes with
  | nil => intro res _; rfl
  | cons n rest ih =>
    intro res hall
    have hlast : ((n :: rest).getLast?.map (fun n => n.res)).getD res =
        (rest.getLast?.map (fun n => n.res)).getD n.res := by
      cases rest with
      | nil => rfl
      | cons x xs =>
        rw [List.getLast?_cons_cons]
        cases hl : (x :: xs).getLast? with
        | none => simp at hl
        | some y => rfl
    rw [serialize_kvt, hlast]
    rcases hall n (by simp) with h1 | ⟨hok, hname, hvalid⟩
    · rw [if_pos h1, ih _ (fun x hx => hall x (by simp [hx])),
        kvt_pairs_skip c n rest (by rw [h1]; decide)]
    · obtain ⟨name, hn⟩ := Option.ne_none_iff_exists'.mp hname
      have hp := (serialize_kvt_param_valid c n.param).mpr hvalid
      rw [if_neg (by rw [hok]; decide), if_neg (by simp [hok])]
      simp only [hn]
      rw [if_neg (by simp [hp]), ih _ (fun x hx => hall x (by simp [hx])),
        kvt_pairs_param c n rest name hok hn, spec_kvt_payload_eq c n.param hp, hp, hok]
      simp [record_stream, framed]

/-- Claim C27, evaluated on the code: with the lock taken and the valid parameter `/x` in
the store, `serialize_state` writes nothing at all (it returns 0 and NULL) when the
enumeration ends with a node that is not a parameter, while for the same nodes with that
node in front it returns the port records followed by the one record of `/x`. -/
theorem serialize_state_trailing_node :
    serialize_state demo_consts (demo_wrapper [1, 2] [3] (demo_store ++ [demo_branch_node]))
        = none ∧
      (serialize_state demo_consts
          (demo_wrapper [1, 2] [3] (demo_branch_node :: demo_store))).map (fun r => r.2.body) =
        some (record_stream ((port_pairs (demo_wrapper [1, 2] [3] demo_store).vPorts ++
          kvt_pairs demo_consts demo_store).map framed)) ∧
      kvt_pairs demo_consts (demo_store ++ [demo_branch_node]) = [([47, 120], [105, 0, 0, 0, 5])] := by
  decide

/-- Claim C28: every bank `serialize_state` returns has program count 0 and current program
0, the chunk magic, the sub-format magic, the bank version 1, the fx version 2000 and the
unique id of the plugin; `deserialize_state` on the same plugin can reject it only at the
byte size check or the version check. -/
theorem serialize_state_header {V : Type} (c : VSTConsts) (w : VSTWrapper V) (size : Nat)
    (bank : fxBank) (h : serialize_state c w = some (size, bank)) :
    bank.numPrograms = 0 ∧ bank.currentProgram = 0 ∧ bank.chunkMagic = c.cMagic ∧
      bank.fxMagic = c.chunkBankMagic ∧ bank.version = 1 ∧ bank.fxVersion = 2000 ∧
      bank.fxID = w.uniqueID ∧
      (select_decoder c w bank = .rejected →
        to_size_t (to_int32 bank.byteSize) < c.VST_STATE_BUFFER_SIZE ∨
          to_int32 bank.version > w.version) := by
  unfold serialize_state at h
  simp only at h
  by_cases hk : (serialize_kvt c w.sKVT .STATUS_OK).1 ≠ .STATUS_OK
  · rw [if_pos hk] at h; simp at h
  · rw [if_neg hk] at h
    simp only [Option.some.injEq, Prod.mk.injEq] at h
    obtain ⟨-, hb⟩ := h
    have e1 : bank.chunkMagic = c.cMagic := by rw [← hb]
    have e2 : bank.fxMagic = c.chunkBankMagic := by rw [← hb]
    have e3 : bank.fxID = w.uniqueID := by rw [← hb]
    have e4 : bank.numPrograms = 0 := by rw [← hb]
    refine ⟨e4, by rw [← hb], e1, e2, by rw [← hb], by rw [← hb], e3, ?_⟩
    intro hrej
    unfold select_decoder at hrej
    simp only at hrej
    rw [if_neg (not_not.mpr e1)] at hrej
    by_cases hs : to_size_t (to_int32 bank.byteSize) < c.VST_STATE_BUFFER_SIZE
    · exact Or.inl hs
    · rw [if_neg hs, if_neg (not_not.mpr e2), if_neg (not_not.mpr e3)] at hrej
      by_cases hv : to_int32 bank.version > w.version
      · exact Or.inr hv
      · rw [if_neg hv, if_neg (not_not.mpr e4)] at hrej
        split_ifs at hrej

theorem serialize_state_header_witness :
    demo_saved_bank.numPrograms = 0 ∧ demo_saved_bank.currentProgram = 0 ∧
      demo_saved_bank.chunkMagic = demo_consts.cMagic ∧
      demo_saved_bank.fxMagic = demo_consts.chunkBankMagic ∧ demo_saved_bank.version = 1 ∧
      demo_saved_bank.fxVersion = 2000 ∧
      demo_saved_bank.fxID = (demo_wrapper [1, 2] [3] demo_store).uniqueID ∧
      (select_decoder demo_consts (demo_wrapper [1, 2] [3] demo_store) demo_saved_bank
          = .rejected →
        to_size_t (to_int32 demo_saved_bank.byteSize) < demo_consts.VST_STATE_BUFFER_SIZE ∨
          to_int32 demo_saved_bank.version > (demo_wrapper [1, 2] [3] demo_store).version) :=
  serialize_state_header demo_consts (demo_wrapper [1, 2] [3] demo_store) 187 demo_saved_bank
    (by decide)

/-! ## Registration of the ports -/


theorem create_members_perm
    (create : port_t → Option (List Nat) → PortRegistry → Option PortObject × PortRegistry)
    (extra : List PortObject)
    (hc : ∀ cm p s, s.plugin_ports.Perm (extra ++ s.vPorts) →
      ((create cm p s).2.plugin_ports ++ pending_port (create cm p s).1).Perm
        (extra ++ (create cm p s).2.vPorts))
    (buf : List Nat) (cms : List port_t) :
    ∀ (s : PortRegistry), s.plugin_ports.Perm (extra ++ s.vPorts) →
      (create_members create buf cms s).plugin_ports.Perm
        (extra ++ (create_members create buf cms s).vPorts) := by
  induction cms with
  | nil => intro s h; exact h
  | cons cm rest ih =>
    intro s h
    simp only [create_members, List.foldl_cons] at ih ⊢
    apply ih
    have hstep := hc cm (some buf) s h
    cases hr : (create cm (some buf) s).1 with
    | none =>
      rw [hr] at hstep
      simpa [pending_port] using hstep
    | some p =>
      rw [hr] at hstep
      simp only [pending_port] at hstep
      dsimp only
      by_cases hp : p.metadata.role ≠ .R_PORT_SET
      · rw [if_pos hp] at hstep ⊢
        exact hstep
      · rw [if_neg hp] at hstep ⊢
        simpa using hstep

theorem create_rows_perm
    (create : port_t → Option (List Nat) → PortRegistry → Option PortObject × PortRegistry)
    (extra : List PortObject)
    (hc : ∀ cm p s, s.plugin_ports.Perm (extra ++ s.vPorts) →
      ((create cm p s).2.plugin_ports ++ pending_port (create cm p s).1).Perm
        (extra ++ (create cm p s).2.vPorts))
    (maxbytes : Nat) (port : port_t) (pfx : Option (List Nat)) (st : PortRegistry)
    (h : st.plugin_ports.Perm (extra ++ st.vPorts)) :
    (create_rows create maxbytes port pfx st).plugin_ports.Perm
      (extra ++ (create_rows create maxbytes port pfx st).vPorts) := by
  unfold create_rows
  generalize List.range port.rows = rows
  induction rows generalizing st with
  | nil => exact h
  | cons row rest ih =>
    simp only [List.foldl_cons]
    apply ih
    cases generated_row maxbytes pfx port row with
    | none => exact h
    | some cms => exact create_members_perm create extra hc _ cms _ h

theorem create_port_perm (maxbytes fuel : Nat) :
    ∀ (port : port_t) (pfx : Option (List Nat)) (st : PortRegistry) (extra : List PortObject),
      st.plugin_ports.Perm (extra ++ st.vPorts) →
      ((create_port maxbytes fuel port pfx st).2.plugin_ports ++
          pending_port (create_port maxbytes fuel port pfx st).1).Perm
        (extra ++ (create_port maxbytes fuel port pfx st).2.vPorts) := by
  induction fuel with
  | zero =>
    intro port pfx st extra h
    simpa [create_port, pending_port] using h
  | succ n ih =>
    intro port pfx st extra h
    have leaf : ∀ (x : PortObject) (y : Option UIPortObject) (s : PortRegistry),
        x.metadata.role ≠ .R_PORT_SET → s.plugin_ports = st.plugin_ports →
        s.vPorts = st.vPorts →
        ((finish_port (some x) y s).2.plugin_ports ++ pending_port (finish_port (some x) y s).1).Perm
          (extra ++ (finish_port (some x) y s).2.vPorts) := by
      intro x y s hx h1 h2
      simp only [finish_port, pending_port, Option.toList_some, h1, h2]
      rw [if_pos hx, ← List.append_assoc]
      exact h.append_right [x]
    rw [create_port]
    cases hr : port.role
    case R_OTHER => simpa [finish_port, pending_port] using h
    case R_PORT_SET =>
      simp only
      have h1 : (st.plugin_ports ++ [(⟨.VSTPortGroup, port⟩ : PortObject)]).Perm
          (((⟨.VSTPortGroup, port⟩ : PortObject) :: extra) ++ st.vPorts) := by
        rw [List.cons_append]
        exact (List.perm_append_singleton _ _).trans (h.cons _)
      have h2 := create_rows_perm (fun cm p s => create_port maxbytes n cm p s)
        ((⟨.VSTPortGroup, port⟩ : PortObject) :: extra)
        (fun cm p s hs => ih cm p s _ hs) maxbytes port pfx
        { st with plugin_ports := st.plugin_ports ++ [⟨.VSTPortGroup, port⟩],
                  vUIPorts := st.vUIPorts ++ [⟨.VSTUIPortGroup, port⟩] } h1
      simp only [finish_port, pending_port, Option.toList_some, hr, ne_eq, not_true_eq_false,
        if_false, List.append_nil]
      refine h2.trans ?_
      rw [List.cons_append, ← List.append_assoc]
      exact (List.perm_append_singleton _ _).symm
    all_goals
      simp only
      first
        | exact leaf _ _ _ (by simp [hr]) rfl rfl
        | (split_ifs <;> exact leaf _ _ _ (by simp [hr]) rfl rfl)

theorem create_port_metadata (maxbytes fuel : Nat) (port : port_t) (pfx : Option (List Nat))
    (st : PortRegistry) (p : PortObject)
    (h : (create_port maxbytes fuel port pfx st).1 = some p) : p.metadata = port := by
  cases fuel with
  | zero => simp [create_port] at h
  | succ n =>
    rw [create_port] at h
    cases hr : port.role <;> simp only [hr, finish_port] at h
    all_goals first
      | (simp only [Option.some.injEq] at h; rw [← h])
      | (split_ifs at h <;> simp only [Option.some.injEq] at h <;> rw [← h])
      | exact absurd h (by simp)

theorem create_ports_step_perm (maxbytes : Nat) (st : PortRegistry) (meta : port_t)
    (h : st.plugin_ports.Perm st.vPorts) :
    (create_ports_step maxbytes st meta).plugin_ports.Perm
      (create_ports_step maxbytes st meta).vPorts := by
  have hp := create_port_perm maxbytes (meta.depth + 1) meta none st [] (by simpa using h)
  have hm := create_port_metadata maxbytes (meta.depth + 1) meta none st
  unfold create_ports_step
  simp only
  cases hr : (create_port maxbytes (meta.depth + 1) meta none st).1 with
  | none =>
    rw [hr] at hp
    simpa [pending_port] using hp
  | some vp =>
    have hmeta := hm vp hr
    rw [hr] at hp
    simp only [pending_port, hmeta, List.nil_append] at hp
    have hother : meta.role ≠ .R_OTHER := by
      intro hrole
      have : (create_port maxbytes (meta.depth + 1) meta none st).1 = none := by
        rw [create_port, hrole]; rfl
      rw [this] at hr
      exact absurd hr (by simp)
    cases hrole : meta.role <;>
      simp only [hrole, ne_eq, reduceCtorEq, not_false_eq_true, not_true_eq_false, if_true,
        if_false, List.append_nil] at hp hother ⊢
    all_goals first
      | exact hp
      | (split_ifs <;> exact hp)

theorem create_ports_perm (maxbytes : Nat) (meta : List port_t) :
    ∀ (st : PortRegistry), st.plugin_ports.Perm st.vPorts →
      (create_ports maxbytes meta st).plugin_ports.Perm (create_ports maxbytes meta st).vPorts := by
  induction meta with
  | nil => intro st h; exact h
  | cons m rest ih =>
    intro st h
    simp only [create_ports, List.foldl_cons] at ih ⊢
    exact ih _ (create_ports_step_perm maxbytes st m h)

theorem create_members_flat
    (create : port_t → Option (List Nat) → PortRegistry → Option PortObject × PortRegistry)
    (F : port_t → Option (List Nat) → List port_t)
    (hc : ∀ cm p s, (create cm p s).2.vPorts.map (fun q => q.metadata) =
      s.vPorts.map (fun q => q.metadata) ++ F cm p)
    (buf : List Nat) (cms : List port_t) :
    ∀ (s : PortRegistry),
      (create_members create buf cms s).vPorts.map (fun q => q.metadata) =
        s.vPorts.map (fun q => q.metadata) ++ cms.flatMap (fun cm => F cm (some buf)) := by
  induction cms with
  | nil => intro s; simp [create_members]
  | cons cm rest ih =>
    intro s
    simp only [create_members, List.foldl_cons] at ih ⊢
    rw [ih, List.flatMap_cons, ← List.append_assoc]
    congr 1
    have hstep := hc cm (some buf) s
    cases hr : (create cm (some buf) s).1 with
    | none => exact hstep
    | some p =>
      dsimp only
      split_ifs
      · exact hstep
      · exact hstep

theorem create_rows_flat
    (create : port_t → Option (List Nat) → PortRegistry → Option PortObject × PortRegistry)
    (F : port_t → Option (List Nat) → List port_t)
    (hc : ∀ cm p s, (create cm p s).2.vPorts.map (fun q => q.metadata) =
      s.vPorts.map (fun q => q.metadata) ++ F cm p)
    (maxbytes : Nat) (port : port_t) (pfx : Option (List Nat)) (st : PortRegistry) :
    (create_rows create maxbytes port pfx st).vPorts.map (fun q => q.metadata) =
      st.vPorts.map (fun q => q.metadata) ++
        (List.range port.rows).flatMap (fun row =>
          ((generated_row maxbytes pfx port row).getD []).flatMap
            (fun cm => F cm (some (row_pfx maxbytes pfx row)))) := by
  unfold create_rows
  generalize List.range port.rows = rows
  induction rows generalizing st with
  | nil => simp
  | cons row rest ih =>
    simp only [List.foldl_cons]
    rw [ih, List.flatMap_cons, ← List.append_assoc]
    congr 1
    cases generated_row maxbytes pfx port row with
    | none => simp
    | some cms =>
      simp only [Option.getD_some]
      rw [create_members_flat create F hc]

theorem create_port_flat (maxbytes fuel : Nat) :
    ∀ (port : port_t) (pfx : Option (List Nat)) (st : PortRegistry),
      (create_port maxbytes fuel port pfx st).2.vPorts.map (fun q => q.metadata) =
        st.vPorts.map (fun q => q.metadata) ++ flat_decls maxbytes fuel port pfx := by
  induction fuel with
  | zero => intro port pfx st; simp [create_port, flat_decls]
  | succ n ih =>
    intro port pfx st
    rw [create_port, flat_decls]
    cases hr : port.role
    case R_PORT_SET =>
      simp only [finish_port, Option.toList_some, List.map_append, List.map_cons, List.map_nil,
        reduceCtorEq, if_false, if_true]
      rw [create_rows_flat (fun cm p s => create_port maxbytes n cm p s)
        (fun cm p => flat_decls maxbytes n cm p) (fun cm p s => ih cm p s)]
      simp
    all_goals
      simp only [reduceCtorEq, if_false, if_true]
      first
        | (simp [finish_port]; done)
        | (split_ifs <;> simp [finish_port])

theorem create_ports_flat (maxbytes : Nat) (meta : List port_t) :
    ∀ (st : PortRegistry),
      (create_ports maxbytes meta st).vPorts.map (fun q => q.metadata) =
        st.vPorts.map (fun q => q.metadata) ++
          meta.flatMap (fun m => flat_decls maxbytes (m.depth + 1) m none) := by
  induction meta with
  | nil => intro st; simp [create_ports]
  | cons m rest ih =>
    intro st
    simp only [create_ports, List.foldl_cons] at ih ⊢
    rw [ih, List.flatMap_cons, ← List.append_assoc]
    congr 1
    have h := create_port_flat maxbytes (m.depth + 1) m none st
    unfold create_ports_step
    simp only
    cases (create_port maxbytes (m.depth + 1) m none st).1 with
    | none => exact h
    | some vp =>
      dsimp only
      cases m.role <;> dsimp only <;> first | exact h | (split_ifs <;> exact h)

/-- Claim C29: after `create_ports` on a fresh wrapper the flat port list holds, in order,
one port for each declaration the spec lists (`flat_decls`: top-level ports, the ports
generated from the members of a group at any depth, and each group), and the ports
registered with the plugin are the ports of the flat list, each as often as it is there:
no port is left out and none is registered twice. -/
theorem create_ports_registers_once (maxbytes : Nat) (meta : List port_t) :
    (create_ports maxbytes meta PortRegistry.empty).vPorts.map (fun q => q.metadata) =
        meta.flatMap (fun m => flat_decls maxbytes (m.depth + 1) m none) ∧
      (create_ports maxbytes meta PortRegistry.empty).plugin_ports.Perm
        (create_ports maxbytes meta PortRegistry.empty).vPorts := by
  refine ⟨?_, create_ports_perm maxbytes meta _ (List.Perm.refl _)⟩
  rw [create_ports_flat]
  rfl


theorem depth_pos (p : port_t) : 1 ≤ p.depth := by
  cases p with
  | mk id role out growing lowering min max start rows members =>
    cases members <;> simp [port_t.depth]

theorem depth_set_id (p : port_t) (x : List Nat) : (p.set_id x).depth = p.depth := by
  cases p with
  | mk id role out growing lowering min max start rows members =>
    cases members <;> simp [port_t.set_id, port_t.depth]

theorem depth_set_start (p : port_t) (x : ℚ) : (p.set_start x).depth = p.depth := by
  cases p with
  | mk id role out growing lowering min max start rows members =>
    cases members <;> simp [port_t.set_start, port_t.depth]

theorem depth_le_depths (ms : List port_t) (m : port_t) (h : m ∈ ms) :
    m.depth ≤ port_t.depths ms := by
  induction ms with
  | nil => simp at h
  | cons x xs ih =>
    rw [port_t.depths]
    rcases List.mem_cons.mp h with rfl | hm
    · exact Nat.le_max_left _ _
    · exact le_trans (ih hm) (Nat.le_max_right _ _)

theorem depth_members (p : port_t) (ms : List port_t) (h : p.members = some ms) :
    p.depth = port_t.depths ms + 1 := by
  cases p with
  | mk id role out growing lowering min max start rows members =>
    simp only [port_t.members] at h
    subst h
    simp [port_t.depth]

theorem generated_row_depth (maxbytes : Nat) (pfx : Option (List Nat)) (port : port_t)
    (row : Nat) (cm : port_t) (h : cm ∈ (generated_row maxbytes pfx port row).getD []) :
    cm.depth + 1 ≤ port.depth := by
  cases hm : port.members with
  | none => simp [generated_row, clone_port_metadata, hm] at h
  | some ms =>
    rw [generated_row_some maxbytes pfx port ms hm row] at h
    simp only [Option.getD_some, List.mem_map] at h
    obtain ⟨m, hmem, rfl⟩ := h
    rw [depth_set_start, depth_set_id, depth_members port ms hm]
    exact Nat.succ_le_succ (depth_le_depths ms m hmem)

theorem create_members_congr
    (c1 c2 : port_t → Option (List Nat) → PortRegistry → Option PortObject × PortRegistry)
    (buf : List Nat) (cms : List port_t)
    (h : ∀ cm ∈ cms, ∀ p s, c1 cm p s = c2 cm p s) :
    ∀ (s : PortRegistry), create_members c1 buf cms s = create_members c2 buf cms s := by
  induction cms with
  | nil => intro s; rfl
  | cons cm rest ih =>
    intro s
    simp only [create_members, List.foldl_cons] at ih ⊢
    rw [h cm (by simp), ih (fun x hx => h x (by simp [hx]))]

theorem create_rows_congr
    (c1 c2 : port_t → Option (List Nat) → PortRegistry → Option PortObject × PortRegistry)
    (maxbytes : Nat) (port : port_t) (pfx : Option (List Nat))
    (h : ∀ row, ∀ cm ∈ (generated_row maxbytes pfx port row).getD [], ∀ p s,
      c1 cm p s = c2 cm p s) (st : PortRegistry) :
    create_rows c1 maxbytes port pfx st = create_rows c2 maxbytes port pfx st := by
  unfold create_rows
  generalize List.range port.rows = rows
  induction rows generalizing st with
  | nil => rfl
  | cons row rest ih =>
    simp only [List.foldl_cons]
    have hrow := h row
    cases hg : generated_row maxbytes pfx port row with
    | none => exact ih _
    | some cms =>
      rw [hg] at hrow
      simp only [Option.getD_some] at hrow ⊢
      rw [create_members_congr c1 c2 _ cms hrow]
      exact ih _

/-- Fuel beyond the nesting depth of the declaration makes no difference to `create_port`;
`create_ports` gives one unit more than the depth. -/
theorem create_port_fuel (maxbytes f1 : Nat) :
    ∀ (f2 : Nat) (port : port_t) (pfx : Option (List Nat)) (st : PortRegistry),
      port.depth ≤ f1 → port.depth ≤ f2 →
      create_port maxbytes f1 port pfx st = create_port maxbytes f2 port pfx st := by
  induction f1 with
  | zero => intro f2 port pfx st h; have := depth_pos port; omega
  | succ n ih =>
    intro f2 port pfx st h1 h2
    have hp := depth_pos port
    obtain ⟨m, rfl⟩ : ∃ m, f2 = m + 1 := ⟨f2 - 1, by omega⟩
    rw [create_port, create_port]
    cases hr : port.role <;> try rfl
    simp only
    rw [create_rows_congr (fun cm p s => create_port maxbytes n cm p s)
      (fun cm p s => create_port maxbytes m cm p s) maxbytes port pfx]
    intro row cm hcm p s
    have hd := generated_row_depth maxbytes pfx port row cm hcm
    exact ih m cm p s (by omega) (by omega)

theorem flat_decls_fuel (maxbytes f1 : Nat) :
    ∀ (f2 : Nat) (port : port_t) (pfx : Option (List Nat)),
      port.depth ≤ f1 → port.depth ≤ f2 →
      flat_decls maxbytes f1 port pfx = flat_decls maxbytes f2 port pfx := by
  induction f1 with
  | zero => intro f2 port pfx h; have := depth_pos port; omega
  | succ n ih =>
    intro f2 port pfx h1 h2
    have hp := depth_pos port
    obtain ⟨m, rfl⟩ : ∃ m, f2 = m + 1 := ⟨f2 - 1, by omega⟩
    rw [flat_decls, flat_decls]
    by_cases ho : port.role = .R_OTHER
    · rw [if_pos ho, if_pos ho]
    · rw [if_neg ho, if_neg ho]
      by_cases hg : port.role = .R_PORT_SET
      · rw [if_pos hg, if_pos hg]
        congr 1
        apply List.flatMap_congr
        intro row _
        apply List.flatMap_congr
        intro cm hcm
        have hd := generated_row_depth maxbytes pfx port row cm hcm
        exact ih m cm _ (by omega) (by omega)
      · rw [if_neg hg, if_neg hg]

/-! ## Ids of the flat port list -/


theorem digitChar_toNat (k : Nat) (h : k < 10) : (Nat.digitChar k).toNat = k + 48 := by
  interval_cases k <;> rfl

theorem toDigitsCore_value (fuel : Nat) :
    ∀ (n : Nat) (ds : List Char), n < fuel →
      digits_value 0 ((Nat.toDigitsCore 10 fuel n ds).map Char.toNat) =
        digits_value n (ds.map Char.toNat) := by
  induction fuel with
  | zero => intro n ds h; omega
  | succ f ih =>
    intro n ds h
    rw [Nat.toDigitsCore]
    have hd := digitChar_toNat (n % 10) (Nat.mod_lt _ (by norm_num))
    by_cases h0 : n / 10 = 0
    · simp only [h0, if_true, List.map_cons, digits_value, List.foldl_cons, hd]
      congr 1
      omega
    · simp only [h0, if_false]
      rw [ih (n / 10) _ (by omega)]
      simp only [List.map_cons, digits_value, List.foldl_cons, hd]
      congr 1
      omega

theorem row_digits_value (row : Nat) :
    digits_value 0 ((Nat.toDigits 10 row).map Char.toNat) = row := by
  rw [Nat.toDigits, toDigitsCore_value (row + 1) row [] (by omega)]
  rfl

theorem row_digits_inj (r1 r2 : Nat)
    (h : (Nat.toDigits 10 r1).map Char.toNat = (Nat.toDigits 10 r2).map Char.toNat) : r1 = r2 := by
  rw [← row_digits_value r1, ← row_digits_value r2, h]

theorem toDigitsCore_range (fuel : Nat) :
    ∀ (n : Nat) (ds : List Char), (∀ c ∈ ds, c.toNat ≠ 95) →
      ∀ c ∈ Nat.toDigitsCore 10 fuel n ds, c.toNat ≠ 95 := by
  induction fuel with
  | zero => intro n ds h; exact h
  | succ f ih =>
    intro n ds h
    rw [Nat.toDigitsCore]
    have hd := digitChar_toNat (n % 10) (Nat.mod_lt _ (by norm_num))
    have hm := Nat.mod_lt n (show 0 < 10 by norm_num)
    have hds : ∀ c ∈ Nat.digitChar (n % 10) :: ds, c.toNat ≠ 95 := by
      intro c hc
      rcases List.mem_cons.mp hc with rfl | hc'
      · rw [hd]; omega
      · exact h c hc'
    by_cases h0 : n / 10 = 0
    · simp only [h0, if_true]; exact hds
    · simp only [h0, if_false]; exact ih _ _ hds

theorem row_digits_no_underscore (row : Nat) :
    ∀ x ∈ (Nat.toDigits 10 row).map Char.toNat, x ≠ 95 := by
  intro x hx
  obtain ⟨c, hc, rfl⟩ := List.mem_map.mp hx
  exact toDigitsCore_range _ _ [] (by simp) c hc

theorem digits_width_ge (rows row : Nat) (h : row < rows) :
    (Nat.toDigits 10 row).length ≤ digits_width rows := by
  unfold digits_width
  have hmem : row ∈ List.range rows := List.mem_range.mpr h
  generalize List.range rows = l at hmem
  induction l with
  | nil => simp at hmem
  | cons x xs ih =>
    simp only [List.map_cons, List.foldr_cons]
    rcases List.mem_cons.mp hmem with rfl | hm
    · exact Nat.le_max_left _ _
    · exact le_trans (ih hm) (Nat.le_max_right _ _)


theorem sfx_like_nil : sfx_like [] := by
  intro x hx; simp at hx

theorem sfx_like_cons (t : List Nat) : sfx_like (95 :: t) := by
  intro x hx; simp at hx; exact hx.symm

theorem sfx_like_append (s t : List Nat) (hs : sfx_like s) (ht : sfx_like t) :
    sfx_like (s ++ t) := by
  cases s with
  | nil => exact ht
  | cons x xs => intro y hy; exact hs y (by simpa using hy)

/-- Two ids followed by postfixes are equal only if the ids are equal and the postfixes
are, when neither id is the other one followed by `_` and further bytes. -/
theorem id_postfix_split (a b s t : List Nat) (h : a ++ s = b ++ t)
    (hs : sfx_like s) (ht : sfx_like t)
    (hab : ∀ u, b ≠ a ++ 95 :: u) (hba : ∀ u, a ≠ b ++ 95 :: u) : a = b ∧ s = t := by
  rcases List.append_eq_append_iff.mp h with ⟨u, hb, hs'⟩ | ⟨u, ha, ht'⟩
  · cases u with
    | nil => simp at hb hs'; exact ⟨hb.symm, hs'⟩
    | cons x xs =>
      have hx : x = 95 := hs x (by rw [hs']; simp)
      subst hx
      exact absurd hb (hab xs)
  · cases u with
    | nil => simp at ha ht'; exact ⟨ha, ht'.symm⟩
    | cons x xs =>
      have hx : x = 95 := ht x (by rw [ht']; simp)
      subst hx
      exact absurd ha (hba xs)

theorem row_digits_split (r1 r2 : Nat) (t1 t2 : List Nat)
    (h : (Nat.toDigits 10 r1).map Char.toNat ++ t1 = (Nat.toDigits 10 r2).map Char.toNat ++ t2)
    (h1 : sfx_like t1) (h2 : sfx_like t2) : r1 = r2 := by
  rcases List.append_eq_append_iff.mp h with ⟨u, hb, hs'⟩ | ⟨u, ha, ht'⟩
  · cases u with
    | nil => simp at hb; exact row_digits_inj r1 r2 hb.symm
    | cons x xs =>
      have hx : x = 95 := h1 x (by rw [hs']; simp)
      exact absurd hx (row_digits_no_underscore r2 x (by rw [hb]; simp))
  · cases u with
    | nil => simp at ha; exact row_digits_inj r1 r2 ha
    | cons x xs =>
      have hx : x = 95 := h2 x (by rw [ht']; simp)
      exact absurd hx (row_digits_no_underscore r1 x (by rw [ha]; simp))

theorem decl_ids_eq (m : port_t) :
    m.decl_ids = m.id :: port_t.decl_ids_list (m.members.getD []) := by
  cases m with
  | mk id role out growing lowering min max start rows members =>
    cases members <;> simp [port_t.decl_ids, port_t.id, port_t.members, port_t.decl_ids_list]

theorem decl_ids_sublist (ms : List port_t) (m : port_t) (h : m ∈ ms) :
    m.decl_ids.Sublist (port_t.decl_ids_list ms) := by
  induction ms with
  | nil => simp at h
  | cons x xs ih =>
    rw [port_t.decl_ids_list]
    rcases List.mem_cons.mp h with rfl | hm
    · exact List.sublist_append_left _ _
    · exact (ih hm).trans (List.sublist_append_right _ _)

theorem pfx_need_le (ms : List port_t) (m : port_t) (h : m ∈ ms) :
    m.pfx_need ≤ port_t.pfx_needs ms := by
  induction ms with
  | nil => simp at h
  | cons x xs ih =>
    rw [port_t.pfx_needs]
    rcases List.mem_cons.mp h with rfl | hm
    · exact Nat.le_max_left _ _
    · exact le_trans (ih hm) (Nat.le_max_right _ _)

theorem pfx_need_members (p : port_t) (ms : List port_t) (h : p.members = some ms) :
    p.pfx_need = 1 + digits_width p.rows + port_t.pfx_needs ms := by
  cases p with
  | mk id role out growing lowering min max start rows members =>
    simp only [port_t.members] at h
    subst h
    simp [port_t.pfx_need, port_t.rows]

theorem no_underscore_extension_mono (a b : List (List Nat)) (h : a ⊆ b)
    (hb : no_underscore_extension b) : no_underscore_extension a :=
  fun x hx y hy t => hb x (h hx) y (h hy) t

/-- The clone of the member `m` that the row with the postfix `buf` creates. -/
theorem clone_fields (m : port_t) (buf : List Nat) (x : ℚ) :
    ((m.set_id (m.id ++ buf)).set_start x).id = m.id ++ buf ∧
      ((m.set_id (m.id ++ buf)).set_start x).members = m.members ∧
      ((m.set_id (m.id ++ buf)).set_start x).pfx_need = m.pfx_need := by
  cases m with
  | mk id role out growing lowering min max start rows members =>
    cases members <;>
      simp [port_t.set_id, port_t.set_start, port_t.id, port_t.members, port_t.pfx_need]


/-- The ids of what a list of declarations gives are pairwise distinct when this holds for
each declaration and every id is a declared id of its declaration followed by a postfix. -/
theorem members_ids_nodup (F : port_t → List port_t) (P : List Nat) (hP : sfx_like P)
    (L : List port_t) :
    (port_t.decl_ids_list L).Nodup → no_underscore_extension (port_t.decl_ids_list L) →
    (∀ m ∈ L, ((F m).map (fun q => q.id)).Nodup) →
    (∀ m ∈ L, ∀ q ∈ F m, ∃ d ∈ m.decl_ids, ∃ t, sfx_like t ∧ q.id = d ++ P ++ t) →
    ((L.flatMap F).map (fun q => q.id)).Nodup := by
  induction L with
  | nil => intro _ _ _ _; simp
  | cons m rest ih =>
    intro hnd hne hF hform
    rw [port_t.decl_ids_list] at hnd hne
    obtain ⟨hnd1, hnd2, hdis⟩ := List.nodup_append.mp hnd
    rw [List.flatMap_cons, List.map_append, List.nodup_append]
    refine ⟨hF m (by simp), ?_, ?_⟩
    · exact ih hnd2
        (no_underscore_extension_mono _ _ (List.subset_append_right _ _) hne)
        (fun x hx => hF x (by simp [hx])) (fun x hx => hform x (by simp [hx]))
    · intro x hx1 hx2
      obtain ⟨q1, hq1, rfl⟩ := List.mem_map.mp hx1
      obtain ⟨q2, hq2, he⟩ := List.mem_map.mp hx2
      obtain ⟨m2, hm2, hq2'⟩ := List.mem_flatMap.mp hq2
      obtain ⟨d1, hd1, t1, ht1, e1⟩ := hform m (by simp) q1 hq1
      obtain ⟨d2, hd2, t2, ht2, e2⟩ := hform m2 (by simp [hm2]) q2 hq2'
      have hd2' : d2 ∈ port_t.decl_ids_list rest := (decl_ids_sublist rest m2 hm2).subset hd2
      have heq : d1 ++ (P ++ t1) = d2 ++ (P ++ t2) := by
        rw [← List.append_assoc, ← List.append_assoc, ← e1, ← e2]; exact he.symm
      have hsplit := id_postfix_split d1 d2 _ _ heq (sfx_like_append _ _ hP ht1)
        (sfx_like_append _ _ hP ht2)
        (hne d1 (by simp [hd1]) d2 (by simp [hd2']))
        (hne d2 (by simp [hd2']) d1 (by simp [hd1]))
      exact hdis hd1 (hsplit.1 ▸ hd2')

/-- The ids of what the rows of a group give are pairwise distinct when this holds for each
row and every id of row `r` is a declared id followed by the postfix of the group, `_`, the
digits of `r` and a further postfix. -/
theorem rows_ids_nodup (G : Nat → List port_t) (P : List Nat) (hP : sfx_like P)
    (D : List (List Nat)) (hne : no_underscore_extension D) (rows : Nat) :
    (∀ r, r < rows → ((G r).map (fun q => q.id)).Nodup) →
    (∀ r, r < rows → ∀ q ∈ G r, ∃ d ∈ D, ∃ t, sfx_like t ∧
      q.id = d ++ (P ++ 95 :: (Nat.toDigits 10 r).map Char.toNat) ++ t) →
    (((List.range rows).flatMap G).map (fun q => q.id)).Nodup := by
  induction rows with
  | zero => intro _ _; simp
  | succ n ih =>
    intro hG hform
    rw [List.range_succ, List.flatMap_append, List.map_append, List.nodup_append]
    refine ⟨ih (fun r hr => hG r (by omega)) (fun r hr => hform r (by omega)), ?_, ?_⟩
    · simpa using hG n (by omega)
    · intro x hx1 hx2
      obtain ⟨q1, hq1, rfl⟩ := List.mem_map.mp hx1
      obtain ⟨q2, hq2, he⟩ := List.mem_map.mp hx2
      obtain ⟨r1, hr1, hq1'⟩ := List.mem_flatMap.mp hq1
      have hr1' : r1 < n := List.mem_range.mp hr1
      have hq2' : q2 ∈ G n := by simpa using hq2
      obtain ⟨d1, hd1, t1, ht1, e1⟩ := hform r1 (by omega) q1 hq1'
      obtain ⟨d2, hd2, t2, ht2, e2⟩ := hform n (by omega) q2 hq2'
      have heq : d1 ++ (P ++ 95 :: ((Nat.toDigits 10 r1).map Char.toNat ++ t1)) =
          d2 ++ (P ++ 95 :: ((Nat.toDigits 10 n).map Char.toNat ++ t2)) := by
        have := he.symm
        rw [e1, e2] at this
        simpa [List.append_assoc] using this
      have hsplit := id_postfix_split d1 d2 _ _ heq
        (sfx_like_append _ _ hP (sfx_like_cons _)) (sfx_like_append _ _ hP (sfx_like_cons _))
        (hne d1 hd1 d2 hd2) (hne d2 hd2 d1 hd1)
      have h2 := List.append_cancel_left hsplit.2
      simp only [List.cons.injEq, true_and] at h2
      have := row_digits_split r1 n t1 t2 h2 ht1 ht2
      omega

theorem row_pfx_exact (maxbytes : Nat) (pfx : Option (List Nat)) (row : Nat)
    (h : (pfx.getD []).length + 1 + (Nat.toDigits 10 row).length + 2 ≤ maxbytes) :
    row_pfx maxbytes pfx row = pfx.getD [] ++ 95 :: (Nat.toDigits 10 row).map Char.toNat := by
  unfold row_pfx
  apply List.take_of_length_le
  simp only [List.length_append, List.length_cons, List.length_map]
  omega


/-- What a row of a group gives, member by member. -/
theorem row_block_eq (maxbytes n : Nat) (port : port_t) (pfx : Option (List Nat))
    (ms : List port_t) (hm : port.members = some ms) (row : Nat) :
    ((generated_row maxbytes pfx port row).getD []).flatMap
        (fun cm => flat_decls maxbytes n cm (some (row_pfx maxbytes pfx row))) =
      ms.flatMap (fun m => flat_decls maxbytes n
        ((m.set_id (m.id ++ row_pfx maxbytes pfx row)).set_start
          (row_start (m.set_id (m.id ++ row_pfx maxbytes pfx row)) row port.rows))
        (some (row_pfx maxbytes pfx row))) := by
  rw [generated_row_some maxbytes pfx port ms hm row, Option.getD_some, List.flatMap_map]

theorem row_fit (maxbytes : Nat) (port : port_t) (pfx : Option (List Nat)) (ms : List port_t)
    (hm : port.members = some ms)
    (hfit : (pfx.getD []).length + port.pfx_need + 2 ≤ maxbytes) (row : Nat)
    (hrow : row < port.rows) :
    row_pfx maxbytes pfx row = pfx.getD [] ++ 95 :: (Nat.toDigits 10 row).map Char.toNat ∧
      ∀ m ∈ ms, (pfx.getD [] ++ 95 :: (Nat.toDigits 10 row).map Char.toNat).length
        + m.pfx_need + 2 ≤ maxbytes := by
  have hw := digits_width_ge port.rows row hrow
  rw [pfx_need_members port ms hm] at hfit
  refine ⟨row_pfx_exact maxbytes pfx row (by omega), fun m hmem => ?_⟩
  have := pfx_need_le ms m hmem
  simp only [List.length_append, List.length_cons, List.length_map]
  omega

theorem flat_decls_form (maxbytes fuel : Nat) :
    ∀ (port : port_t) (pfx : Option (List Nat)) (d0 : List Nat),
      port.id = d0 ++ pfx.getD [] →
      (pfx.getD []).length + port.pfx_need + 2 ≤ maxbytes →
      ∀ q ∈ flat_decls maxbytes fuel port pfx,
        ∃ d ∈ d0 :: port_t.decl_ids_list (port.members.getD []), ∃ t,
          sfx_like t ∧ q.id = d ++ pfx.getD [] ++ t := by
  induction fuel with
  | zero => intro port pfx d0 _ _ q hq; simp [flat_decls] at hq
  | succ n ih =>
    intro port pfx d0 hid hfit q hq
    have hself : q = port → ∃ d ∈ d0 :: port_t.decl_ids_list (port.members.getD []), ∃ t,
        sfx_like t ∧ q.id = d ++ pfx.getD [] ++ t := by
      rintro rfl
      exact ⟨d0, by simp, [], sfx_like_nil, by simp [hid]⟩
    rw [flat_decls] at hq
    by_cases ho : port.role = .R_OTHER
    · rw [if_pos ho] at hq; simp at hq
    · rw [if_neg ho] at hq
      by_cases hg : port.role = .R_PORT_SET
      · rw [if_pos hg] at hq
        rcases List.mem_append.mp hq with hb | hs
        · obtain ⟨row, hrow, hq1⟩ := List.mem_flatMap.mp hb
          have hrow' : row < port.rows := List.mem_range.mp hrow
          cases hm : port.members with
          | none => simp [generated_row, clone_port_metadata, hm] at hq1
          | some ms =>
            rw [row_block_eq maxbytes n port pfx ms hm row] at hq1
            obtain ⟨m, hmem, hq2⟩ := List.mem_flatMap.mp hq1
            obtain ⟨hex, hfitm⟩ := row_fit maxbytes port pfx ms hm hfit row hrow'
            rw [hex] at hq2
            obtain ⟨hcid, hcm, hcn⟩ := clone_fields m
              (pfx.getD [] ++ 95 :: (Nat.toDigits 10 row).map Char.toNat)
              (row_start (m.set_id (m.id ++ (pfx.getD [] ++ 95 ::
                (Nat.toDigits 10 row).map Char.toNat))) row port.rows)
            obtain ⟨d, hd, t, ht, e⟩ := ih _
              (some (pfx.getD [] ++ 95 :: (Nat.toDigits 10 row).map Char.toNat)) m.id hcid
              (by simp only [Option.getD_some]; rw [hcn]; exact hfitm m hmem) q hq2
            rw [hcm, ← decl_ids_eq] at hd
            refine ⟨d, ?_, 95 :: ((Nat.toDigits 10 row).map Char.toNat ++ t), sfx_like_cons _, ?_⟩
            · simp only [Option.getD_some]
              exact List.mem_cons_of_mem _ ((decl_ids_sublist ms m hmem).subset hd)
            · rw [e]; simp
        · exact hself (by simpa using hs)
      · rw [if_neg hg] at hq
        exact hself (by simpa using hq)

/-- Every id a row of a group gives is a declared id of a member followed by the postfix of
the row and a further postfix. -/
theorem row_block_form (maxbytes n : Nat) (port : port_t) (pfx : Option (List Nat))
    (ms : List port_t) (hm : port.members = some ms)
    (hfit : (pfx.getD []).length + port.pfx_need + 2 ≤ maxbytes) (row : Nat)
    (hrow : row < port.rows) (m : port_t) (hmem : m ∈ ms) :
    ∀ q ∈ flat_decls maxbytes n
        ((m.set_id (m.id ++ row_pfx maxbytes pfx row)).set_start
          (row_start (m.set_id (m.id ++ row_pfx maxbytes pfx row)) row port.rows))
        (some (row_pfx maxbytes pfx row)),
      ∃ d ∈ m.decl_ids, ∃ t, sfx_like t ∧
        q.id = d ++ (pfx.getD [] ++ 95 :: (Nat.toDigits 10 row).map Char.toNat) ++ t := by
  intro q hq
  obtain ⟨hex, hfitm⟩ := row_fit maxbytes port pfx ms hm hfit row hrow
  rw [hex] at hq
  obtain ⟨hcid, hcm, hcn⟩ := clone_fields m
    (pfx.getD [] ++ 95 :: (Nat.toDigits 10 row).map Char.toNat)
    (row_start (m.set_id (m.id ++ (pfx.getD [] ++ 95 ::
      (Nat.toDigits 10 row).map Char.toNat))) row port.rows)
  obtain ⟨d, hd, t, ht, e⟩ := flat_decls_form maxbytes n _
    (some (pfx.getD [] ++ 95 :: (Nat.toDigits 10 row).map Char.toNat)) m.id hcid
    (by simp only [Option.getD_some]; rw [hcn]; exact hfitm m hmem) q hq
  rw [hcm, ← decl_ids_eq] at hd
  exact ⟨d, hd, t, ht, by simpa using e⟩


theorem flat_decls_nodup (maxbytes fuel : Nat) :
    ∀ (port : port_t) (pfx : Option (List Nat)) (d0 : List Nat),
      port.id = d0 ++ pfx.getD [] → sfx_like (pfx.getD []) →
      (d0 :: port_t.decl_ids_list (port.members.getD [])).Nodup →
      no_underscore_extension (d0 :: port_t.decl_ids_list (port.members.getD [])) →
      (pfx.getD []).length + port.pfx_need + 2 ≤ maxbytes →
      ((flat_decls maxbytes fuel port pfx).map (fun q => q.id)).Nodup := by
  induction fuel with
  | zero => intro port pfx d0 _ _ _ _ _; simp [flat_decls]
  | succ n ih =>
    intro port pfx d0 hid hP hnd hne hfit
    rw [flat_decls]
    by_cases ho : port.role = .R_OTHER
    · rw [if_pos ho]; simp
    · rw [if_neg ho]
      by_cases hg : port.role = .R_PORT_SET
      · rw [if_pos hg]
        cases hm : port.members with
        | none =>
          have hnil : ((List.range port.rows).flatMap fun (_ : Nat) => ([] : List port_t)) = [] := by
            induction List.range port.rows with
            | nil => rfl
            | cons x xs ihx => simp [List.flatMap_cons]
          simp [generated_row, clone_port_metadata, hm, hnil]
        | some ms =>
          rw [hm, Option.getD_some] at hnd hne
          have hnd' : (port_t.decl_ids_list ms).Nodup := (List.nodup_cons.mp hnd).2
          have hd0 : d0 ∉ port_t.decl_ids_list ms := (List.nodup_cons.mp hnd).1
          have hne' : no_underscore_extension (port_t.decl_ids_list ms) :=
            no_underscore_extension_mono _ _ (List.subset_cons_self _ _) hne
          have hform : ∀ row, row < port.rows →
              ∀ q ∈ ((generated_row maxbytes pfx port row).getD []).flatMap
                (fun cm => flat_decls maxbytes n cm (some (row_pfx maxbytes pfx row))),
              ∃ d ∈ port_t.decl_ids_list ms, ∃ t, sfx_like t ∧
                q.id = d ++ (pfx.getD [] ++ 95 :: (Nat.toDigits 10 row).map Char.toNat) ++ t := by
            intro row hrow q hq
            rw [row_block_eq maxbytes n port pfx ms hm row] at hq
            obtain ⟨m, hmem, hq2⟩ := List.mem_flatMap.mp hq
            obtain ⟨d, hd, t, ht, e⟩ :=
              row_block_form maxbytes n port pfx ms hm hfit row hrow m hmem q hq2
            exact ⟨d, (decl_ids_sublist ms m hmem).subset hd, t, ht, e⟩
          rw [List.map_append, List.nodup_append]
          refine ⟨?_, by simp, ?_⟩
          · apply rows_ids_nodup _ (pfx.getD []) hP (port_t.decl_ids_list ms) hne' port.rows _ hform
            intro row hrow
            rw [row_block_eq maxbytes n port pfx ms hm row]
            obtain ⟨hex, hfitm⟩ := row_fit maxbytes port pfx ms hm hfit row hrow
            apply members_ids_nodup _ (pfx.getD [] ++ 95 :: (Nat.toDigits 10 row).map Char.toNat)
              (sfx_like_append _ _ hP (sfx_like_cons _)) ms hnd' hne'
            · intro m hmem
              rw [hex]
              obtain ⟨hcid, hcm, hcn⟩ := clone_fields m
                (pfx.getD [] ++ 95 :: (Nat.toDigits 10 row).map Char.toNat)
                (row_start (m.set_id (m.id ++ (pfx.getD [] ++ 95 ::
                  (Nat.toDigits 10 row).map Char.toNat))) row port.rows)
              have hsub := decl_ids_sublist ms m hmem
              apply ih _ (some (pfx.getD [] ++ 95 :: (Nat.toDigits 10 row).map Char.toNat)) m.id
                hcid (sfx_like_append _ _ hP (sfx_like_cons _))
              · rw [hcm, ← decl_ids_eq]; exact hnd'.sublist hsub
              · rw [hcm, ← decl_ids_eq]
                exact no_underscore_extension_mono _ _ hsub.subset hne'
              · simp only [Option.getD_some]; rw [hcn]; exact hfitm m hmem
            · intro m hmem q hq
              exact row_block_form maxbytes n port pfx ms hm hfit row hrow m hmem q hq
          · intro x hx1 hx2
            obtain ⟨q, hq, rfl⟩ := List.mem_map.mp hx1
            obtain ⟨row, hrow, hq1⟩ := List.mem_flatMap.mp hq
            obtain ⟨d, hd, t, ht, e⟩ := hform row (List.mem_range.mp hrow) q hq1
            have hx : q.id = port.id := by simpa using hx2
            have heq : d ++ (pfx.getD [] ++ 95 :: ((Nat.toDigits 10 row).map Char.toNat ++ t)) =
                d0 ++ pfx.getD [] := by
              rw [← hid, ← hx, e]; simp
            have hsplit := id_postfix_split d d0 _ _ heq
              (sfx_like_append _ _ hP (sfx_like_cons _)) hP
              (hne d (by simp [hd]) d0 (by simp)) (hne d0 (by simp) d (by simp [hd]))
            exact hd0 (hsplit.1 ▸ hd)
      · rw [if_neg hg]; simp

/-- Claim C30 as the code has it: when the ids declared in the table, at top level and in
the member tables at every depth, are pairwise distinct, none of them is another one
followed by `_` and further bytes, and every row postfix fits the postfix buffer, the ids of
the ports of the flat list after `create_ports` on a fresh wrapper are pairwise distinct. -/
theorem create_ports_ids_nodup (maxbytes : Nat) (meta : List port_t)
    (hnd : (port_t.decl_ids_list meta).Nodup)
    (hne : no_underscore_extension (port_t.decl_ids_list meta))
    (hfit : ∀ m ∈ meta, m.pfx_need + 2 ≤ maxbytes) :
    ((create_ports maxbytes meta PortRegistry.empty).vPorts.map
      (fun q => q.metadata.id)).Nodup := by
  have hflat := create_ports_flat maxbytes meta PortRegistry.empty
  have hmap : (create_ports maxbytes meta PortRegistry.empty).vPorts.map (fun q => q.metadata.id)
      = ((create_ports maxbytes meta PortRegistry.empty).vPorts.map
          (fun q => q.metadata)).map (fun d => d.id) := by
    rw [List.map_map]; rfl
  rw [hmap, hflat]
  simp only [PortRegistry.empty, List.map_nil, List.nil_append]
  apply members_ids_nodup _ [] sfx_like_nil meta hnd hne
  · intro m hmem
    have hsub := decl_ids_sublist meta m hmem
    apply flat_decls_nodup maxbytes _ m none m.id (by simp) sfx_like_nil
    · rw [← decl_ids_eq]; exact hnd.sublist hsub
    · rw [← decl_ids_eq]; exact no_underscore_extension_mono _ _ hsub.subset hne
    · simpa using hfit m hmem
  · intro m hmem q hq
    obtain ⟨d, hd, t, ht, e⟩ := flat_decls_form maxbytes _ m none m.id (by simp)
      (by simpa using hfit m hmem) q hq
    rw [← decl_ids_eq] at hd
    exact ⟨d, hd, t, ht, by simpa using e⟩

theorem create_ports_ids_nodup_witness :
    ((create_ports 64 demo_nested_table PortRegistry.empty).vPorts.map
      (fun q => q.metadata.id)).Nodup :=
  create_ports_ids_nodup 64 demo_nested_table (by decide)
    (by
      intro a ha b hb t h
      have hlen : ∀ x ∈ port_t.decl_ids_list demo_nested_table, x.length = 1 := by decide
      have h1 := hlen a ha
      have h2 := hlen b hb
      have h3 := congrArg List.length h
      simp only [List.length_append, List.length_cons] at h3
      omega)
    (by decide)

/-- Claim C30 as stated fails: in each of the two tables the ids declared at top level are
pairwise distinct and so are the member ids inside each port group, and yet two ports of
the flat list have the same id: `x_0` is generated for both groups that have the member
`x`, and `x_0` is generated for the member `x` beside the plain port declared as `x_0`. -/
theorem create_ports_ids_clash :
    ((demo_twin_groups.map (fun m => m.id)).Nodup ∧
      (∀ g ∈ demo_twin_groups, ((g.members.getD []).map (fun m => m.id)).Nodup) ∧
      ¬ ((create_ports 64 demo_twin_groups PortRegistry.empty).vPorts.map
        (fun q => q.metadata.id)).Nodup) ∧
    ((demo_clash_table.map (fun m => m.id)).Nodup ∧
      (∀ g ∈ demo_clash_table, ((g.members.getD []).map (fun m => m.id)).Nodup) ∧
      ¬ ((create_ports 64 demo_clash_table PortRegistry.empty).vPorts.map
        (fun q => q.metadata.id)).Nodup) := by
  decide

/-! ## Termination of the drain loop -/


theorem tx_pending_count_cons (n : KVTNode) (s : List KVTNode) :
    tx_pending_count (n :: s) = tx_pending_count s + (if n.tx_pending = true then 1 else 0) := by
  unfold tx_pending_count
  rw [List.countP_cons]

/-- A pass of the drain loop takes from the entries pending toward the UI exactly those it
delivers, and enqueues nothing when the UI callback enqueues nothing. -/
theorem tx_pass_count (env : KVTSyncEnv) (hw : ∀ name p, env.kvt_write name p = [])
    (s : List KVTNode) :
    tx_pending_count (tx_pass env s).1 + (tx_pass env s).2.1.length = tx_pending_count s ∧
      (tx_pass env s).2.2 = [] := by
  induction s with
  | nil => exact ⟨rfl, rfl⟩
  | cons n rest ih =>
    obtain ⟨ih1, ih2⟩ := ih
    rw [tx_pass]
    by_cases hp : n.tx_pending = false
    · rw [if_pos hp]
      simp only [tx_pending_count_cons, hp]
      exact ⟨by simpa using ih1, ih2⟩
    · rw [if_neg hp]
      have hp' : n.tx_pending = true := by simpa using hp
      cases hname : n.name with
      | none => exact ⟨rfl, rfl⟩
      | some name =>
        simp only
        by_cases h2 : n.res ≠ .STATUS_OK
        · rw [if_pos h2]; exact ⟨rfl, rfl⟩
        · rw [if_neg h2]
          by_cases h3 : env.commit_tx name ≠ .STATUS_OK
          · rw [if_pos h3]; exact ⟨rfl, rfl⟩
          · rw [if_neg h3]
            simp only [tx_pending_count_cons, hp', hw, List.nil_append, List.length_cons,
              if_true, Bool.false_eq_true, if_false]
            exact ⟨by omega, ih2⟩

theorem tx_drain_bound (env : KVTSyncEnv) (hw : ∀ name p, env.kvt_write name p = [])
    (fuel : Nat) :
    ∀ (s : KVTStorage), tx_pending_count s < fuel →
      ∃ s' w k, tx_drain env fuel s = some (s', w, k) ∧ k ≤ tx_pending_count s + 1 := by
  induction fuel with
  | zero => intro s h; omega
  | succ f ih =>
    intro s h
    obtain ⟨hc, he⟩ := tx_pass_count env hw s
    rw [tx_drain]
    simp only [he, List.append_nil]
    by_cases hd : (tx_pass env s).2.1.length > 0
    · rw [if_pos hd]
      obtain ⟨s', w, k, hk, hb⟩ := ih (tx_pass env s).1 (by omega)
      rw [hk]
      exact ⟨s', _, k + 1, rfl, by omega⟩
    · rw [if_neg hd]
      exact ⟨_, _, 1, rfl, by omega⟩

/-- Claim C31: when the UI callback enqueues nothing, the loop `do ... while (sync > 0)` of
`transfer_dsp_to_ui` ends for every store and every outcome of the iterator operations: with
`n` entries pending toward the UI it makes at most `n + 1` passes (fuel for `n + 1` passes is
enough), and `transfer_dsp_to_ui` returns. -/
theorem tx_drain_terminates (env : KVTSyncEnv) (fuel : Nat) (acquired : Bool) (st : UIBridge)
    (hw : ∀ name p, env.kvt_write name p = []) (hf : tx_pending_count st.sKVT < fuel) :
    (∃ s' w k, tx_drain env fuel st.sKVT = some (s', w, k) ∧
        k ≤ tx_pending_count st.sKVT + 1) ∧
      ∃ st', transfer_dsp_to_ui env fuel acquired st = some st' := by
  obtain ⟨s', w, k, hk, hb⟩ := tx_drain_bound env hw fuel st.sKVT hf
  refine ⟨⟨s', w, k, hk, hb⟩, ?_⟩
  unfold transfer_dsp_to_ui
  by_cases hui : st.has_ui = false
  · rw [if_pos hui]; exact ⟨_, rfl⟩
  · rw [if_neg hui]
    cases acquired with
    | false => exact ⟨_, rfl⟩
    | true =>
      rw [if_neg (by decide)]
      simp only [hk]
      exact ⟨_, rfl⟩

theorem tx_drain_terminates_witness :
    (∃ s' w k, tx_drain demo_failing_env 4 { demo_bridge with sKVT := demo_pending_store }.sKVT
          = some (s', w, k) ∧
        k ≤ tx_pending_count { demo_bridge with sKVT := demo_pending_store }.sKVT + 1) ∧
      ∃ st', transfer_dsp_to_ui demo_failing_env 4 true
        { demo_bridge with sKVT := demo_pending_store } = some st' :=
  tx_drain_terminates demo_failing_env 4 true { demo_bridge with sKVT := demo_pending_store }
    (fun _ _ => rfl) (by decide)

/-! ## Validity flags of the transport answer -/


theorem flagged_two_pow (flags i : Nat) : flagged flags (2 ^ i) ↔ flags.testBit i = true := by
  unfold flagged
  rw [Nat.and_two_pow]
  cases flags.testBit i <;> simp

/-- For two flags that are single bits, the test `(flags & (a | b)) == (a | b)` of
`sync_position` holds exactly when both are set. -/
theorem flagged_both (flags i j : Nat) :
    flags &&& (2 ^ i ||| 2 ^ j) = 2 ^ i ||| 2 ^ j ↔
      flagged flags (2 ^ i) ∧ flagged flags (2 ^ j) := by
  rw [flagged_two_pow, flagged_two_pow]
  constructor
  · intro h
    have hi := congrArg (fun x => x.testBit i) h
    have hj := congrArg (fun x => x.testBit j) h
    simp only [Nat.testBit_and, Nat.testBit_or, Nat.testBit_two_pow_self, Bool.true_or,
      Bool.or_true, Bool.and_true] at hi hj
    exact ⟨hi, hj⟩
  · rintro ⟨hi, hj⟩
    apply Nat.eq_of_testBit_eq
    intro m
    simp only [Nat.testBit_and, Nat.testBit_or, Nat.testBit_two_pow]
    by_cases h1 : i = m
    · subst h1; simp [hi]
    · by_cases h2 : j = m
      · subst h2; simp [hj]
      · simp [h1, h2]

/-- Claim C32: when the host answers the transport query, the snapshot after
`sync_position` has the sample rate and the frame of the answer; the numerator and the
denominator are those of the answer when the time signature is flagged valid and the
previous ones otherwise; the tick is computed from the answer when time signature, ppq
position and bar start are all flagged valid and is the previous one otherwise; the tempo is
that of the answer when it is flagged valid and the previous one otherwise. -/
theorem sync_position_flags (env : RunEnv) (st : RunState) (info : VstTimeInfo)
    (hq : env.get_time = some info)
    (hppq : ∃ i, env.kVstPpqPosValid = 2 ^ i) (hbars : ∃ j, env.kVstBarsValid = 2 ^ j) :
    (sync_position env st).sPosition.sampleRate = info.sampleRate ∧
    (sync_position env st).sPosition.frame = to_integer info.samplePos ∧
    (flagged info.flags env.kVstTimeSigValid →
      (sync_position env st).sPosition.numerator = info.timeSigNumerator ∧
      (sync_position env st).sPosition.denominator = info.timeSigDenominator) ∧
    (¬ flagged info.flags env.kVstTimeSigValid →
      (sync_position env st).sPosition.numerator = st.sPosition.numerator ∧
      (sync_position env st).sPosition.denominator = st.sPosition.denominator) ∧
    (flagged info.flags env.kVstTimeSigValid ∧ flagged info.flags env.kVstPpqPosValid ∧
        flagged info.flags env.kVstBarsValid →
      (sync_position env st).sPosition.tick =
        env.DEFAULT_TICKS_PER_BEAT *
          ((info.ppqPos - info.barStartPos) * info.timeSigDenominator * (1 / 4) -
            to_integer ((info.ppqPos - info.barStartPos) * info.timeSigDenominator * (1 / 4)))) ∧
    (¬ (flagged info.flags env.kVstTimeSigValid ∧ flagged info.flags env.kVstPpqPosValid ∧
        flagged info.flags env.kVstBarsValid) →
      (sync_position env st).sPosition.tick = st.sPosition.tick) ∧
    (flagged info.flags env.kVstTempoValid →
      (sync_position env st).sPosition.beatsPerMinute = info.tempo) ∧
    (¬ flagged info.flags env.kVstTempoValid →
      (sync_position env st).sPosition.beatsPerMinute = st.sPosition.beatsPerMinute) := by
  obtain ⟨i, hi⟩ := hppq
  obtain ⟨j, hj⟩ := hbars
  have hpos : (sync_position env st).sPosition = new_position env st.sPosition info := by
    unfold sync_position
    rw [hq]
  have hboth : info.flags &&& (env.kVstPpqPosValid ||| env.kVstBarsValid)
      = (env.kVstPpqPosValid ||| env.kVstBarsValid) ↔
      flagged info.flags env.kVstPpqPosValid ∧ flagged info.flags env.kVstBarsValid := by
    rw [hi, hj]; exact flagged_both info.flags i j
  rw [hpos]
  refine ⟨?_, ?_, ?_, ?_, ?_, ?_, ?_, ?_⟩
  · unfold new_position
    simp only
    split_ifs <;> rfl
  · unfold new_position
    simp only
    split_ifs <;> rfl
  · intro hts
    have hts' : info.flags &&& env.kVstTimeSigValid ≠ 0 := hts
    unfold new_position
    simp only [if_pos hts']
    split_ifs <;> exact ⟨rfl, rfl⟩
  · intro hts
    have hts' : ¬ info.flags &&& env.kVstTimeSigValid ≠ 0 := hts
    unfold new_position
    simp only [if_neg hts']
    split_ifs <;> exact ⟨rfl, rfl⟩
  · rintro ⟨hts, hp, hb⟩
    have hts' : info.flags &&& env.kVstTimeSigValid ≠ 0 := hts
    unfold new_position
    simp only [if_pos hts', if_pos (hboth.mpr ⟨hp, hb⟩)]
    split_ifs <;> rfl
  · intro hn
    unfold new_position
    by_cases hts : info.flags &&& env.kVstTimeSigValid ≠ 0
    · have hpb : ¬ info.flags &&& (env.kVstPpqPosValid ||| env.kVstBarsValid)
          = (env.kVstPpqPosValid ||| env.kVstBarsValid) :=
        fun h => hn ⟨hts, hboth.mp h⟩
      simp only [if_pos hts, if_neg hpb]
      split_ifs <;> rfl
    · simp only [if_neg hts]
      split_ifs <;> rfl
  · intro htm
    have htm' : info.flags &&& env.kVstTempoValid ≠ 0 := htm
    unfold new_position
    simp only [if_pos htm']
  · intro htm
    have htm' : ¬ info.flags &&& env.kVstTempoValid ≠ 0 := htm
    unfold new_position
    simp only [if_neg htm']
    split_ifs <;> rfl

theorem sync_position_flags_witness :
    (sync_position demo_active_env demo_active_state).sPosition.sampleRate = 44100 ∧
    (sync_position demo_active_env demo_active_state).sPosition.frame = to_integer 1000 ∧
    (flagged (512 + 2048 + 8192) demo_active_env.kVstTimeSigValid →
      (sync_position demo_active_env demo_active_state).sPosition.numerator = (3 : Int) ∧
      (sync_position demo_active_env demo_active_state).sPosition.denominator = (4 : Int)) ∧
    (¬ flagged (512 + 2048 + 8192) demo_active_env.kVstTimeSigValid →
      (sync_position demo_active_env demo_active_state).sPosition.numerator
        = demo_active_state.sPosition.numerator ∧
      (sync_position demo_active_env demo_active_state).sPosition.denominator
        = demo_active_state.sPosition.denominator) ∧
    (flagged (512 + 2048 + 8192) demo_active_env.kVstTimeSigValid ∧
        flagged (512 + 2048 + 8192) demo_active_env.kVstPpqPosValid ∧
        flagged (512 + 2048 + 8192) demo_active_env.kVstBarsValid →
      (sync_position demo_active_env demo_active_state).sPosition.tick =
        demo_active_env.DEFAULT_TICKS_PER_BEAT *
          (((9 / 2 : ℚ) - 4) * (4 : Int) * (1 / 4) -
            to_integer (((9 / 2 : ℚ) - 4) * (4 : Int) * (1 / 4)))) ∧
    (¬ (flagged (512 + 2048 + 8192) demo_active_env.kVstTimeSigValid ∧
        flagged (512 + 2048 + 8192) demo_active_env.kVstPpqPosValid ∧
        flagged (512 + 2048 + 8192) demo_active_env.kVstBarsValid) →
      (sync_position demo_active_env demo_active_state).sPosition.tick
        = demo_active_state.sPosition.tick) ∧
    (flagged (512 + 2048 + 8192) demo_active_env.kVstTempoValid →
      (sync_position demo_active_env demo_active_state).sPosition.beatsPerMinute = 140) ∧
    (¬ flagged (512 + 2048 + 8192) demo_active_env.kVstTempoValid →
      (sync_position demo_active_env demo_active_state).sPosition.beatsPerMinute
        = demo_active_state.sPosition.beatsPerMinute) :=
  sync_position_flags demo_active_env demo_active_state
    ⟨1000, 44100, 9 / 2, 140, 4, 3, 4, 512 + 2048 + 8192⟩ rfl ⟨9, rfl⟩ ⟨11, rfl⟩

/-! ## Bounds of a record -/


/-- The port loop returns when `record_head` gives nothing inside the loop, and it returns
on the name check of `record_head`. -/
theorem v2_port_loop_record_head {V : Type} (fuel : Nat) (head : List Nat) (rem : Int)
    (ports : List (VSTPort V)) :
    (record_head head rem = none →
      v2_port_loop (fuel + 1) head rem ports =
        (ports, if 4 ≤ to_size_t rem then .returned else .left head rem)) ∧
    (∀ len bound n, record_head head rem = some (len, bound, n) →
      (((n + 1) % 2 ^ 32 : Nat) : Int) > (len : Int) - 4 →
      v2_port_loop (fuel + 1) head rem ports = (ports, .returned)) := by
  unfold record_head
  rw [v2_port_loop]
  by_cases h4 : 4 ≤ to_size_t rem
  · simp only [if_pos h4]
    by_cases hl : (((be32 head + 4) % 2 ^ 32 : Nat) : Int) > rem
    · simp only [if_pos hl]
      exact ⟨fun _ => trivial, fun _ _ _ h => by simp at h⟩
    · simp only [if_neg hl]
      refine ⟨fun h => by simp at h, fun len bound n h hn => ?_⟩
      simp only [Option.some.injEq, Prod.mk.injEq] at h
      obtain ⟨rfl, rfl, rfl⟩ := h
      rw [if_pos hn]
  · simp only [if_neg h4]
    exact ⟨fun _ => trivial, fun _ _ _ h => by simp at h⟩

/-- Where the length field plus 4 fits 32 bits, a record that passes the length check ends
at least 4 bytes behind its start and not behind `tail`, and the name is searched in the
record only. -/
theorem record_head_in_bounds (head : List Nat) (rem : Int) (len bound n : Nat)
    (hfit : be32 head + 4 < 2 ^ 32) (h : record_head head rem = some (len, bound, n)) :
    4 ≤ len ∧ (len : Int) ≤ rem ∧ bound = len - 4 ∧ n ≤ len - 4 := by
  unfold record_head at h
  by_cases h4 : 4 ≤ to_size_t rem
  · rw [if_pos h4] at h
    simp only [Nat.mod_eq_of_lt hfit] at h
    by_cases hl : ((be32 head + 4 : Nat) : Int) > rem
    · rw [if_pos hl] at h; simp at h
    · rw [if_neg hl] at h
      simp only [Option.some.injEq, Prod.mk.injEq] at h
      obtain ⟨rfl, rfl, rfl⟩ := h
      have hb : to_size_t (((be32 head + 4 : Nat) : Int) - 4) = be32 head + 4 - 4 := by
        unfold to_size_t; omega
      rw [hb]
      exact ⟨by omega, by omega, rfl, strnlen_le _ _⟩
  · rw [if_neg h4] at h; simp at h

/-- Claim C33, evaluated on the code.  A record whose length field is `FF FF FF FF` passes
the length check with `tail` 4 bytes behind its start: `next` lies 3 bytes behind the start,
inside the length field, the bound handed to `strnlen` is `2^64 - 1`, and the name is
searched in the 4 bytes behind `tail`.  In the KVT loop a record that ends with the NUL of
its name has its type byte read at `next`: from the bytes `73 00` behind `tail` the loop puts
`/x` into the store as an empty string, while without them it puts nothing. -/
theorem record_head_wraps :
    record_head demo_wrap_body 4 = some (3, 2 ^ 64 - 1, 4) ∧
      (v2_port_loop 5 demo_wrap_body 4 (demo_wrapper [] [] []).vPorts).2 = .returned ∧
      v2_kvt_loop demo_consts 5 (chunk_record [47, 120, 0] ++ [115, 0]) 7 [] =
        [⟨some [47, 120], .STATUS_OK, .str (some []), true, false⟩] ∧
      v2_kvt_loop demo_consts 5 (chunk_record [47, 120, 0]) 7 [] = [] := by
  decide

/-! ## Nodes that are no parameters -/


theorem kvt_pairs_append (c : VSTConsts) (a b : List KVTNode) :
    kvt_pairs c (a ++ b) = kvt_pairs c a ++ kvt_pairs c b := by
  simp [kvt_pairs, List.filterMap_append]

theorem kvt_pairs_filter (c : VSTConsts) (nodes : List KVTNode) :
    kvt_pairs c (parameters_only nodes) = kvt_pairs c nodes := by
  unfold parameters_only
  induction nodes with
  | nil => rfl
  | cons n rest ih =>
    by_cases h : n.res = .STATUS_NOT_FOUND
    · rw [List.filter_cons_of_neg (by simp [h]), ih,
        kvt_pairs_skip c n rest (by rw [h]; decide)]
    · rw [List.filter_cons_of_pos (by simp [h])]
      by_cases hok : n.res = .STATUS_OK
      · cases hn : n.name with
        | none =>
          simp only [kvt_pairs, List.filterMap_cons, hok, hn, if_true, Option.map_none'] at ih ⊢
          exact ih
        | some name =>
          rw [kvt_pairs_param c n _ name hok hn, kvt_pairs_param c n _ name hok hn, ih]
      · rw [kvt_pairs_skip c n _ hok, kvt_pairs_skip c n _ hok, ih]

/-- Claim C34, on the code: for an enumeration of valid parameters and of nodes that are
no parameters, `serialize_state` returns 0 and NULL when the last node is no parameter,
whereas for the same enumeration with the nodes that are no parameters removed it returns a
bank whose body holds the port records and the records of all the parameters. -/
theorem serialize_state_not_found_last {V : Type} (c : VSTConsts) (w : VSTWrapper V)
    (nodes : List KVTNode) (last : KVTNode)
    (hall : ∀ n ∈ nodes, n.res = .STATUS_NOT_FOUND ∨
      (n.res = .STATUS_OK ∧ n.name ≠ none ∧ valid_param n.param))
    (hlast : last.res = .STATUS_NOT_FOUND) :
    serialize_state c { w with sKVT := nodes ++ [last] } = none ∧
      ∃ size bank,
        serialize_state c { w with sKVT := parameters_only (nodes ++ [last]) }
          = some (size, bank) ∧
        bank.body = serialize_ports w.vPorts ++
          record_stream ((kvt_pairs c (nodes ++ [last])).map framed) := by
  have hall' : ∀ n ∈ nodes ++ [last], n.res = .STATUS_NOT_FOUND ∨
      (n.res = .STATUS_OK ∧ n.name ≠ none ∧ valid_param n.param) := by
    intro n hn
    rcases List.mem_append.mp hn with h | h
    · exact hall n h
    · simp only [List.mem_singleton] at h
      subst h
      exact Or.inl hlast
  have hfil : ∀ n ∈ parameters_only (nodes ++ [last]),
      n.res = .STATUS_NOT_FOUND ∨
        (n.res = .STATUS_OK ∧ n.name ≠ none ∧ valid_param n.param) :=
    fun n hn => hall' n (List.mem_filter.mp hn).1
  have hres : ∀ n ∈ parameters_only (nodes ++ [last]),
      n.res = .STATUS_OK := by
    intro n hn
    have h1 := (List.mem_filter.mp hn).2
    rcases hfil n hn with h | h
    · simp [h] at h1
    · exact h.1
  constructor
  · unfold serialize_state
    simp only
    rw [serialize_kvt_valid c _ _ hall', if_pos]
    simp [hlast]
  · unfold serialize_state
    simp only
    rw [serialize_kvt_valid c _ _ hfil]
    have hstat : (((parameters_only (nodes ++ [last])).getLast?.map (fun n => n.res)).getD
          .STATUS_OK) = .STATUS_OK := by
      cases hl : (parameters_only (nodes ++ [last])).getLast? with
      | none => rfl
      | some x =>
        simp only [Option.map_some', Option.getD_some]
        exact hres x (List.mem_of_getLast?_eq_some hl)
    simp only [hstat, ne_eq, not_true_eq_false, if_false]
    exact ⟨_, _, rfl, by rw [kvt_pairs_filter]⟩

theorem serialize_state_not_found_last_witness :
    serialize_state demo_consts
        { demo_wrapper [1, 2] [3] [] with sKVT := demo_store ++ [demo_branch_node] } = none ∧
      ∃ size bank,
        serialize_state demo_consts { demo_wrapper [1, 2] [3] [] with
          sKVT := parameters_only (demo_store ++ [demo_branch_node]) } = some (size, bank) ∧
        bank.body = serialize_ports (demo_wrapper [1, 2] [3] []).vPorts ++
          record_stream ((kvt_pairs demo_consts (demo_store ++ [demo_branch_node])).map framed) :=
  serialize_state_not_found_last demo_consts (demo_wrapper [1, 2] [3] []) demo_store
    demo_branch_node
    (by
      intro n hn
      simp only [demo_store, List.mem_singleton] at hn
      subst hn
      exact Or.inr ⟨rfl, by simp, trivial⟩)
    rfl

/-- Where the last node of the enumeration is a parameter, the nodes that are no parameters
make no difference to what `serialize_state` returns. -/
theorem serialize_state_skips_inner_nodes {V : Type} (c : VSTConsts) (w : VSTWrapper V)
    (nodes : List KVTNode) (last : KVTNode)
    (hall : ∀ n ∈ nodes ++ [last], n.res = .STATUS_NOT_FOUND ∨
      (n.res = .STATUS_OK ∧ n.name ≠ none ∧ valid_param n.param))
    (hlast : last.res = .STATUS_OK) :
    serialize_state c { w with sKVT := nodes ++ [last] } =
      serialize_state c { w with sKVT := parameters_only (nodes ++ [last]) } := by
  have hfil : ∀ n ∈ parameters_only (nodes ++ [last]),
      n.res = .STATUS_NOT_FOUND ∨
        (n.res = .STATUS_OK ∧ n.name ≠ none ∧ valid_param n.param) :=
    fun n hn => hall n (List.mem_filter.mp hn).1
  have hpl : parameters_only (nodes ++ [last]) = parameters_only nodes ++ [last] := by
    unfold parameters_only
    rw [List.filter_append]
    simp [hlast]
  unfold serialize_state
  simp only
  rw [serialize_kvt_valid c _ _ hall, serialize_kvt_valid c _ _ hfil, kvt_pairs_filter, hpl]
  simp [hlast]

/-! ## Release of the KVT mutex -/


theorem serialize_state_locking_acquired {V : Type} (c : VSTConsts) (w : VSTWrapper V) :
    (serialize_state_locking c w true).1 = serialize_state c w := rfl

theorem deserialize_v2_locking_acquired {V : Type} (c : VSTConsts) (w : VSTWrapper V)
    (bank : fxBank) (bytes : Nat) :
    (deserialize_v2_locking c w bank bytes true).1 = deserialize_v2 c w bank bytes := by
  unfold deserialize_v2_locking deserialize_v2
  simp only
  split
  · rfl
  · split_ifs <;> rfl

theorem lock_after_append (held : Bool) (a b : List kvt_call) :
    lock_after held (a ++ b) = (lock_after held a).bind (fun h => lock_after h b) := by
  induction a generalizing held with
  | nil => rfl
  | cons x xs ih =>
    simp only [List.cons_append, lock_after]
    cases lock_step held x with
    | none => rfl
    | some h => simp only [Option.some_bind]; exact ih h

theorem lock_after_passes (held : Bool) (k : Nat) :
    lock_after held (List.replicate k kvt_call.enum_tx_pending) = some held := by
  induction k with
  | zero => rfl
  | succ n ih => simp only [List.replicate_succ, lock_after, lock_step, Option.some_bind, ih]

theorem transfer_lock_balanced (env : KVTSyncEnv) (fuel : Nat) (tried : Bool)
    (st st' : UIBridge) (h : transfer_dsp_to_ui env fuel tried st = some st') :
    ∃ new, st'.kvt_calls = st.kvt_calls ++ new ∧ lock_after false new = some false := by
  unfold transfer_dsp_to_ui at h
  by_cases hui : st.has_ui = false
  · rw [if_pos hui] at h
    simp only [Option.some.injEq] at h
    subst h
    exact ⟨[], by simp, rfl⟩
  · rw [if_neg hui] at h
    cases tried with
    | false =>
      simp only [if_true, Option.some.injEq] at h
      subst h
      exact ⟨[.try_lock false], rfl, rfl⟩
    | true =>
      rw [if_neg (by decide)] at h
      cases hd : tx_drain env fuel st.sKVT with
      | none => simp [hd] at h
      | some r =>
        obtain ⟨s, written, passes⟩ := r
        simp only [hd, Option.some.injEq] at h
        subst h
        refine ⟨[.try_lock true] ++ List.replicate passes .enum_tx_pending ++
          [if env.LSP_DEBUG then .enum_rx_pending else .commit_all_rx, .gc, .unlock],
          by simp only [List.append_assoc], ?_⟩
        rw [lock_after_append, lock_after_append]
        simp only [lock_after, lock_step, if_true, Bool.false_eq_true, if_false,
          Option.some_bind, lock_after_passes]
        cases env.LSP_DEBUG <;> rfl

theorem show_ui_lock_balanced (env : KVTSyncEnv) (fuel : Nat) (created acquired tried : Bool)
    (st : UIBridge) (r : Bool × UIBridge)
    (h : show_ui env fuel created acquired tried st = some r) :
    ∃ new, r.2.kvt_calls = st.kvt_calls ++ new ∧ lock_after false new = some false := by
  unfold show_ui at h
  by_cases hc : st.has_ui = false ∧ created = false
  · rw [if_pos hc] at h
    simp only [Option.some.injEq] at h
    subst h
    exact ⟨[], by simp, rfl⟩
  · rw [if_neg hc] at h
    simp only [Option.map_eq_some'] at h
    obtain ⟨st3, ht, rfl⟩ := h
    obtain ⟨new, hnew, hbal⟩ := transfer_lock_balanced env fuel tried _ st3 ht
    cases acquired with
    | true =>
      simp only [if_true] at hnew
      refine ⟨[.lock true, .touch_all, .unlock] ++ new, by rw [hnew, List.append_assoc], ?_⟩
      rw [lock_after_append]
      simp only [lock_after, lock_step, if_true, Bool.false_eq_true, if_false,
        Option.some_bind]
      exact hbal
    | false =>
      simp only [Bool.false_eq_true, if_false] at hnew
      refine ⟨[.lock false] ++ new, by rw [hnew, List.append_assoc], ?_⟩
      rw [lock_after_append]
      simp only [lock_after, lock_step, Bool.false_eq_true, if_false, Option.some_bind]
      exact hbal

/-- Claim C35: whatever `lock` and `try_lock` return, each of `serialize_state`,
`deserialize_v2`, `transfer_dsp_to_ui` and `show_ui`, called with the KVT mutex free,
leaves it free when it returns: on every path the calls it makes on the mutex are an
acquisition followed by one release, or a failed acquisition, or none, also when a record
loop or an iterator loop is left early. -/
theorem kvt_lock_released {V : Type} (c : VSTConsts) (w : VSTWrapper V) (bank : fxBank)
    (bytes : Nat) (env : KVTSyncEnv) (fuel : Nat) (created acquired tried : Bool)
    (st : UIBridge) :
    lock_after false (serialize_state_locking c w acquired).2 = some false ∧
    lock_after false (deserialize_v2_locking c w bank bytes acquired).2 = some false ∧
    (∀ st', transfer_dsp_to_ui env fuel tried st = some st' →
      ∃ new, st'.kvt_calls = st.kvt_calls ++ new ∧ lock_after false new = some false) ∧
    (∀ r, show_ui env fuel created acquired tried st = some r →
      ∃ new, r.2.kvt_calls = st.kvt_calls ++ new ∧ lock_after false new = some false) := by
  refine ⟨?_, ?_, fun st' h => transfer_lock_balanced env fuel tried st st' h,
    fun r h => show_ui_lock_balanced env fuel created acquired tried st r h⟩
  · unfold serialize_state_locking
    cases acquired <;> rfl
  · unfold deserialize_v2_locking
    simp only
    split
    · rfl
    · split_ifs
      · rfl
      · rfl
      · rfl

theorem transfer_returns (env : KVTSyncEnv) (fuel : Nat) (tried : Bool) (st : UIBridge)
    (hw : ∀ name p, env.kvt_write name p = []) (hf : tx_pending_count st.sKVT < fuel) :
    ∃ st', transfer_dsp_to_ui env fuel tried st = some st' := by
  obtain ⟨s', w, k, hk, -⟩ := tx_drain_bound env hw fuel st.sKVT hf
  unfold transfer_dsp_to_ui
  by_cases hui : st.has_ui = false
  · rw [if_pos hui]; exact ⟨_, rfl⟩
  · rw [if_neg hui]
    cases tried with
    | false => exact ⟨_, rfl⟩
    | true =>
      rw [if_neg (by decide)]
      simp only [hk]
      exact ⟨_, rfl⟩

/-- With a UI callback that enqueues nothing and fuel for one pass more than there are
nodes in the store, `show_ui` returns. -/
theorem show_ui_returns (env : KVTSyncEnv) (fuel : Nat) (created acquired tried : Bool)
    (st : UIBridge) (hw : ∀ name p, env.kvt_write name p = []) (hf : st.sKVT.length < fuel) :
    ∃ r, show_ui env fuel created acquired tried st = some r := by
  have hcount : ∀ s : KVTStorage, tx_pending_count s ≤ s.length := by
    intro s; unfold tx_pending_count; exact List.countP_le_length _
  unfold show_ui
  by_cases hc : st.has_ui = false ∧ created = false
  · rw [if_pos hc]; exact ⟨_, rfl⟩
  · rw [if_neg hc]
    cases acquired with
    | true =>
      simp only [if_true]
      obtain ⟨st', hst⟩ := transfer_returns env fuel tried
        { st with has_ui := true, sKVT := st.sKVT.touch_all,
                  kvt_calls := st.kvt_calls ++ [.lock true, .touch_all, .unlock] } hw
        (by
          have := hcount st.sKVT.touch_all
          simp only [KVTStorage.touch_all, List.length_map] at this ⊢
          omega)
      exact ⟨_, by rw [hst]; rfl⟩
    | false =>
      simp only [Bool.false_eq_true, if_false]
      obtain ⟨st', hst⟩ := transfer_returns env fuel tried
        { st with has_ui := true, kvt_calls := st.kvt_calls ++ [.lock false] } hw
        (by have := hcount st.sKVT; simp only at this ⊢; omega)
      exact ⟨_, by rw [hst]; rfl⟩

theorem kvt_lock_released_witness :
    ∃ r, show_ui demo_failing_env 4 true true true
        { demo_bridge with sKVT := demo_pending_store } = some r ∧
      ∃ new, r.2.kvt_calls = { demo_bridge with sKVT := demo_pending_store }.kvt_calls ++ new ∧
        lock_after false new = some false := by
  obtain ⟨r, hr⟩ := show_ui_returns demo_failing_env 4 true true true
    { demo_bridge with sKVT := demo_pending_store } (fun _ _ => rfl) (by decide)
  exact ⟨r, hr, (kvt_lock_released demo_consts (demo_wrapper [1, 2] [3] demo_store)
    demo_saved_bank 27 demo_failing_env 4 true true true
    { demo_bridge with sKVT := demo_pending_store }).2.2.2 r hr⟩

end LSP
